import Mathlib

/-! HotVault upload orchestration: shallow embedding and verified properties.

Go strings are modelled as lists of Unicode code points (`Str`); the tool output
handled by the pipeline is text, and the substring search, trimming and splitting
used by the source agree on code points and on UTF-8 bytes for well-formed text.
-/

namespace HotVault

/-- A Go string, as the list of its code points. -/
abbrev Str := List Char

/-! ## Go standard library functions used by the handlers -/

/-- Go `unicode.IsSpace`: the white space code points trimmed by `strings.TrimSpace`. -/
def isSpace (c : Char) : Bool :=
  let n := c.toNat
  n == 0x09 || n == 0x0A || n == 0x0B || n == 0x0C || n == 0x0D || n == 0x20 ||
  n == 0x85 || n == 0xA0 || n == 0x1680 || (0x2000 ≤ n && n ≤ 0x200A) ||
  n == 0x2028 || n == 0x2029 || n == 0x202F || n == 0x205F || n == 0x3000

/-- Go `strings.TrimSpace`: drop leading and trailing white space. -/
def TrimSpace (s : Str) : Str :=
  ((s.dropWhile isSpace).reverse.dropWhile isSpace).reverse

/-- Go `strings.Split(s, "\n")`: the pieces between newlines, one more than the newlines. -/
def splitLines : Str → List Str
  | [] => [[]]
  | c :: cs =>
    if c = '\n' then [] :: splitLines cs
    else
      match splitLines cs with
      | [] => [[c]]
      | l :: ls => (c :: l) :: ls

/-- Go `strings.HasPrefix(s, p)`. -/
def hasPrefix : Str → Str → Bool
  | _, [] => true
  | [], _ :: _ => false
  | c :: s, d :: p => c == d && hasPrefix s p

/-- Go `strings.Index(s, sub)`: position of the first occurrence of `sub`, `none` for -1. -/
def Index : Str → Str → Option Nat
  | [], sub => if hasPrefix [] sub then some 0 else none
  | c :: s, sub =>
    if hasPrefix (c :: s) sub then some 0
    else (Index s sub).map (· + 1)

/-- Go `strings.Contains(s, sub)`. -/
def Contains (s sub : Str) : Bool := (Index s sub).isSome

/-- An ASCII decimal digit. -/
def isDigit (c : Char) : Bool := '0'.toNat ≤ c.toNat && c.toNat ≤ '9'.toNat

/-- Value of a run of decimal digits, most significant first. -/
def digitsValue (ds : Str) : Nat :=
  ds.foldl (fun n c => n * 10 + (c.toNat - '0'.toNat)) 0

/-- Go `strconv.Atoi` on a 64-bit platform: an optional sign, at least one decimal
digit, nothing else, and the value within the range of `int`; `none` is an error. -/
def Atoi (s : Str) : Option Int :=
  let neg := match s with
    | '-' :: _ => true
    | _ => false
  let ds := match s with
    | '-' :: t => t
    | '+' :: t => t
    | _ => s
  if ds.isEmpty || !ds.all isDigit then none
  else
    let n := digitsValue ds
    if neg then (if n ≤ 2 ^ 63 then some (-(n : Int)) else none)
    else (if n < 2 ^ 63 then some (n : Int) else none)

/-! ## Root ID extraction from `get-proof-set` output (`processUpload`) -/

/-- The marker of a record id line. -/
def rootIDMarker : Str := "Root ID:".toList

/-- The marker of a record CID line. -/
def rootCIDMarker : Str := "Root CID:".toList

/-- The trimmed text after the first occurrence of `marker` in a trimmed line:
`strings.TrimSpace(trimmedLine[idx+len(marker):])` when `strings.Index` finds it. -/
def valueAfter (marker trimmedLine : Str) : Option Str :=
  (Index trimmedLine marker).map
    (fun idx => TrimSpace (trimmedLine.drop (idx + marker.length)))

/-- The update of `lastSeenRootID` by one trimmed line: a line containing `Root ID:`
stores its value when `strconv.Atoi` accepts it and resets to the empty string when
not; any other line leaves it. -/
def updateLastSeen (lastSeenRootID trimmedLine : Str) : Str :=
  match valueAfter rootIDMarker trimmedLine with
  | some potentialIDValue =>
    if (Atoi potentialIDValue).isSome then potentialIDValue else []
  | none => lastSeenRootID

/-- The loop over the lines of one `get-proof-set` output in `processUpload`
(`for _, line := range lines`), started with a given `lastSeenRootID`.
The result is `some id` when the loop breaks with `foundMatchThisAttempt`
and `extractedIntegerRootID = id`, `none` when it runs to the end. -/
def scanRootLines (baseCID : Str) : List Str → Str → Option Str
  | [], _ => none
  | line :: rest, lastSeenRootID =>
    let trimmedLine := TrimSpace line
    if trimmedLine = [] then scanRootLines baseCID rest lastSeenRootID
    else
      let lastSeen := updateLastSeen lastSeenRootID trimmedLine
      match valueAfter rootCIDMarker trimmedLine with
      | some outputCID =>
        if outputCID = baseCID then
          if lastSeen ≠ [] then some lastSeen
          else scanRootLines baseCID rest lastSeen
        else scanRootLines baseCID rest lastSeen
      | none => scanRootLines baseCID rest lastSeen

/-- Root ID extraction on one listing output: split into lines, scan with an empty
`lastSeenRootID`. -/
def extractRootID (getProofSetOutput baseCID : Str) : Option Str :=
  scanRootLines baseCID (splitLines getProofSetOutput) []

/-! ## CID extraction from `upload-file` output (`processUpload`) -/

/-- The character class `[a-zA-Z0-9]` of `cidRegex`. -/
def isAlnum (c : Char) : Bool :=
  ('a'.toNat ≤ c.toNat && c.toNat ≤ 'z'.toNat) ||
  ('A'.toNat ≤ c.toNat && c.toNat ≤ 'Z'.toNat) ||
  ('0'.toNat ≤ c.toNat && c.toNat ≤ '9'.toNat)

/-- The literal prefix of a content identifier in `cidRegex`. -/
def bagaPrefix : Str := "baga".toList

/-- Match `baga[a-zA-Z0-9]+` at the start of `s`, taking the longest run of the class:
the matched identifier and the text after it. What follows a group of `cidRegex` is
`:` or the end of the text, neither in the class, so the longest run is the only
candidate. -/
def matchIdent (s : Str) : Option (Str × Str) :=
  if hasPrefix s bagaPrefix then
    let body := s.drop bagaPrefix.length
    let run := body.takeWhile isAlnum
    if run = [] then none
    else some (bagaPrefix ++ run, body.dropWhile isAlnum)
  else none

/-- The regular expression `^(baga[a-zA-Z0-9]+)(?::(baga[a-zA-Z0-9]+))?$` applied with
`FindStringSubmatch`: `some (matches[1], matches[2])` on a match, `matches[0]` being the
text itself and `matches[2]` empty when the optional group does not take part;
`none` when `MatchString` is false. -/
def cidRegexMatch (s : Str) : Option (Str × Str) :=
  match matchIdent s with
  | none => none
  | some (g1, rest) =>
    match rest with
    | [] => some (g1, [])
    | c :: rest2 =>
      if c = ':' then
        match matchIdent rest2 with
        | some (g2, []) => some (g1, g2)
        | _ => none
      else none

/-- The three identifiers `processUpload` keeps from the upload output. -/
structure CIDs where
  compoundCID : Str
  baseCID : Str
  subrootCID : Str
deriving DecidableEq, Repr

/-- The first loop over `outputLines`, from the last line to the first
(the argument is the list of lines already reversed): the first trimmed line matching
`cidRegex` sets the three identifiers and breaks; without a match they stay empty. -/
def scanCIDLines : List Str → CIDs
  | [] => ⟨[], [], []⟩
  | line :: rest =>
    let trimmedLine := TrimSpace line
    match cidRegexMatch trimmedLine with
    | some (m1, m2) => ⟨trimmedLine, m1, if m2 ≠ [] then m2 else m1⟩
    | none => scanCIDLines rest

/-- The second loop over `outputLines`, from the last line to the first (the argument
is reversed): the first trimmed line that is not empty, `""` when there is none. -/
def lastNonEmpty : List Str → Str
  | [] => []
  | l :: rest =>
    let line := TrimSpace l
    if line ≠ [] then line else lastNonEmpty rest

/-- How `processUpload` obtained the identifiers from the upload output. -/
inductive CIDExtraction where
  /-- A line matched `cidRegex`. -/
  | matched (c : CIDs)
  /-- No line matched; the last non-empty line is used and a warning is logged. -/
  | fallback (c : CIDs)
  /-- No line matched and every line is blank: the job is set to `error`. -/
  | failed
deriving DecidableEq, Repr

/-- CID extraction in `processUpload`, from `outputStr := uploadOutput.String()` to the
end of the `if compoundCID == ""` block. -/
def extractCID (outputStr : Str) : CIDExtraction :=
  let outputLines := splitLines outputStr
  let c := scanCIDLines outputLines.reverse
  if c.compoundCID = [] then
    let lastLine := lastNonEmpty outputLines.reverse
    if lastLine ≠ [] then
      let baseCID := match Index lastLine [':'] with
        | some idx => lastLine.take idx
        | none => lastLine
      .fallback ⟨lastLine, baseCID, baseCID⟩
    else .failed
  else .matched c

/-- The identifiers of an extraction, when it produced any. -/
def CIDExtraction.cids : CIDExtraction → Option CIDs
  | .matched c => some c
  | .fallback c => some c
  | .failed => none

/-! ## Statements about Root ID extraction -/

/-- The trimmed line at position `i` of a listing (the empty line past the end). -/
def lineAt (lines : List Str) (i : Nat) : Str := TrimSpace (lines.getD i [])

/-- A trimmed line that contains `Root ID:` with a value `strconv.Atoi` accepts. -/
def carriesValidID (trimmedLine : Str) : Bool :=
  match valueAfter rootIDMarker trimmedLine with
  | some v => (Atoi v).isSome
  | none => false

/-- The reading of "immediately preceded": some `Root CID:` line equal to the target
has, before it, a `Root ID:` line with a valid integer, and no line between the two
contains `Root ID:` or `Root CID:`. -/
def MatchImmediatelyPreceded (lines : List Str) (target : Str) : Prop :=
  ∃ i, i < lines.length ∧ valueAfter rootCIDMarker (lineAt lines i) = some target ∧
    ∃ j, j < i ∧ carriesValidID (lineAt lines j) = true ∧
      ∀ k, k < i → j < k →
        (Contains (lineAt lines k) rootIDMarker = false ∧
         Contains (lineAt lines k) rootCIDMarker = false)

/-- What the scan guarantees: some `Root CID:` line equal to the target has, at or
before it, a `Root ID:` line whose value is `id`, accepted by `strconv.Atoi`, and no
later line up to the matching one contains `Root ID:` (lines with `Root CID:` may lie
between). -/
def MatchAfterLastSeenID (lines : List Str) (target id : Str) : Prop :=
  ∃ i, i < lines.length ∧ valueAfter rootCIDMarker (lineAt lines i) = some target ∧
    ∃ j, j < i + 1 ∧ valueAfter rootIDMarker (lineAt lines j) = some id ∧
      (Atoi id).isSome = true ∧
      ∀ k, k < i + 1 → j < k → Contains (lineAt lines k) rootIDMarker = false

/-- The walk described for the listing parser, on one non-blank trimmed line: a
`Root ID:` line sets the remembered id when its value parses as an integer and clears
it when not. -/
def specRemember (remembered : Option Str) (t : Str) : Option Str :=
  match valueAfter rootIDMarker t with
  | some v => if (Atoi v).isSome then some v else none
  | none => remembered

/-- The walk described for the listing parser over the non-blank trimmed lines: return
the remembered id at the first `Root CID:` line equal to the target while an id is
remembered; not-found when no line does. -/
def specWalk (target : Str) : List Str → Option Str → Option Str
  | [], _ => none
  | t :: ts, remembered =>
    let r := specRemember remembered t
    if valueAfter rootCIDMarker t = some target then
      match r with
      | some id => some id
      | none => specWalk target ts r
    else specWalk target ts r

/-- The non-blank trimmed lines of an output, in order. -/
def nonBlankTrimmed (output : Str) : List Str :=
  ((splitLines output).map TrimSpace).filter (fun t => t ≠ [])

/-- The listing parser as described: walk the non-blank trimmed lines with nothing
remembered at the start. -/
def specExtractRootID (output target : Str) : Option Str :=
  specWalk target (nonBlankTrimmed output) none

/-! ## Statements about CID extraction -/

/-- One identifier of the content-identifier grammar: `baga[a-zA-Z0-9]+`. -/
def IsIdent (s : Str) : Prop :=
  ∃ body, s = bagaPrefix ++ body ∧ body ≠ [] ∧ ∀ c ∈ body, isAlnum c = true

/-- The content-identifier grammar `^(baga[a-zA-Z0-9]+)(:(baga[a-zA-Z0-9]+))?$`:
one identifier, or two separated by a colon. -/
def CIDGrammar (s : Str) : Prop :=
  IsIdent s ∨ ∃ a b, s = a ++ ':' :: b ∧ IsIdent a ∧ IsIdent b

/-! ## Chunked uploads (`chunked_upload.go`) -/

/-- The bytes of a file or of a chunk. -/
abbrev Bytes := List UInt8

/-- Go `int` and `int64` arithmetic: the result of an operation, wrapped to 64 bits. -/
def wrap64 (x : Int) : Int := (x + 2 ^ 63) % 2 ^ 64 - 2 ^ 63

/-- The values of Go `int` and `int64`. -/
def inInt64 (x : Int) : Bool := decide (-(2 ^ 63) ≤ x) && decide (x < 2 ^ 63)

/-- The struct `ChunkedUploadInfo`. `ChunksReceived` lists the keys of the Go
`map[int]bool` (every stored value is `true`). Times are instants on a clock. -/
structure ChunkedUploadInfo where
  ID : Str
  UserID : Nat
  Filename : Str
  ChunkSize : Int
  TotalSize : Int
  TotalChunks : Int
  UploadedChunks : Int
  ChunksReceived : List Int
  TempDir : Str
  Status : Str
  CreatedAt : Nat
  UpdatedAt : Nat
  FileType : Str
deriving DecidableEq, Repr

/-- The struct `UploadProgress` of `upload.go`, the value kept per job. -/
structure UploadProgress where
  Status : Str := []
  Progress : Int := 0
  Message : Str := []
  CID : Str := []
  Error : Str := []
  Filename : Str := []
  TotalSize : Int := 0
  JobID : Str := []
  ProofSetID : Str := []
deriving DecidableEq, Repr

/-- Lookup in a Go map kept as an association list. -/
def mapGet {β : Type} : List (Str × β) → Str → Option β
  | [], _ => none
  | (k, v) :: rest, key => if k = key then some v else mapGet rest key

/-- Assignment `m[key] = v` in a Go map kept as an association list. -/
def mapSet {β : Type} : List (Str × β) → Str → β → List (Str × β)
  | [], key, v => [(key, v)]
  | (k, w) :: rest, key, v =>
    if k = key then (k, v) :: rest else (k, w) :: mapSet rest key v

/-- Deletion `delete(m, key)` in a Go map kept as an association list. -/
def mapDelete {β : Type} (m : List (Str × β)) (key : Str) : List (Str × β) :=
  m.filter (fun p => p.1 ≠ key)

/-- Assignment `m[k] = true` in `ChunksReceived`. -/
def insertKey (k : Int) (keys : List Int) : List Int :=
  if k ∈ keys then keys else k :: keys

/-- The files and directories the handlers touch, by path. -/
structure FileSys where
  files : List (Str × Bytes) := []
  dirs : List Str := []
deriving DecidableEq, Repr

/-- The content of the regular file at a path. -/
def FileSys.read (fs : FileSys) (path : Str) : Option Bytes := mapGet fs.files path

/-- The file system after `os.Create(path)` and writing `data`. -/
def FileSys.write (fs : FileSys) (path : Str) (data : Bytes) : FileSys :=
  { fs with files := mapSet fs.files path data }

/-- The file system after `os.Remove(path)` of a regular file. -/
def FileSys.remove (fs : FileSys) (path : Str) : FileSys :=
  { fs with files := mapDelete fs.files path }

/-- Whether `os.Stat(path)` finds a file or a directory. -/
def FileSys.stat (fs : FileSys) (path : Str) : Bool :=
  (fs.read path).isSome || decide (path ∈ fs.dirs)

/-- The file system after one directory is made, a step of `os.MkdirAll`. -/
def FileSys.mkdir (fs : FileSys) (dir : Str) : FileSys :=
  if dir ∈ fs.dirs then fs else { fs with dirs := dir :: fs.dirs }

/-- The elements of a path, the texts between its separators `/`. -/
def pathElements : Str → List Str
  | [] => [[]]
  | c :: cs =>
    if c = '/' then [] :: pathElements cs
    else
      match pathElements cs with
      | [] => [[c]]
      | e :: es => (c :: e) :: es

/-- One round of the loop of Go `filepath.Clean` on the next element of the path, for
the elements written so far, last first: an empty element and `.` are dropped; `..`
removes the last element written, is written itself when nothing but `..` elements were
written and the path is not rooted, and is dropped at the root; any other element is
written. -/
def cleanStep (rooted : Bool) (kept : List Str) (element : Str) : List Str :=
  if element = [] ∨ element = ['.'] then kept
  else if element = ['.', '.'] then
    match kept with
    | [] => if rooted then [] else [element]
    | top :: rest => if top = ['.', '.'] then element :: kept else rest
  else element :: kept

/-- The elements written one after the other with a separator between them. -/
def joinElements : List Str → Str
  | [] => []
  | e :: es =>
    match es with
    | [] => e
    | _ :: _ => e ++ '/' :: joinElements es

/-- Go `filepath.Clean` on Unix: the shortest path naming the same file by lexical
processing, `.` for an empty result. -/
def filepathClean (path : Str) : Str :=
  match path with
  | [] => ['.']
  | c :: _ =>
    let rooted := decide (c = '/')
    let kept := (pathElements path).foldl (cleanStep rooted) []
    let out := (if rooted then ['/'] else []) ++ joinElements kept.reverse
    if out = [] then ['.'] else out

/-- Go `filepath.Join(dir, name)`: the elements from the first non-empty one on are
joined with the separator and the result is cleaned; the result is empty when both are
empty. -/
def filepathJoin (dir name : Str) : Str :=
  if dir ≠ [] then filepathClean (dir ++ '/' :: name)
  else if name ≠ [] then filepathClean name
  else []

/-- Go `os.TempDir()` with `TMPDIR` unset. -/
def osTempDir : Str := "/tmp".toList

/-- Decimal text of a Go integer, as `%d` prints it. -/
def itoa (n : Int) : Str :=
  if n < 0 then '-' :: Nat.toDigits 10 n.natAbs else Nat.toDigits 10 n.toNat

/-- The path of the file of chunk `i`: `filepath.Join(TempDir, fmt.Sprintf("chunk_%d", i))`. -/
def chunkPath (tempDir : Str) (i : Int) : Str :=
  filepathJoin tempDir ("chunk_".toList ++ itoa i)

/-- The process state the chunked upload handlers share: the maps `chunkedUploads`,
`uploadJobs` and `filePaths`, and the file system. -/
structure Server where
  chunkedUploads : List (Str × ChunkedUploadInfo) := []
  uploadJobs : List (Str × UploadProgress) := []
  filePaths : List (Str × Str) := []
  fs : FileSys := {}
deriving DecidableEq, Repr

/-- The JSON body of `InitChunkedUpload` after decoding; a field absent from the JSON
has the zero value of its type. -/
structure InitRequest where
  Filename : Str
  TotalSize : Int
  ChunkSize : Int
  TotalChunks : Int
  FileType : Str
deriving DecidableEq, Repr

/-- What `InitChunkedUpload` receives: the authenticated user when there is one, the
decoded body (`none` when the JSON does not decode), the identifier `uuid.New()`
returns, the error of `os.MkdirAll` when it fails, and the time. -/
structure InitInput where
  userID : Option Nat
  body : Option InitRequest
  newUUID : Str
  mkdirError : Option Str
  now : Nat
deriving DecidableEq, Repr

/-- The answers of `InitChunkedUpload`. -/
inductive InitResponse where
  /-- 401, user id not found in token. -/
  | unauthorized
  /-- 400, invalid request parameters. -/
  | badRequest
  /-- 500, failed to create the temp directory. -/
  | mkdirFailed (err : Str)
  /-- 200, with the upload id and the chunk count. -/
  | ok (uploadId : Str) (totalChunks : Int)
deriving DecidableEq, Repr

/-- `c.ShouldBindJSON(&request)` for `InitChunkedUpload`: the body decodes into the
struct (the integers within their Go types) and every field tagged
`binding:"required"` differs from the zero value of its type. -/
def bindInit (body : Option InitRequest) : Option InitRequest :=
  match body with
  | none => none
  | some r =>
    if inInt64 r.TotalSize && inInt64 r.ChunkSize && inInt64 r.TotalChunks &&
        decide (r.Filename ≠ []) && decide (r.TotalSize ≠ 0) && decide (r.ChunkSize ≠ 0) &&
        decide (r.TotalChunks ≠ 0) && decide (r.FileType ≠ []) then some r
    else none

/-- The handler `InitChunkedUpload`. The call `filepath.Join(os.TempDir(),
"chunked_uploads", uploadID)` is written as two joins: the first gives the clean path
`/tmp/chunked_uploads`, so joining `uploadID` to it cleans the same text as the call
with three elements. -/
def InitChunkedUpload (sv : Server) (inp : InitInput) : InitResponse × Server :=
  match inp.userID with
  | none => (.unauthorized, sv)
  | some userID =>
    match bindInit inp.body with
    | none => (.badRequest, sv)
    | some request =>
      let uploadID := inp.newUUID
      let uploadsDir := filepathJoin osTempDir "chunked_uploads".toList
      let tempDir := filepathJoin uploadsDir uploadID
      match inp.mkdirError with
      | some err => (.mkdirFailed err, sv)
      | none =>
        let uploadInfo : ChunkedUploadInfo :=
          { ID := uploadID
            UserID := userID
            Filename := request.Filename
            ChunkSize := request.ChunkSize
            TotalSize := request.TotalSize
            TotalChunks := request.TotalChunks
            UploadedChunks := 0
            ChunksReceived := []
            TempDir := tempDir
            Status := "initialized".toList
            CreatedAt := inp.now
            UpdatedAt := inp.now
            FileType := request.FileType }
        (.ok uploadID request.TotalChunks,
          { sv with
            fs := (sv.fs.mkdir uploadsDir).mkdir tempDir
            chunkedUploads := mapSet sv.chunkedUploads uploadID uploadInfo })

/-- What the multipart part `chunk` of an `UploadChunk` request turns out to be: the
step of receiving and storing it that fails, with the error text, or the data when every
step succeeds. A failed `io.Copy` leaves what it wrote in the chunk file. -/
inductive ChunkData where
  | formFileError (err : Str)
  | openError (err : Str)
  | createError (err : Str)
  | copyError (written : Bytes) (err : Str)
  | ok (data : Bytes)
deriving DecidableEq, Repr

/-- What `UploadChunk` receives: the authenticated user when there is one, the query
parameters `uploadId` and `chunkIndex` (empty when absent), the chunk and the time. -/
structure ChunkInput where
  userID : Option Nat
  uploadId : Str
  chunkIndex : Str
  chunk : ChunkData
  now : Nat
deriving DecidableEq, Repr

/-- The answers of `UploadChunk`. -/
inductive ChunkResponse where
  /-- 401, user id not found in token. -/
  | unauthorized
  /-- 400, missing uploadId parameter. -/
  | missingUploadId
  /-- 400, missing chunkIndex parameter. -/
  | missingChunkIndex
  /-- 400, chunkIndex is not an integer. -/
  | invalidChunkIndexParam
  /-- 404, upload ID not found. -/
  | notFound
  /-- 403, the upload belongs to another user. -/
  | forbidden
  /-- 400, invalid chunk index, must be between 0 and `maxIndex`. -/
  | outOfRange (maxIndex : Int)
  /-- 200, chunk already received. -/
  | alreadyReceived (chunkIndex uploadedChunks totalChunks : Int)
  /-- 400, failed to get chunk data. -/
  | formFileError (err : Str)
  /-- 500, failed to open the uploaded chunk. -/
  | openError (err : Str)
  /-- 500, failed to create the chunk file. -/
  | createError (err : Str)
  /-- 500, failed to save chunk data. -/
  | copyError (err : Str)
  /-- 200, chunk received. -/
  | received (chunkIndex uploadedChunks totalChunks : Int) (allChunksReceived : Bool)
deriving DecidableEq, Repr

/-- The HTTP status code of an answer of `UploadChunk`. -/
def ChunkResponse.code : ChunkResponse → Nat
  | .unauthorized => 401
  | .missingUploadId => 400
  | .missingChunkIndex => 400
  | .invalidChunkIndexParam => 400
  | .notFound => 404
  | .forbidden => 403
  | .outOfRange _ => 400
  | .alreadyReceived _ _ _ => 200
  | .formFileError _ => 400
  | .openError _ => 500
  | .createError _ => 500
  | .copyError _ => 500
  | .received _ _ _ _ => 200

/-- The uploaded-chunk count an answer of `UploadChunk` reports, when it reports one. -/
def ChunkResponse.uploadedChunks : ChunkResponse → Option Int
  | .alreadyReceived _ n _ => some n
  | .received _ n _ _ => some n
  | _ => none

/-- The handler `UploadChunk`. -/
def UploadChunk (sv : Server) (inp : ChunkInput) : ChunkResponse × Server :=
  match inp.userID with
  | none => (.unauthorized, sv)
  | some userID =>
    if inp.uploadId = [] then (.missingUploadId, sv)
    else if inp.chunkIndex = [] then (.missingChunkIndex, sv)
    else
      match Atoi inp.chunkIndex with
      | none => (.invalidChunkIndexParam, sv)
      | some chunkIndex =>
        match mapGet sv.chunkedUploads inp.uploadId with
        | none => (.notFound, sv)
        | some uploadInfo =>
          if uploadInfo.UserID ≠ userID then (.forbidden, sv)
          else if chunkIndex < 0 ∨ chunkIndex ≥ uploadInfo.TotalChunks then
            (.outOfRange (wrap64 (uploadInfo.TotalChunks - 1)), sv)
          else if chunkIndex ∈ uploadInfo.ChunksReceived then
            (.alreadyReceived chunkIndex uploadInfo.UploadedChunks uploadInfo.TotalChunks, sv)
          else
            match inp.chunk with
            | .formFileError err => (.formFileError err, sv)
            | .openError err => (.openError err, sv)
            | .createError err => (.createError err, sv)
            | .copyError written err =>
              (.copyError err,
                { sv with fs := sv.fs.write (chunkPath uploadInfo.TempDir chunkIndex) written })
            | .ok data =>
              let uploadedChunks := wrap64 (uploadInfo.UploadedChunks + 1)
              let info : ChunkedUploadInfo :=
                { uploadInfo with
                  ChunksReceived := insertKey chunkIndex uploadInfo.ChunksReceived
                  UploadedChunks := uploadedChunks
                  UpdatedAt := inp.now
                  Status :=
                    if uploadedChunks = uploadInfo.TotalChunks then "allChunksReceived".toList
                    else "inProgress".toList }
              (.received chunkIndex uploadedChunks uploadInfo.TotalChunks
                  (decide (uploadedChunks = uploadInfo.TotalChunks)),
                { sv with
                  fs := sv.fs.write (chunkPath uploadInfo.TempDir chunkIndex) data
                  chunkedUploads := mapSet sv.chunkedUploads inp.uploadId info })

/-- What `CompleteChunkedUpload` receives: the authenticated user when there is one,
the `uploadId` of the decoded body (`none` when the JSON does not decode), and the
identifier `uuid.New()` returns for the job. -/
structure CompleteInput where
  userID : Option Nat
  body : Option Str
  newUUID : Str
deriving DecidableEq, Repr

/-- The answers of `CompleteChunkedUpload`. -/
inductive CompleteResponse where
  /-- 401, user id not found in token. -/
  | unauthorized
  /-- 400, invalid request parameters. -/
  | badRequest
  /-- 404, upload ID not found. -/
  | notFound
  /-- 403, the upload belongs to another user. -/
  | forbidden
  /-- 400, not all chunks received. -/
  | incomplete (uploadedChunks totalChunks : Int)
  /-- 200, finalizing, with the job id. -/
  | ok (uploadId jobId : Str)
deriving DecidableEq, Repr

/-- The goroutine `CompleteChunkedUpload` starts: `assembleAndProcessFile` with the
upload, the job id and the user. -/
structure AssembleTask where
  uploadId : Str
  jobID : Str
  userID : Nat
deriving DecidableEq, Repr

/-- The handler `CompleteChunkedUpload`: the answer, the state, and the goroutine it
starts when it accepts the request. -/
def CompleteChunkedUpload (sv : Server) (inp : CompleteInput) :
    CompleteResponse × Server × Option AssembleTask :=
  match inp.userID with
  | none => (.unauthorized, sv, none)
  | some userID =>
    match inp.body with
    | none => (.badRequest, sv, none)
    | some uploadID =>
      if uploadID = [] then (.badRequest, sv, none)
      else
        match mapGet sv.chunkedUploads uploadID with
        | none => (.notFound, sv, none)
        | some uploadInfo =>
          if uploadInfo.UserID ≠ userID then (.forbidden, sv, none)
          else if uploadInfo.UploadedChunks ≠ uploadInfo.TotalChunks then
            (.incomplete uploadInfo.UploadedChunks uploadInfo.TotalChunks, sv, none)
          else
            let jobID := inp.newUUID
            (.ok uploadID jobID,
              { sv with
                chunkedUploads :=
                  mapSet sv.chunkedUploads uploadID
                    { uploadInfo with Status := "assembling".toList } },
              some ⟨uploadID, jobID, userID⟩)

/-! ## Assembly of the chunks (`assembleAndProcessFile`) -/

/-- What the environment decides during one run of `assembleAndProcessFile`: the
error, if any, of each file operation that can fail for a reason outside the state
(for a failed `Write`, the number of bytes written before the error), and the value of
the floating point expression `int(float64(i) / float64(TotalChunks) * 30)`. -/
structure AssembleFaults where
  removeError : Option Str := none
  createError : Option Str := none
  readError : Int → Option Str := fun _ => none
  writeError : Int → Option (Nat × Str) := fun _ => none
  syncError : Option Str := none
  closeError : Option Str := none
  statError : Option Str := none
  progressOf : Int → Int → Int := fun i total => i * 30 / total

/-- How a run of `assembleAndProcessFile` leaves the assembly: stopped with the job in
`error`, or the assembled file handed to `processUpload`. -/
inductive AssembleOutcome where
  | failed
  | handedOff (finalFilePath : Str)
deriving DecidableEq, Repr

/-- The state threaded through a run of `assembleAndProcessFile`: the server and the
values written to the job registry for the job, oldest first. -/
structure AsmState where
  server : Server
  updates : List UploadProgress := []
deriving DecidableEq, Repr

/-- The function `updateJobStatus`: store the progress value under the job id. -/
def AsmState.update (s : AsmState) (jobID : Str) (progress : UploadProgress) : AsmState :=
  { server :=
      { s.server with
        uploadJobs := mapSet s.server.uploadJobs jobID { progress with JobID := jobID } }
    updates := s.updates ++ [{ progress with JobID := jobID }] }

/-- The assignment `uploadInfo.Status = status` through the pointer kept in
`chunkedUploads`. -/
def setUploadStatus (sv : Server) (uploadId status : Str) : Server :=
  match mapGet sv.chunkedUploads uploadId with
  | some info =>
    { sv with chunkedUploads := mapSet sv.chunkedUploads uploadId { info with Status := status } }
  | none => sv

/-- The file system after `finalFile.Write(data)`: the bytes are added at the end of
the file. -/
def FileSys.append (fs : FileSys) (path : Str) (data : Bytes) : FileSys :=
  fs.write path ((fs.read path).getD [] ++ data)

/-- The loop `for i := 0; i < uploadInfo.TotalChunks; i++` of `assembleAndProcessFile`,
with the number of iterations left, the index `i` and `totalBytesWritten`. The result
is the state and `totalBytesWritten` at the end of the loop, or `none` when the
function returned from inside the loop with the job in `error`. -/
def assembleLoop (f : AssembleFaults) (info : ChunkedUploadInfo) (jobID finalFilePath : Str) :
    Nat → Int → Int → AsmState → AsmState × Option Int
  | 0, _, totalBytesWritten, s => (s, some totalBytesWritten)
  | n + 1, i, totalBytesWritten, s =>
    let s1 := s.update jobID
      { Status := "assembling".toList
        Progress := f.progressOf i info.TotalChunks
        Message := "Assembling chunks: ".toList ++ itoa (wrap64 (i + 1)) ++ "/".toList ++
          itoa info.TotalChunks
        Filename := info.Filename
        TotalSize := info.TotalSize }
    let path := chunkPath info.TempDir i
    if s1.server.fs.stat path = false then
      (s1.update jobID
        { Status := "error".toList
          Error := "Missing chunk ".toList ++ itoa i
          Message := "Chunk file ".toList ++ path ++ " doesn't exist".toList }, none)
    else
      match f.readError i, s1.server.fs.read path with
      | some err, _ =>
        (s1.update jobID
          { Status := "error".toList
            Error := "Failed to read chunk ".toList ++ itoa i
            Message := err }, none)
      | none, none =>
        (s1.update jobID
          { Status := "error".toList
            Error := "Failed to read chunk ".toList ++ itoa i
            Message := "read ".toList ++ path ++ ": is a directory".toList }, none)
      | none, some chunkData =>
        match f.writeError i with
        | some (written, err) =>
          let s2 : AsmState :=
            { s1 with
              server :=
                { s1.server with
                  fs := s1.server.fs.append finalFilePath (chunkData.take written) } }
          (s2.update jobID
            { Status := "error".toList
              Error := "Failed to write chunk ".toList ++ itoa i ++ " to final file".toList
              Message := err }, none)
        | none =>
          let s2 : AsmState :=
            { s1 with
              server := { s1.server with fs := s1.server.fs.append finalFilePath chunkData } }
          assembleLoop f info jobID finalFilePath n (i + 1)
            (wrap64 (totalBytesWritten + chunkData.length)) s2

/-- The result of a run of `assembleAndProcessFile` up to its call of `processUpload`. -/
structure AssembleResult where
  state : AsmState
  outcome : AssembleOutcome
deriving DecidableEq, Repr

/-- The function `assembleAndProcessFile` from its start to its call of
`processUpload`, for the upload record `uploadInfo` the handler passed: the state it
leaves and whether it stopped with the job in `error` or reached the call. -/
def assembleAndProcessFile (f : AssembleFaults) (sv : Server) (uploadInfo : ChunkedUploadInfo)
    (jobID : Str) : AssembleResult :=
  let s0 : AsmState :=
    { server :=
        { sv with
          uploadJobs := mapSet sv.uploadJobs jobID
            { Status := "assembling".toList
              Progress := 0
              Message := "Assembling file chunks".toList
              Filename := uploadInfo.Filename
              TotalSize := uploadInfo.TotalSize
              JobID := jobID } }
      updates :=
        [{ Status := "assembling".toList
           Progress := 0
           Message := "Assembling file chunks".toList
           Filename := uploadInfo.Filename
           TotalSize := uploadInfo.TotalSize
           JobID := jobID }] }
  let s1 : AsmState :=
    { s0 with server := setUploadStatus s0.server uploadInfo.ID "assembling".toList }
  if s1.server.fs.stat uploadInfo.TempDir = false then
    ⟨s1.update jobID
      { Status := "error".toList
        Error := "Failed to locate temporary directory".toList
        Message := "Directory ".toList ++ uploadInfo.TempDir ++ " doesn't exist".toList },
      .failed⟩
  else
    let finalFilePath := filepathJoin uploadInfo.TempDir uploadInfo.Filename
    let exists_ := s1.server.fs.stat finalFilePath
    match exists_, f.removeError with
    | true, some err =>
      ⟨s1.update jobID
        { Status := "error".toList
          Error := "Failed to prepare final file".toList
          Message := "Failed to remove existing file: ".toList ++ err }, .failed⟩
    | _, _ =>
      match f.createError with
      | some err =>
        let s2 : AsmState :=
          if exists_ then
            { s1 with server := { s1.server with fs := s1.server.fs.remove finalFilePath } }
          else s1
        ⟨s2.update jobID
          { Status := "error".toList
            Error := "Failed to create final file".toList
            Message := err }, .failed⟩
      | none =>
        let s2 : AsmState :=
          { s1 with server := { s1.server with fs := s1.server.fs.write finalFilePath [] } }
        match assembleLoop f uploadInfo jobID finalFilePath uploadInfo.TotalChunks.toNat 0 0 s2 with
        | (s3, none) => ⟨s3, .failed⟩
        | (s3, some totalBytesWritten) =>
          if totalBytesWritten ≠ uploadInfo.TotalSize then
            ⟨s3.update jobID
              { Status := "error".toList
                Error := "Assembled file size mismatch".toList
                Message := "Expected ".toList ++ itoa uploadInfo.TotalSize ++
                  " bytes but wrote ".toList ++ itoa totalBytesWritten ++ " bytes".toList },
              .failed⟩
          else
            match f.syncError with
            | some err =>
              ⟨s3.update jobID
                { Status := "error".toList
                  Error := "Failed to sync final file".toList
                  Message := err }, .failed⟩
            | none =>
              match f.closeError with
              | some err =>
                ⟨s3.update jobID
                  { Status := "error".toList
                    Error := "Failed to close final file".toList
                    Message := err }, .failed⟩
              | none =>
                match f.statError, s3.server.fs.read finalFilePath with
                | some err, _ =>
                  ⟨s3.update jobID
                    { Status := "error".toList
                      Error := "Failed to verify assembled file".toList
                      Message := "Error: ".toList ++ err }, .failed⟩
                | none, none =>
                  ⟨s3.update jobID
                    { Status := "error".toList
                      Error := "Failed to verify assembled file".toList
                      Message := "Error: ".toList ++ "stat ".toList ++ finalFilePath ++
                        ": no such file or directory".toList }, .failed⟩
                | none, some content =>
                  if (content.length : Int) ≠ uploadInfo.TotalSize then
                    ⟨s3.update jobID
                      { Status := "error".toList
                        Error := "Final file size mismatch".toList
                        Message := "Expected ".toList ++ itoa uploadInfo.TotalSize ++
                          " bytes but got ".toList ++ itoa content.length ++ " bytes".toList },
                      .failed⟩
                  else
                    let s4 := s3.update jobID
                      { Status := "processing".toList
                        Progress := 30
                        Message := "File assembled, starting processing".toList
                        Filename := uploadInfo.Filename
                        TotalSize := uploadInfo.TotalSize }
                    let s5 : AsmState :=
                      { s4 with
                        server :=
                          { setUploadStatus s4.server uploadInfo.ID "processing".toList with
                            filePaths := mapSet s4.server.filePaths jobID finalFilePath } }
                    match mapGet s5.server.filePaths jobID with
                    | some storedPath =>
                      if storedPath ≠ finalFilePath then
                        ⟨s5.update jobID
                          { Status := "error".toList
                            Error := "Internal error: file path not stored correctly".toList
                            Message := "Please try again or contact support".toList },
                          .failed⟩
                      else ⟨s5, .handedOff finalFilePath⟩
                    | none =>
                      ⟨s5.update jobID
                        { Status := "error".toList
                          Error := "Internal error: file path not stored correctly".toList
                          Message := "Please try again or contact support".toList },
                        .failed⟩

/-- The server after the chunk requests `reqs` were handled one after the other. -/
def submitAll (sv : Server) (reqs : List ChunkInput) : Server :=
  reqs.foldl (fun s r => (UploadChunk s r).2) sv

/-! ## The publication pipeline after the upload command (`processUpload`) -/

/-- One second as a `time.Duration`, in nanoseconds. -/
def second : Int := 1000000000

/-- The result of running the external tool once: whether `Run` returned an error,
whether the context deadline was exceeded, and the captured output streams. -/
structure ToolRun where
  failed : Bool := false
  timedOut : Bool := false
  stdout : Str := []
  stderr : Str := []
deriving DecidableEq, Repr

/-- The result of `db.Where("user_id = ?", userID).First(&proofSet)`: the record with
its database id and its remote `ProofSetID`, no record, or another database error. -/
inductive ProofSetQuery where
  | found (ID : Nat) (ProofSetID : Str)
  | notFound
  | dbError (err : Str)
deriving DecidableEq, Repr

/-- The fields of `models.Piece` that `processUpload` fills. -/
structure Piece where
  UserID : Nat
  CID : Str
  Filename : Str
  Size : Int
  ServiceName : Str
  ServiceURL : Str
  ProofSetID : Nat
  RootID : Str
deriving DecidableEq, Repr

/-- What is outside the pipeline during one run: the configuration, the result of
the proof set query, the result of the `add-roots` command on each attempt, the number
the random source draws on each attempt, the result of the `get-proof-set` command on
each poll attempt, and the error of `db.Create(piece)` when it fails. -/
structure PipelineEnv where
  ServiceName : Str
  ServiceURL : Str
  proofSet : ProofSetQuery
  addRoots : Nat → ToolRun
  rand : Nat → Nat
  getProofSet : Nat → ToolRun
  createPieceError : Option Str

/-- The job `processUpload` works on: the job id, the uploaded file's name and size,
and the user. -/
structure UploadJob where
  jobID : Str
  Filename : Str
  Size : Int
  userID : Nat
deriving DecidableEq, Repr

/-- What a run of the pipeline does that is visible outside it, in order: a value
written to the job registry by `updateStatus`, a `time.Sleep`, a run of the `add-roots`
or `get-proof-set` command with its arguments, the proof set query, the creation of the
piece record, and a panic. -/
inductive Event where
  | status (p : UploadProgress)
  | sleep (d : Int)
  | findProofSet (userID : Nat)
  | addRoots (args : List Str)
  | getProofSet (args : List Str)
  | createPiece (piece : Piece)
  | panic
deriving DecidableEq, Repr

/-- Whether an event is a run of the `add-roots` command. -/
def Event.isAddRoots : Event → Bool
  | .addRoots _ => true
  | _ => false

/-- The closure `updateStatus` of `processUpload`: the value is stored with the job id. -/
def updateStatus (job : UploadJob) (progress : UploadProgress) : Event :=
  .status { progress with JobID := job.jobID }

/-- The number of `add-roots` attempts, `maxRetries`. -/
def maxRetries : Nat := 100

/-- The cap of the retry delay, `maxBackoff`. -/
def maxBackoff : Int := 10 * second

/-- The chain of tests on the `add-roots` error text that sets `shouldRetry`. -/
def shouldRetry (stderrStr : Str) : Bool :=
  if Contains stderrStr "subroot CID".toList &&
      Contains stderrStr "not found or does not belong to service".toList then true
  else if Contains stderrStr "Size must be a multiple of 32".toList then true
  else if Contains stderrStr "Failed to send transaction".toList then true
  else if Contains stderrStr "status code 500".toList ||
      Contains stderrStr "status code 400".toList then true
  else if Contains stderrStr "Failed to retrieve next challenge epoch".toList ||
      Contains stderrStr "can't scan NULL into".toList then true
  else if Contains stderrStr "not found".toList then true
  else if Contains stderrStr "can't add root to non-existing proof set".toList then true
  else true

/-- The update `backoff *= 2` followed by the cap at `maxBackoff`. -/
def nextBackoff (backoff : Int) : Int :=
  if wrap64 (backoff * 2) > maxBackoff then maxBackoff else wrap64 (backoff * 2)

/-- How a loop of `processUpload` is left: by `break` after success, by the end of the
loop, or by a `return` (or panic) of the whole function. -/
inductive LoopExit where
  | success
  | exhausted
  | returned
deriving DecidableEq, Repr

/-- The loop `for attempt := 1; attempt <= maxRetries; attempt++` that runs `add-roots`,
with the number of iterations the recursion may still take, the attempt number and the
current `backoff`: the events of the loop and how it is left. -/
def addRootsLoop (env : PipelineEnv) (job : UploadJob) (c : CIDs) (proofSetID : Str)
    (addRootsArgs : List Str) : Nat → Nat → Int → List Event × LoopExit
  | 0, _, _ => ([], .exhausted)
  | fuel + 1, attempt, backoff =>
    if attempt ≤ maxRetries then
      let start : List Event :=
        (if attempt > 1 then [Event.sleep backoff] else []) ++
        [updateStatus job
          { Status := "adding_root".toList
            Progress := 95
            Message := "Adding root to proof...".toList
            CID := c.compoundCID
            ProofSetID := proofSetID },
         .addRoots addRootsArgs]
      let run := env.addRoots attempt
      if run.failed then
        if run.timedOut then
          if attempt < maxRetries then
            let next := addRootsLoop env job c proofSetID addRootsArgs fuel (attempt + 1)
              (nextBackoff backoff)
            (start ++
              [updateStatus job
                { Status := "adding_root".toList
                  Progress := 95
                  Message := "Command timed out. Retrying ".toList ++ itoa (attempt + 1) ++
                    "/".toList ++ itoa maxRetries ++ "...".toList
                  CID := c.compoundCID
                  ProofSetID := proofSetID },
               .sleep backoff] ++ next.1, next.2)
          else
            (start ++
              [updateStatus job
                { Status := "error".toList
                  Error := "Command timed out after multiple attempts".toList
                  Message :=
                    "The service took too long to respond. Please try again later.".toList
                  CID := c.compoundCID
                  ProofSetID := proofSetID }], .returned)
        else if shouldRetry run.stderr && decide (attempt < maxRetries) then
          if Int.tdiv backoff 2 ≤ 0 then (start ++ [.panic], .returned)
          else
            let retryDelay := wrap64 (backoff + ((env.rand attempt : Int) % Int.tdiv backoff 2))
            let next := addRootsLoop env job c proofSetID addRootsArgs fuel (attempt + 1)
              (nextBackoff backoff)
            (start ++ [.sleep retryDelay] ++ next.1, next.2)
        else if attempt ≥ maxRetries then
          (start ++
            [updateStatus job
              { Status := "error".toList
                Error := "Failed to add root to proof set after multiple attempts".toList
                Message := run.stderr
                CID := c.compoundCID
                ProofSetID := proofSetID }], .returned)
        else
          (start ++
            [updateStatus job
              { Status := "error".toList
                Error := "Failed to add root to proof set".toList
                Message := run.stderr
                CID := c.compoundCID
                ProofSetID := proofSetID }], .returned)
      else (start, .success)
    else ([], .exhausted)

/-- The number of listing polls, `maxPollAttempts`. -/
def maxPollAttempts : Nat := 100

/-- The cap of the poll interval, `maxPollInterval`. -/
def maxPollInterval : Int := 10 * second

/-- The threshold `maxConsecutiveErrors`. -/
def maxConsecutiveErrors : Nat := 10

/-- The flag `sawAnyRootID` at the end of a scan that did not break: some non-blank
trimmed line contains `Root ID:`. -/
def sawAnyRootID (lines : List Str) : Bool :=
  lines.any (fun line => Contains (TrimSpace line) rootIDMarker)

/-- The loop `for pollAttempt < maxPollAttempts` that polls `get-proof-set`, for a
value `maxAttempts` of the variable `maxPollAttempts`, with the number of iterations the
recursion may still take, `pollAttempt`, `pollInterval` and `consecutiveErrors`: the
events of the loop, the record id found (`none` when the loop ends without a match) and
`consecutiveErrors` at the end. -/
def pollLoop (maxAttempts : Nat) (env : PipelineEnv) (job : UploadJob) (c : CIDs) (proofSetID : Str)
    (getProofSetArgs : List Str) : Nat → Nat → Int → Nat → List Event × Option Str × Nat
  | 0, _, _, consecutiveErrors => ([], none, consecutiveErrors)
  | fuel + 1, pollAttempt0, pollInterval, consecutiveErrors =>
    if pollAttempt0 < maxAttempts then
      let pollAttempt := pollAttempt0 + 1
      let start : List Event :=
        (if pollAttempt0 > 0 then [Event.sleep (10 * second)] else []) ++
        (if pollAttempt % 5 = 0 then
          [updateStatus job
            { Status := "finalizing".toList
              Progress := 96
              Message := "Waiting for blockchain confirmation...".toList
              CID := c.compoundCID
              ProofSetID := proofSetID }]
         else []) ++
        [.getProofSet getProofSetArgs]
      let run := env.getProofSet pollAttempt
      if run.failed then
        let errors := consecutiveErrors + 1
        if Contains run.stderr "Failed to retrieve next challenge epoch".toList ||
            Contains run.stderr "can't scan NULL into".toList then
          let interval :=
            if errors > 5 then
              (if pollInterval < maxPollInterval then wrap64 (pollInterval + second)
               else pollInterval)
            else pollInterval
          let next := pollLoop maxAttempts env job c proofSetID getProofSetArgs fuel pollAttempt
            interval errors
          (start ++ [.sleep interval] ++ next.1, next.2)
        else
          let interval :=
            if errors > maxConsecutiveErrors then
              (if pollInterval < maxPollInterval then
                (if wrap64 (pollInterval * 2) > maxPollInterval then maxPollInterval
                 else wrap64 (pollInterval * 2))
               else pollInterval)
            else pollInterval
          let next := pollLoop maxAttempts env job c proofSetID getProofSetArgs fuel pollAttempt
            interval errors
          (start ++ [.sleep interval] ++ next.1, next.2)
      else
        let getProofSetOutput := run.stdout
        if Contains getProofSetOutput "Roots:".toList &&
            !Contains getProofSetOutput "Root ID:".toList then
          let next := pollLoop maxAttempts env job c proofSetID getProofSetArgs fuel pollAttempt
            pollInterval 0
          (start ++ [.sleep pollInterval] ++ next.1, next.2)
        else
          match extractRootID getProofSetOutput c.baseCID with
          | some id => (start, some id, 0)
          | none =>
            let interval :=
              if sawAnyRootID (splitLines getProofSetOutput) then 10 * second
              else pollInterval
            let next := pollLoop maxAttempts env job c proofSetID getProofSetArgs fuel pollAttempt
              interval 0
            (start ++ [.sleep interval] ++ next.1, next.2)
    else ([], none, consecutiveErrors)

/-- The part of `processUpload` after the polling loop, for a value `maxAttempts` of
the variable `maxPollAttempts` and the result of the loop: the fallback record id, the
creation of the piece record and the final status. -/
def finishUpload (maxAttempts : Nat) (env : PipelineEnv) (job : UploadJob) (c : CIDs) (proofSetDBID : Nat)
    (proofSetID : Str) (found : Option Str) (consecutiveErrors : Nat) : List Event :=
  let fallback : Bool := found.isNone && decide (consecutiveErrors < maxConsecutiveErrors)
  if found.isNone && !fallback then
    [updateStatus job
      { Status := "error".toList
        Progress := 98
        Message := "Error: Could not confirm integer Root ID assignment after polling.".toList
        Error := "Polling for Root ID timed out after ".toList ++ itoa maxAttempts ++
          " attempts".toList
        CID := c.compoundCID
        ProofSetID := proofSetID }]
  else
    let rootIDToSave := found.getD "1".toList
    let piece : Piece :=
      { UserID := job.userID
        CID := c.compoundCID
        Filename := job.Filename
        Size := job.Size
        ServiceName := env.ServiceName
        ServiceURL := env.ServiceURL
        ProofSetID := proofSetDBID
        RootID := rootIDToSave }
    (if fallback then
      [updateStatus job
        { Status := "finalizing".toList
          Progress := 98
          Message := "Using default Root ID due to blockchain indexing delay.".toList
          CID := c.compoundCID
          ProofSetID := proofSetID }]
     else []) ++
    [updateStatus job
      { Status := "finalizing".toList
        Progress := 98
        Message := "Saving piece information to database...".toList
        CID := c.compoundCID
        ProofSetID := proofSetID },
     .createPiece piece] ++
    (match env.createPieceError with
     | some err =>
       [updateStatus job
         { Status := "error".toList
           Error := "Failed to save piece information to database".toList
           Message := err
           CID := c.compoundCID
           ProofSetID := proofSetID }]
     | none =>
       [updateStatus job
         { Status := "complete".toList
           Progress := 100
           Message := "Upload completed successfully".toList
           CID := c.compoundCID
           Filename := job.Filename
           ProofSetID := proofSetID }])

/-- The part of `processUpload` from the status `finalizing` to the end, for a value
`maxAttempts` of the variable `maxPollAttempts`: the polling loop for the record id and
what follows it. -/
def confirmRoot (maxAttempts : Nat) (env : PipelineEnv) (job : UploadJob) (c : CIDs)
    (proofSetDBID : Nat) (proofSetID : Str) : List Event :=
  let getProofSetArgs : List Str :=
    ["get-proof-set".toList, "--service-url".toList, env.ServiceURL,
     "--service-name".toList, env.ServiceName, proofSetID]
  let poll := pollLoop maxAttempts env job c proofSetID getProofSetArgs
    maxAttempts 0 (10 * second) 0
  [updateStatus job
    { Status := "finalizing".toList
      Progress := 96
      Message := "Confirming Root ID assignment...".toList
      CID := c.compoundCID
      ProofSetID := proofSetID }] ++ poll.1 ++
  finishUpload maxAttempts env job c proofSetDBID proofSetID poll.2.1 poll.2.2

/-- The part of `processUpload` from the status `adding_root` to the end, for the
identifiers extracted from the upload output. -/
def bindAndConfirm (env : PipelineEnv) (job : UploadJob) (c : CIDs) : List Event :=
  [updateStatus job
    { Status := "adding_root".toList
      Progress := 95
      Message := "Finding or creating a proof set for your file...".toList
      CID := c.compoundCID },
   .sleep (1 * second),
   .findProofSet job.userID] ++
  match env.proofSet with
  | .dbError _ =>
    [updateStatus job
      { Status := "error".toList
        Error := "Failed to query proof set for user.".toList
        Message := "Upload cannot proceed without a valid proof set.".toList
        CID := c.compoundCID }]
  | .notFound =>
    [updateStatus job
      { Status := "error".toList
        Error := "Proof set not found for user. Please re-authenticate.".toList
        Message := "Upload cannot proceed without a valid proof set.".toList
        CID := c.compoundCID }]
  | .found proofSetDBID proofSetID =>
    if proofSetID = [] then
      [updateStatus job
        { Status := "pending".toList
          Error := "Proof set creation is still pending. Please wait.".toList
          Message :=
            "The proof set is being initialized. Please try uploading again shortly.".toList
          CID := c.compoundCID
          ProofSetID := proofSetID }]
    else
      let addRootsArgs : List Str :=
        ["add-roots".toList, "--service-url".toList, env.ServiceURL,
         "--service-name".toList, env.ServiceName, "--proof-set-id".toList, proofSetID,
         "--root".toList, c.compoundCID]
      let binding := addRootsLoop env job c proofSetID addRootsArgs maxRetries 1 (10 * second)
      [updateStatus job
        { Status := "adding_root".toList
          Progress := 95
          Message := "Adding root to proof set ".toList ++ proofSetID ++ "...".toList
          CID := c.compoundCID
          ProofSetID := proofSetID }] ++ binding.1 ++
      match binding.2 with
      | .returned => []
      | .exhausted =>
        [updateStatus job
          { Status := "error".toList
            Error := "Failed to add root to proof set after multiple attempts".toList
            Message := "Service did not accept the root after multiple attempts.".toList
            CID := c.compoundCID
            ProofSetID := proofSetID }]
      | .success =>
        confirmRoot maxPollAttempts env job c proofSetDBID proofSetID

/-- The function `processUpload` from `outputStr := uploadOutput.String()`, after a
successful `upload-file` command, to the last status it writes: the events in order. -/
def processUploadAfterUpload (env : PipelineEnv) (job : UploadJob) (outputStr : Str) :
    List Event :=
  match extractCID outputStr with
  | .failed =>
    [updateStatus job
      { Status := "error".toList
        Error := "Failed to extract CID from upload response".toList
        Message := "Could not determine upload result CID.".toList }]
  | .matched c => bindAndConfirm env job c
  | .fallback c => bindAndConfirm env job c

/-- An environment in which the proof set is ready, `add-roots` succeeds at once and
the first listing shows the root with id 4. -/
def demoEnv : PipelineEnv :=
  { ServiceName := "svc".toList
    ServiceURL := "https://pdp.example".toList
    proofSet := .found 5 "12".toList
    addRoots := fun _ => {}
    rand := fun _ => 0
    getProofSet := fun _ =>
      { stdout := "Roots:\n  Root ID: 4\n  Root CID: bagaAAA\n".toList }
    createPieceError := none }

/-- A job of user 7 for the file `f.bin` of 300 bytes. -/
def demoJob : UploadJob :=
  { jobID := "j1".toList, Filename := "f.bin".toList, Size := 300, userID := 7 }

/-! ## Statements about chunked uploads -/

/-- The states reached from the empty server by `InitChunkedUpload` and `UploadChunk`
requests handled one after the other. -/
inductive Reachable : Server → Prop where
  | start : Reachable {}
  | initiate (sv : Server) (inp : InitInput) :
      Reachable sv → Reachable (InitChunkedUpload sv inp).2
  | acceptChunk (sv : Server) (inp : ChunkInput) :
      Reachable sv → Reachable (UploadChunk sv inp).2

/-- The received-set invariant of one upload as claimed: indices within
`[0, TotalChunks)`, none twice, the counter equal to their number and at most
`TotalChunks`, and the status `allChunksReceived` exactly when the counter equals
`TotalChunks`. -/
def ReceivedSetClaim (info : ChunkedUploadInfo) : Prop :=
  (∀ k ∈ info.ChunksReceived, 0 ≤ k ∧ k < info.TotalChunks) ∧
  info.ChunksReceived.Nodup ∧
  info.UploadedChunks = info.ChunksReceived.length ∧
  info.UploadedChunks ≤ info.TotalChunks ∧
  (info.Status = "allChunksReceived".toList ↔ info.UploadedChunks = info.TotalChunks)

/-- The received-set invariant of one upload that holds: as claimed, the bound of the
counter by `TotalChunks` being stated for a positive `TotalChunks`. -/
def ReceivedSetInvariant (info : ChunkedUploadInfo) : Prop :=
  (∀ k ∈ info.ChunksReceived, 0 ≤ k ∧ k < info.TotalChunks) ∧
  info.ChunksReceived.Nodup ∧
  info.UploadedChunks = info.ChunksReceived.length ∧
  (0 < info.TotalChunks → info.UploadedChunks ≤ info.TotalChunks) ∧
  (info.Status = "allChunksReceived".toList ↔ info.UploadedChunks = info.TotalChunks)

/-! ## Example requests and states -/

/-- An initiation of a 300-byte upload in three chunks of 100 bytes by user 7. -/
def demoInit : InitInput :=
  { userID := some 7
    body := some ⟨"f.bin".toList, 300, 100, 3, "bin".toList⟩
    newUUID := "u1".toList
    mkdirError := none
    now := 10 }

/-- The server after the initiation `demoInit`. -/
def demoServer : Server := (InitChunkedUpload {} demoInit).2

/-- The upload record `demoInit` creates. -/
def demoInfo : ChunkedUploadInfo :=
  { ID := "u1".toList
    UserID := 7
    Filename := "f.bin".toList
    ChunkSize := 100
    TotalSize := 300
    TotalChunks := 3
    UploadedChunks := 0
    ChunksReceived := []
    TempDir := "/tmp/chunked_uploads/u1".toList
    Status := "initialized".toList
    CreatedAt := 10
    UpdatedAt := 10
    FileType := "bin".toList }

/-- A chunk request of user 7 for the upload `u1` with a given index text and data. -/
def demoChunk (index : String) (data : Bytes) : ChunkInput :=
  { userID := some 7
    uploadId := "u1".toList
    chunkIndex := index.toList
    chunk := .ok data
    now := 20 }

/-- An initiation whose chunk count is negative. -/
def negativeInit : InitInput :=
  { userID := some 7
    body := some ⟨"f.bin".toList, 300, 100, -1, "bin".toList⟩
    newUUID := "u1".toList
    mkdirError := none
    now := 10 }

/-- What the handlers keep true of every upload record: the received-set invariant,
a chunk count that fits a Go `int`, and a chunk count other than zero. -/
def UploadRecordOK (info : ChunkedUploadInfo) : Prop :=
  ReceivedSetInvariant info ∧ inInt64 info.TotalChunks = true ∧ info.TotalChunks ≠ 0

/-- The upload record `negativeInit` creates. -/
def negativeInfo : ChunkedUploadInfo := { demoInfo with TotalChunks := -1 }

/-- The record of the upload `u1` after chunk 1 arrived on `demoServer`. -/
def demoInfoAfterChunk : ChunkedUploadInfo :=
  { demoInfo with
    UploadedChunks := 1
    ChunksReceived := [1]
    Status := "inProgress".toList
    UpdatedAt := 20 }

/-- A completion request of user 7 for the upload `u1`, the job id being `j1`. -/
def demoComplete : CompleteInput :=
  { userID := some 7, body := some "u1".toList, newUUID := "j1".toList }

/-- A chunk request of user `uid` for upload `id` whose index text reads `k` and whose
data arrives and is stored without error. -/
def StoresChunk (uid : Nat) (id : Str) (r : ChunkInput) (k : Int) : Prop :=
  r.userID = some uid ∧ r.uploadId = id ∧ Atoi r.chunkIndex = some k ∧
    ∃ data, r.chunk = .ok data

/-- The three chunks of the upload `u1`, one byte each, submitted in the order 2, 0, 1. -/
def demoRequests : List ChunkInput :=
  [demoChunk "2" [3], demoChunk "0" [1], demoChunk "1" [2]]

/-- The record of the upload `u1` after `demoRequests` and the completion request. -/
def demoInfoAssembling : ChunkedUploadInfo :=
  { demoInfo with
    UploadedChunks := 3
    ChunksReceived := [1, 0, 2]
    Status := "assembling".toList
    UpdatedAt := 20 }

/-- An initiation of a 3-byte upload in three chunks of one byte by user 7. -/
def smallInit : InitInput :=
  { demoInit with body := some ⟨"f.bin".toList, 3, 1, 3, "bin".toList⟩ }

/-- The upload record `smallInit` creates. -/
def smallInfo : ChunkedUploadInfo := { demoInfo with ChunkSize := 1, TotalSize := 3 }

/-- The status last written to the registry for a job. -/
def jobStatus (sv : Server) (jobID : Str) : Option Str :=
  (mapGet sv.uploadJobs jobID).map (fun p => p.Status)

/-! ## Statements about the pipeline -/

/-- Whether an event is a run of the `get-proof-set` command. -/
def Event.isGetProofSet : Event → Bool
  | .getProofSet _ => true
  | _ => false

/-- Whether an event is the creation of the piece record. -/
def Event.isCreatePiece : Event → Bool
  | .createPiece _ => true
  | _ => false

/-- The values written to the job registry in a run, oldest first. -/
def statuses (t : List Event) : List UploadProgress :=
  t.filterMap (fun e => match e with
    | .status p => some p
    | _ => none)

/-- The stage the job is left in by a run: the stage of the last value written. -/
def finalStage (t : List Event) : Option Str :=
  (statuses t).getLast?.map (fun p => p.Status)

/-- The value written to the registry when the proof set is not provisioned yet. -/
def pendingRecord (job : UploadJob) (c : CIDs) : UploadProgress :=
  { Status := "pending".toList
    Error := "Proof set creation is still pending. Please wait.".toList
    Message :=
      "The proof set is being initialized. Please try uploading again shortly.".toList
    CID := c.compoundCID
    ProofSetID := []
    JobID := job.jobID }

/-- An environment whose proof set record exists with an empty remote identifier. -/
def pendingEnv : PipelineEnv := { demoEnv with proofSet := .found 5 [] }

/-- The number of runs of the `add-roots` command in a run of the pipeline. -/
def countAddRoots (t : List Event) : Nat := t.countP Event.isAddRoots

/-- The number of runs of the `get-proof-set` command in a run of the pipeline. -/
def countGetProofSet (t : List Event) : Nat := t.countP Event.isGetProofSet

/-- An environment in which the proof set is ready and `add-roots` fails on every
attempt. -/
def failingBindEnv : PipelineEnv :=
  { demoEnv with addRoots := fun _ => { failed := true, stderr := "boom".toList } }

/-- The result of the polling loop as `processUpload` starts it, for a value
`maxAttempts` of `maxPollAttempts`: the events, the record id found and the final
`consecutiveErrors`. -/
def pollResult (maxAttempts : Nat) (env : PipelineEnv) (job : UploadJob) (c : CIDs)
    (proofSetID : Str) : List Event × Option Str × Nat :=
  pollLoop maxAttempts env job c proofSetID
    ["get-proof-set".toList, "--service-url".toList, env.ServiceURL,
     "--service-name".toList, env.ServiceName, proofSetID]
    maxAttempts 0 (10 * second) 0

/-- The piece record created when the fallback record id is used. -/
def fallbackPiece (env : PipelineEnv) (job : UploadJob) (c : CIDs) (proofSetDBID : Nat) :
    Piece :=
  { UserID := job.userID
    CID := c.compoundCID
    Filename := job.Filename
    Size := job.Size
    ServiceName := env.ServiceName
    ServiceURL := env.ServiceURL
    ProofSetID := proofSetDBID
    RootID := "1".toList }

/-- An environment in which the proof set is ready, `add-roots` succeeds and every
`get-proof-set` call fails. -/
def failingPollEnv : PipelineEnv :=
  { demoEnv with getProofSet := fun _ => { failed := true, stderr := "boom".toList } }

/-- An environment in which the proof set is ready, `add-roots` succeeds and every
`get-proof-set` call succeeds with a listing that has no roots. -/
def emptyListingEnv : PipelineEnv :=
  { demoEnv with getProofSet := fun _ => { stdout := "Proof Set ID: 12\n".toList } }

/-- What `processUpload` does after the polling loop when it uses the fallback record
id: the notice, the creation of the piece record with the record id `1`, and the final
status. -/
def fallbackFinish (env : PipelineEnv) (job : UploadJob) (c : CIDs) (proofSetDBID : Nat)
    (proofSetID : Str) : List Event :=
  [updateStatus job
    { Status := "finalizing".toList
      Progress := 98
      Message := "Using default Root ID due to blockchain indexing delay.".toList
      CID := c.compoundCID
      ProofSetID := proofSetID },
   updateStatus job
    { Status := "finalizing".toList
      Progress := 98
      Message := "Saving piece information to database...".toList
      CID := c.compoundCID
      ProofSetID := proofSetID },
   .createPiece (fallbackPiece env job c proofSetDBID)] ++
  (match env.createPieceError with
   | some err =>
     [updateStatus job
       { Status := "error".toList
         Error := "Failed to save piece information to database".toList
         Message := err
         CID := c.compoundCID
         ProofSetID := proofSetID }]
   | none =>
     [updateStatus job
       { Status := "complete".toList
         Progress := 100
         Message := "Upload completed successfully".toList
         CID := c.compoundCID
         Filename := job.Filename
         ProofSetID := proofSetID }])

/-! ## Polling for the proof set id (`auth.go`, `pollForProofSetID`) -/

/-- The run of spaces and tabs `[ \t]*` at the start of a text, dropped. -/
def skipBlanks (s : Str) : Str := s.dropWhile (fun c => c == ' ' || c == '\t')

/-- A regular expression `label[ \t]*(a1|a2|...)` matched at the start of a text:
the alternative found after the label and the blanks. No alternative starts with a
blank or is the start of another, so each step of the match has one way to go. -/
def labelledAt (label : Str) (alts : List Str) (s : Str) : Option Str :=
  if hasPrefix s label then
    alts.find? (fun a => hasPrefix (skipBlanks (s.drop label.length)) a)
  else none

/-- The regular expression `label[ \t]*(\d+)` matched at the start of a text: the
longest run of decimal digits after the label and the blanks, of at least one digit. -/
def digitsAt (label : Str) (s : Str) : Option Str :=
  if hasPrefix s label then
    let digits := (skipBlanks (s.drop label.length)).takeWhile isDigit
    if digits = [] then none else some digits
  else none

/-- Go `FindStringSubmatch` of an expression that is not anchored: group 1 of the match
that starts first in the text, `none` when no position matches. -/
def findSubmatch (matchAt : Str → Option Str) : Str → Option Str
  | [] => matchAt []
  | c :: s =>
    match matchAt (c :: s) with
    | some group => some group
    | none => findSubmatch matchAt s

/-- The expression `proofSetIDRegex`, `ProofSet ID:[ \t]*(\d+)`. -/
def proofSetIDRegex (s : Str) : Option Str :=
  findSubmatch (digitsAt "ProofSet ID:".toList) s

/-- The expression `creationStatusRegex`, `Proofset Created:[ \t]*(true|false)`. -/
def creationStatusRegex (s : Str) : Option Str :=
  findSubmatch (labelledAt "Proofset Created:".toList ["true".toList, "false".toList]) s

/-- The expression `txStatusRegex`,
`Transaction Status:[ \t]*(confirmed|pending|failed)`. -/
def txStatusRegex (s : Str) : Option Str :=
  findSubmatch (labelledAt "Transaction Status:".toList
    ["confirmed".toList, "pending".toList, "failed".toList]) s

/-- The expression `txSuccessRegex`,
`Transaction Successful:[ \t]*(true|false|Pending)`. -/
def txSuccessRegex (s : Str) : Option Str :=
  findSubmatch (labelledAt "Transaction Successful:".toList
    ["true".toList, "false".toList, "Pending".toList]) s

/-- What `pollForProofSetID` does with the output of one successful status call:
return the proof set id, return an error (creation failed or stalled after
confirmation, or the transaction failed), or sleep and poll again. -/
inductive StatusDecision where
  | done (proofSetID : Str)
  | stalled
  | txFailed
  | again
deriving DecidableEq, Repr

/-- The chain of tests of `pollForProofSetID` on the output of a successful
`get-proof-set-create-status` call, in the order of the source; a field whose
expression does not match is the empty string. -/
def classifyStatus (statusOutput : Str) : StatusDecision :=
  let txStatusMatch := txStatusRegex statusOutput
  let txSuccessMatch := txSuccessRegex statusOutput
  let createdMatch := creationStatusRegex statusOutput
  let idMatch := proofSetIDRegex statusOutput
  let txStatus := txStatusMatch.getD []
  let txSuccess := txSuccessMatch.getD []
  let createdStatus := createdMatch.getD []
  if txStatus = "confirmed".toList ∧ txSuccess = "true".toList ∧
      createdStatus = "true".toList ∧ idMatch.isSome = true then
    .done (idMatch.getD [])
  else if txStatus = "confirmed".toList ∧ txSuccess = "true".toList ∧
      createdStatus = "false".toList then .again
  else if txStatus = "confirmed".toList ∧
      (txSuccess = "false".toList ∨
        (createdStatus = "true".toList ∧ idMatch.isNone = true)) then .stalled
  else if txStatus = "failed".toList then .txFailed
  else if txStatus = "pending".toList ∨ txStatus = [] then .again
  else .again

/-- What is outside `pollForProofSetID` during one call: the error of `os.Chdir` when
it fails, and the result of the status command on each attempt. -/
structure StatusPollEnv where
  chdirError : Option Str := none
  getStatus : Nat → ToolRun

/-- How a call of `pollForProofSetID` returns: the proof set id, or an error. -/
inductive PollReturn where
  | proofSetID (id : Str)
  | chdirFailed (err : Str)
  | stalled
  | txFailed
deriving DecidableEq, Repr

/-- The loop `for { ... }` of `pollForProofSetID`, cut after a number of iterations,
with `attemptCounter`: how the function returns and the number of attempts it made,
or `none` when it is still polling after these iterations. Every iteration that does
not return sleeps for `sleepDuration`, ten seconds. -/
def pollStatusLoop (env : StatusPollEnv) : Nat → Nat → Option (PollReturn × Nat)
  | 0, _ => none
  | fuel + 1, attemptCounter0 =>
    let attemptCounter := attemptCounter0 + 1
    let run := env.getStatus attemptCounter
    if run.failed then pollStatusLoop env fuel attemptCounter
    else
      match classifyStatus run.stdout with
      | .done id => some (.proofSetID id, attemptCounter)
      | .stalled => some (.stalled, attemptCounter)
      | .txFailed => some (.txFailed, attemptCounter)
      | .again => pollStatusLoop env fuel attemptCounter

/-- The function `pollForProofSetID`, its loop cut after `fuel` iterations. -/
def pollForProofSetID (env : StatusPollEnv) (fuel : Nat) : Option (PollReturn × Nat) :=
  match env.chdirError with
  | some err => some (.chdirFailed err, 0)
  | none => pollStatusLoop env fuel 0

/-- A status command that fails on every attempt. -/
def failingStatusEnv : StatusPollEnv := { getStatus := fun _ => { failed := true } }

/-- A status command that reports a pending transaction on every attempt. -/
def pendingStatusEnv : StatusPollEnv :=
  { getStatus := fun _ => { stdout := "Transaction Status: pending\n".toList } }

/-- A status command that reports a pending transaction twice and then the created
proof set 42. -/
def confirmingStatusEnv : StatusPollEnv :=
  { getStatus := fun k =>
      if k < 3 then { stdout := "Transaction Status: pending\n".toList }
      else
        { stdout := ("Transaction Status: confirmed\nTransaction Successful: true\n" ++
            "Proofset Created: true\nProofSet ID: 42\n").toList } }

/-- The status call of an attempt makes `pollForProofSetID` return: it succeeds and its
output is not one the function polls again on. -/
def TerminalAttempt (env : StatusPollEnv) (attempt : Nat) : Prop :=
  (env.getStatus attempt).failed = false ∧
    classifyStatus (env.getStatus attempt).stdout ≠ .again

/-- How `pollForProofSetID` returns on a decision that is not to poll again. -/
def StatusDecision.toReturn : StatusDecision → PollReturn
  | .done id => .proofSetID id
  | .stalled => .stalled
  | .txFailed => .txFailed
  | .again => .stalled

/-- The state of `assembleAndProcessFile` when its loop over the chunks starts, for a
run that found the temporary directory and created the final file: the job is
registered as `assembling`, the upload is marked `assembling` and the final file is
empty. -/
def assembleStart (sv : Server) (uploadInfo : ChunkedUploadInfo) (jobID : Str) : AsmState :=
  let s0 : AsmState :=
    { server :=
        { sv with
          uploadJobs := mapSet sv.uploadJobs jobID
            { Status := "assembling".toList
              Progress := 0
              Message := "Assembling file chunks".toList
              Filename := uploadInfo.Filename
              TotalSize := uploadInfo.TotalSize
              JobID := jobID } }
      updates :=
        [{ Status := "assembling".toList
           Progress := 0
           Message := "Assembling file chunks".toList
           Filename := uploadInfo.Filename
           TotalSize := uploadInfo.TotalSize
           JobID := jobID }] }
  let s1 : AsmState :=
    { s0 with server := setUploadStatus s0.server uploadInfo.ID "assembling".toList }
  { s1 with
    server :=
      { s1.server with
        fs := s1.server.fs.write (filepathJoin uploadInfo.TempDir uploadInfo.Filename) [] } }

/-- The status of the upload record kept under an upload id. -/
def uploadStatus (sv : Server) (uploadId : Str) : Option Str :=
  (mapGet sv.chunkedUploads uploadId).map (fun info => info.Status)

/-- The server after the initiation `demoInit` and the chunks 0 and 2 only: the file of
chunk 1 is missing. -/
def gapServer : Server := submitAll demoServer [demoChunk "0" [1], demoChunk "2" [3]]

/-- The server after the initiation `demoInit`, which declares 300 bytes, and three
chunks of one byte each. -/
def shortServer : Server := submitAll demoServer demoRequests

/-- An initiation of a 3-byte upload in three chunks of one byte whose file name is
the name of the file of chunk 1. -/
def aliasInit : InitInput :=
  { demoInit with body := some ⟨"chunk_1".toList, 3, 1, 3, "bin".toList⟩ }

/-- The server after the initiation `aliasInit` and the chunks 2, 1, 0, in this order,
holding the bytes 3, 2 and 1. -/
def aliasServer : Server :=
  submitAll (InitChunkedUpload {} aliasInit).2
    [demoChunk "2" [3], demoChunk "1" [2], demoChunk "0" [1]]

/-- The record of the upload of `aliasServer` after the completion request. -/
def aliasInfo : ChunkedUploadInfo :=
  { smallInfo with
    Filename := "chunk_1".toList
    UploadedChunks := 3
    ChunksReceived := [0, 1, 2]
    Status := "assembling".toList
    UpdatedAt := 20 }

/-! ## The pipeline from its start (`UploadFile`, `processUpload`) -/

/-- What is outside `processUpload` between its start and the end of the `upload-file`
command: the error of `os.Chdir`, whether `pdpservice.json` exists, the run of
`create-service-secret`, the entry `filePaths[jobID]`, the errors of the staging steps
and the byte count of `io.Copy`, the error of `os.Stat(tempFilePath)`, the runs of
`prepare-piece` and `upload-file`, the texts of the floating point values the messages
print, and the schedule of the progress goroutine: the number of timer ticks it
handles before `prepareDone` is closed, and whether one more iteration had left the
`select` by then and runs its body after the next registry write of `processUpload`. -/
structure HeadEnv where
  chdirError : Option Str := none
  secretExists : Bool := true
  createSecret : ToolRun := {}
  existingFilePath : Option Str := none
  mkdirTempError : Option Str := none
  openError : Option Str := none
  createError : Option Str := none
  copyError : Option Str := none
  written : Int := 0
  statError : Option Str := none
  prepareTicks : Nat := 0
  lateTick : Bool := false
  prepare : ToolRun := {}
  prepareTimeoutText : Str := []
  fileSizeText : Str := []
  upload : ToolRun := {}

/-- The weight `prepareWeight`. -/
def prepareWeight : Int := 20

/-- The body of one iteration of the progress goroutine after its timer fired, at loop
index `i` with the shared variables `currentStage` and `currentProgress`: the registry
write, if any, and `currentProgress` after it. -/
def tickBody (job : UploadJob) (prepareStartProgress : Int) (i : Int) (currentStage : Str)
    (currentProgress : Int) : List Event × Int :=
  if currentProgress < prepareStartProgress + prepareWeight - 1 then
    (if Int.tmod i 5 = 0 then
      [updateStatus job
        { Status := currentStage
          Progress := currentProgress + 1
          Message := "Preparing piece data...".toList }]
     else [], currentProgress + 1)
  else ([], currentProgress)

/-- The loop `for i := 0; i < prepareWeight; i++` of the progress goroutine while
`prepareDone` is open, with the number of timer ticks still to come, the index `i` and
`currentProgress`: the registry writes, the index and `currentProgress` when the
goroutine next reaches its `select`. -/
def prepareTicker (job : UploadJob) (prepareStartProgress : Int) (currentStage : Str) :
    Nat → Int → Int → List Event × Int × Int
  | 0, i, currentProgress => ([], i, currentProgress)
  | ticks + 1, i, currentProgress =>
    if i < prepareWeight then
      let body := tickBody job prepareStartProgress i currentStage currentProgress
      let next := prepareTicker job prepareStartProgress currentStage ticks (i + 1) body.2
      (body.1 ++ next.1, next.2)
    else ([], i, currentProgress)

/-- The iteration of the progress goroutine that had left the `select` when
`prepareDone` was closed, run after the next registry write of `processUpload`. -/
def lateIteration (h : HeadEnv) (job : UploadJob) (prepareStartProgress : Int) (i : Int)
    (currentStage : Str) (currentProgress : Int) : List Event × Int :=
  if h.lateTick && decide (i < prepareWeight) then
    tickBody job prepareStartProgress i currentStage currentProgress
  else ([], currentProgress)

/-- The block `if _, err := os.Stat("pdpservice.json"); os.IsNotExist(err)` of
`processUpload`: the registry writes, and `currentProgress` after the block, or `none`
when the function returned in it. -/
def createServiceSecret (h : HeadEnv) (job : UploadJob) (currentProgress : Int) :
    List Event × Option Int :=
  if h.secretExists then ([], some currentProgress)
  else
    let start :=
      [updateStatus job
        { Status := "preparing".toList
          Progress := currentProgress
          Message := "Creating service secret".toList }]
    if h.createSecret.failed then
      (start ++
        [updateStatus job
          { Status := "error".toList
            Error := "Failed to create service secret".toList
            Message := h.createSecret.stderr }], none)
    else (start, some (currentProgress + 5))

/-- The staging of the uploaded file in `processUpload` (the branches on
`hasExistingPath`): the value written to the registry when a step fails, `none` when
the file is in place. -/
def stageFile (h : HeadEnv) (job : UploadJob) : Option UploadProgress :=
  match h.existingFilePath with
  | some _ => none
  | none =>
    match h.mkdirTempError with
    | some err =>
      some
        { Status := "error".toList
          Error := "Failed to create temporary directory".toList
          Message := err }
    | none =>
      match h.openError with
      | some err =>
        some
          { Status := "error".toList
            Error := "Failed to open uploaded file".toList
            Message := err }
      | none =>
        match h.createError with
        | some err =>
          some
            { Status := "error".toList
              Error := "Failed to create temporary file".toList
              Message := err }
        | none =>
          match h.copyError with
          | some err =>
            some
              { Status := "error".toList
                Error := "Failed to save uploaded file".toList
                Message := err }
          | none =>
            if h.written ≠ job.Size then
              some
                { Status := "error".toList
                  Error := "Failed to save complete file".toList
                  Message := "file size mismatch: expected ".toList ++ itoa job.Size ++
                    " bytes, wrote ".toList ++ itoa h.written ++ " bytes".toList }
            else none

/-- The function `processUpload` from `currentProgress += 5` before the status
`Preparing piece` to its end, for the value of `currentProgress` at that point: the
`prepare-piece` command with the progress goroutine, the `upload-file` command, and
the rest of the function. -/
def preparePiece (env : PipelineEnv) (h : HeadEnv) (job : UploadJob) (currentProgress : Int) :
    List Event :=
  let currentProgress := currentProgress + 5
  let currentStage := "preparing".toList
  let start :=
    [updateStatus job
      { Status := currentStage
        Progress := currentProgress
        Message := "Preparing piece".toList }]
  let prepareStartProgress := currentProgress
  let ticker :=
    prepareTicker job prepareStartProgress currentStage h.prepareTicks 0 currentProgress
  if h.prepare.failed then
    start ++ ticker.1 ++
    [updateStatus job
      (if h.prepare.timedOut then
        { Status := "error".toList
          Error := "Prepare piece command timed out".toList
          Message := "Operation timed out after ".toList ++ h.prepareTimeoutText ++
            ". Try a smaller file or contact support.".toList }
       else
        { Status := "error".toList
          Error := "Failed to prepare piece".toList
          Message := h.prepare.stderr })] ++
    (lateIteration h job prepareStartProgress ticker.2.1 currentStage ticker.2.2).1
  else
    let currentProgress := prepareWeight + 10
    let currentStage := "uploading".toList
    let late := lateIteration h job prepareStartProgress ticker.2.1 currentStage
      currentProgress
    start ++ ticker.1 ++
    [updateStatus job
      { Status := currentStage
        Progress := currentProgress
        Message := "Uploading file... (".toList ++ h.fileSizeText ++ " MB)".toList }] ++
    late.1 ++
    [.sleep (10 * second),
     updateStatus job
      { Status := currentStage
        Progress := late.2
        Message := "Uploading file... (".toList ++ h.fileSizeText ++ " MB)".toList }] ++
    if h.upload.failed then
      [updateStatus job
        { Status := "error".toList
          Error := "Upload command failed".toList
          Message := h.upload.stderr }]
    else processUploadAfterUpload env job h.upload.stdout

/-- The function `processUpload` for the registry value `prev` the job has when the
function starts: the registry writes and the sleeps up to the end of the `upload-file`
command, followed by the events of the rest of the function. The runs of
`create-service-secret`, `prepare-piece` and `upload-file` and the staging of the file
are taken from `h`. -/
def processUpload (env : PipelineEnv) (h : HeadEnv) (job : UploadJob) (prev : UploadProgress) :
    List Event :=
  if env.ServiceName = [] ∨ env.ServiceURL = [] then
    [.status
      { prev with
        Status := "error".toList
        Error := "Server configuration error: Service Name/URL missing".toList }]
  else
    match h.chdirError with
    | some _ =>
      [.status
        { prev with
          Status := "error".toList
          Error := "Failed to set working directory".toList }]
    | none =>
      let secret := createServiceSecret h job 0
      match secret.2 with
      | none => secret.1
      | some currentProgress =>
        match stageFile h job with
        | some failure => secret.1 ++ [updateStatus job failure]
        | none =>
          match h.statError with
          | some err =>
            secret.1 ++
              [updateStatus job
                { Status := "error".toList
                  Error := "Failed to verify temporary file".toList
                  Message := "File does not exist: ".toList ++ err }]
          | none => secret.1 ++ preparePiece env h job currentProgress

/-- The handler `UploadFile` for an authenticated request whose form file was read,
from the creation of the job on, with the goroutine `processUpload` it starts: the
registry writes of the handler followed by the events of the goroutine. -/
def UploadFile (env : PipelineEnv) (h : HeadEnv) (job : UploadJob) (pdptoolPath : Str)
    (pdptoolExists : Bool) : List Event :=
  let first : UploadProgress :=
    { Status := "uploading".toList
      Progress := 0
      Message := "Starting upload".toList
      Filename := job.Filename
      TotalSize := job.Size
      JobID := job.jobID }
  if pdptoolExists = false then
    [.status first,
     .status
      { Status := "error".toList
        Error := "PDPTool executable not found".toList
        Message := "File not found at ".toList ++ pdptoolPath }]
  else .status first :: processUpload env h job first

/-- Whether a registry value has a stage other than `error` and `pending`. -/
def live (p : UploadProgress) : Bool :=
  decide (p.Status ≠ "error".toList) && decide (p.Status ≠ "pending".toList)

/-- The progress values of the registry writes of a run whose stage is neither `error`
nor `pending`, oldest first. -/
def liveProgress (t : List Event) : List Int :=
  ((statuses t).filter live).map (fun p => p.Progress)

/-- The progress values of `liveProgress` never decrease and lie between `lo` and
`hi`. -/
def Mono (lo hi : Int) (t : List Event) : Prop :=
  List.Pairwise (fun a b => a ≤ b) (liveProgress t) ∧ ∀ x ∈ liveProgress t, lo ≤ x ∧ x ≤ hi

/-- The progress values of all registry writes of a run, oldest first. -/
def progressValues (t : List Event) : List Int := (statuses t).map (fun p => p.Progress)

/-- The stages of the registry writes of a run, oldest first. -/
def stages (t : List Event) : List Str := (statuses t).map (fun p => p.Status)

/-- The path of the external tool in the examples. -/
def demoTool : Str := "/opt/pdptool".toList

/-- A run in which the file of 300 bytes is staged and the `prepare-piece` command
fails. -/
def failingPrepare : HeadEnv := { written := 300, prepare := { failed := true } }

/-- A run in which the file of 300 bytes is staged, and both commands succeed, the
upload printing the identifier `bagaAAA`. -/
def demoHead : HeadEnv := { written := 300, upload := { stdout := "bagaAAA\n".toList } }

/-- The server after the initiation `smallInit`, the three chunks of `demoRequests` and
the completion request. -/
def smallServer : Server :=
  (CompleteChunkedUpload (submitAll (InitChunkedUpload {} smallInit).2 demoRequests)
    demoComplete).2.1

/-- The record of the upload of `smallServer`. -/
def smallInfoAssembling : ChunkedUploadInfo :=
  { smallInfo with
    UploadedChunks := 3
    ChunksReceived := [1, 0, 2]
    Status := "assembling".toList
    UpdatedAt := 20 }

/-- The job `assembleAndProcessFile` passes to `processUpload` for the upload of
`smallServer`. -/
def smallJob : UploadJob :=
  { jobID := "j1".toList, Filename := "f.bin".toList, Size := 3, userID := 7 }

/-- The run of `processUpload` for a file a chunked upload left at `f.bin` in its
directory. -/
def chunkedHead : HeadEnv :=
  { existingFilePath := some "/tmp/chunked_uploads/u1/f.bin".toList
    upload := { stdout := "bagaAAA\n".toList } }

/-- The registry value of the job when `assembleAndProcessFile` calls
`processUpload` for the upload of `smallServer`. -/
def processingRecord : UploadProgress :=
  { Status := "processing".toList
    Progress := 30
    Message := "File assembled, starting processing".toList
    Filename := "f.bin".toList
    TotalSize := 3
    JobID := "j1".toList }

/-- The phases of a direct upload in the order the pipeline goes through them; the
registry shows them as `uploading`, `preparing`, `uploading`, `adding_root`,
`finalizing`, and, for the last, `complete`, `error` or `pending`. -/
inductive Phase where
  | uploading
  | preparing
  | publishing
  | binding
  | confirming
  | terminal
deriving DecidableEq, Repr

/-- The phase a job is in after a registry write with stage `s` made in phase `ph`:
the same phase or the next one, `terminal` after `error` from every phase but
`terminal`, after `pending` from `binding` and after `complete` from `confirming`;
`none` when the write rolls the job back, skips a phase or follows a terminal stage. -/
def nextPhase (ph : Phase) (s : Str) : Option Phase :=
  if ph = .terminal then none
  else if s = "error".toList then some .terminal
  else if s = "pending".toList then (if ph = .binding then some .terminal else none)
  else if s = "complete".toList then (if ph = .confirming then some .terminal else none)
  else if s = "uploading".toList then
    (match ph with
     | .uploading => some .uploading
     | .preparing => some .publishing
     | .publishing => some .publishing
     | _ => none)
  else if s = "preparing".toList then
    (match ph with
     | .uploading => some .preparing
     | .preparing => some .preparing
     | _ => none)
  else if s = "adding_root".toList then
    (match ph with
     | .publishing => some .binding
     | .binding => some .binding
     | _ => none)
  else if s = "finalizing".toList then
    (match ph with
     | .binding => some .confirming
     | .confirming => some .confirming
     | _ => none)
  else none

/-- The phase after a sequence of registry writes, `none` when one of them is not
allowed by `nextPhase`. -/
def runPhases (ph : Phase) : List Str → Option Phase
  | [] => some ph
  | s :: rest => (nextPhase ph s).bind (fun q => runPhases q rest)

/-- The registry writes of the events `t` lead from phase `p` to phase `q`. -/
def Phased (p q : Phase) (t : List Event) : Prop := runPhases p (stages t) = some q

/-- The registry writes of the events `t` are allowed from phase `p` on. -/
def Valid (p : Phase) (t : List Event) : Prop := ∃ q, Phased p q t

/-! ## Download of a file (`DownloadFile`) -/

/-- Go `strings.Split(s, ":")`: the pieces between colons, one more than the colons. -/
def splitColons : Str → List Str
  | [] => [[]]
  | c :: cs =>
    if c = ':' then [] :: splitColons cs
    else
      match splitColons cs with
      | [] => [[c]]
      | l :: ls => (c :: l) :: ls

/-- The identifier `DownloadFile` writes for the tool: `processCid`, the first part of
the requested identifier split at colons. -/
def processCid (cid : Str) : Str :=
  match splitColons cid with
  | part :: _ => part
  | [] => cid

/-- A character other than the colon. -/
def notColon (c : Char) : Bool := decide (c ≠ ':')

/-! ## Sleeps of the retry loops -/

/-- The durations a run sleeps, in order. -/
def sleeps (t : List Event) : List Int :=
  t.filterMap (fun e => match e with
    | .sleep d => some d
    | _ => none)

/-- The time a run spends in `time.Sleep`. -/
def totalSleep (t : List Event) : Int := (sleeps t).sum

/-- The arguments of the `add-roots` command in the examples. -/
def demoAddRootsArgs : List Str :=
  ["add-roots".toList, "--service-url".toList, "https://pdp.example".toList,
   "--service-name".toList, "svc".toList, "--proof-set-id".toList, "12".toList,
   "--root".toList, "bagaAAA".toList]

/-- The identifiers of the examples. -/
def demoCIDs : CIDs := ⟨"bagaAAA".toList, "bagaAAA".toList, "bagaAAA".toList⟩

/-- Whether an event is a panic. -/
def Event.isPanic : Event → Bool
  | .panic => true
  | _ => false

/-- No panic occurs in the run and every sleep lasts at least `lo` and less than
`hi`. -/
def Calm (lo hi : Int) (t : List Event) : Prop :=
  Event.panic ∉ t ∧ ∀ d ∈ sleeps t, lo ≤ d ∧ d < hi

/-! ## Signature check (`EthereumService.VerifySignature`) -/

/-- The value of a hexadecimal digit, as `encoding/hex` reads it. -/
def fromHexChar (c : Char) : Option Nat :=
  if '0'.toNat ≤ c.toNat ∧ c.toNat ≤ '9'.toNat then some (c.toNat - '0'.toNat)
  else if 'a'.toNat ≤ c.toNat ∧ c.toNat ≤ 'f'.toNat then some (c.toNat - 'a'.toNat + 10)
  else if 'A'.toNat ≤ c.toNat ∧ c.toNat ≤ 'F'.toNat then some (c.toNat - 'A'.toNat + 10)
  else none

/-- Go `hex.DecodeString`: two digits per byte, `none` for a digit that is not
hexadecimal or an odd number of digits. -/
def hexDecodeString : Str → Option Bytes
  | [] => some []
  | [_] => none
  | a :: b :: rest =>
    match fromHexChar a, fromHexChar b, hexDecodeString rest with
    | some x, some y, some bytes => some (UInt8.ofNat (x * 16 + y) :: bytes)
    | _, _, _ => none

/-- The function `hexutil.Decode` of go-ethereum: the text is not empty, starts with
`0x` or `0X`, and the rest decodes with `hex.DecodeString`; `none` for an error. -/
def hexutilDecode (input : Str) : Option Bytes :=
  match input with
  | [] => none
  | [_] => none
  | a :: b :: rest =>
    if a = '0' ∧ (b = 'x' ∨ b = 'X') then hexDecodeString rest else none

/-- The bytes of a Go string. -/
def stringBytes (s : Str) : Bytes := (s.map String.utf8EncodeChar).flatten

/-- The functions of go-ethereum's `crypto` package and of `strings` that
`VerifySignature` calls: `Keccak256Hash`, `Ecrecover`, `UnmarshalPubkey` (`none` for an
error), `PubkeyToAddress(...).Hex()` and `EqualFold`. -/
structure CryptoEnv where
  Keccak256Hash : Bytes → Bytes
  Ecrecover : Bytes → Bytes → Option Bytes
  UnmarshalPubkey : Bytes → Option Bytes
  PubkeyToAddressHex : Bytes → Str
  EqualFold : Str → Str → Bool

/-- How a call of `VerifySignature` ends: it returns a boolean with a nil error, it
returns `false` with an error, or the goroutine panics. -/
inductive VerifyResult where
  | value (ok : Bool)
  | error (msg : Str)
  | panic
deriving DecidableEq, Repr

/-- The method `EthereumService.VerifySignature`. -/
def VerifySignature (k : CryptoEnv) (address message signature : Str) : VerifyResult :=
  let pre := "\x19Ethereum Signed Message:\n".toList
  let prefixedMessage := pre ++ itoa (stringBytes message).length ++ message
  let messageHash := k.Keccak256Hash (stringBytes prefixedMessage)
  match hexutilDecode signature with
  | none => .error "invalid signature format".toList
  | some signatureBytes =>
    match signatureBytes.get? 64 with
    | none => .panic
    | some v =>
      let signatureBytes := if v > 1 then signatureBytes.set 64 (v - 27) else signatureBytes
      match k.Ecrecover messageHash signatureBytes with
      | none => .error "failed to recover public key".toList
      | some publicKeyBytes =>
        match k.UnmarshalPubkey publicKeyBytes with
        | none => .error "failed to unmarshal public key".toList
        | some publicKey => .value (k.EqualFold (k.PubkeyToAddressHex publicKey) address)

/-- Stand-ins for the `crypto` functions in the examples. -/
def demoCrypto : CryptoEnv :=
  { Keccak256Hash := fun b => b
    Ecrecover := fun _ sig => some sig
    UnmarshalPubkey := fun b => some b
    PubkeyToAddressHex := fun _ => "0xabc".toList
    EqualFold := fun a b => decide (a = b) }

/-! ## Concurrent chunk requests -/

/-- Where a request of `UploadChunk` stands between its critical sections: not started,
past the test `chunkExists` with the decoded index, or answered. -/
inductive ChunkRun where
  | start
  | checked (chunkIndex : Int)
  | finished (r : ChunkResponse)
deriving DecidableEq, Repr

/-- The handler `UploadChunk` from its start to the test `chunkExists`, which reads
`ChunksReceived` under `chunkedUploadsMutex.RLock()`: the answer when the request ends
here, or the index with which it goes on. -/
def UploadChunkCheck (sv : Server) (inp : ChunkInput) : ChunkRun :=
  match inp.userID with
  | none => .finished .unauthorized
  | some userID =>
    if inp.uploadId = [] then .finished .missingUploadId
    else if inp.chunkIndex = [] then .finished .missingChunkIndex
    else
      match Atoi inp.chunkIndex with
      | none => .finished .invalidChunkIndexParam
      | some chunkIndex =>
        match mapGet sv.chunkedUploads inp.uploadId with
        | none => .finished .notFound
        | some uploadInfo =>
          if uploadInfo.UserID ≠ userID then .finished .forbidden
          else if chunkIndex < 0 ∨ chunkIndex ≥ uploadInfo.TotalChunks then
            .finished (.outOfRange (wrap64 (uploadInfo.TotalChunks - 1)))
          else if chunkIndex ∈ uploadInfo.ChunksReceived then
            .finished
              (.alreadyReceived chunkIndex uploadInfo.UploadedChunks uploadInfo.TotalChunks)
          else .checked chunkIndex

/-- The handler `UploadChunk` after the test `chunkExists`: the chunk file is written
and the record the upload has at that moment is updated under
`chunkedUploadsMutex.Lock()`. The result is `none` when the record is no longer in
`chunkedUploads`; the struct the request still points to is then not part of the
state. -/
def UploadChunkStore (sv : Server) (inp : ChunkInput) (chunkIndex : Int) :
    Option (ChunkResponse × Server) :=
  match mapGet sv.chunkedUploads inp.uploadId with
  | none => none
  | some uploadInfo =>
    some
      (match inp.chunk with
       | .formFileError err => (.formFileError err, sv)
       | .openError err => (.openError err, sv)
       | .createError err => (.createError err, sv)
       | .copyError written err =>
         (.copyError err,
           { sv with fs := sv.fs.write (chunkPath uploadInfo.TempDir chunkIndex) written })
       | .ok data =>
         let uploadedChunks := wrap64 (uploadInfo.UploadedChunks + 1)
         let info : ChunkedUploadInfo :=
           { uploadInfo with
             ChunksReceived := insertKey chunkIndex uploadInfo.ChunksReceived
             UploadedChunks := uploadedChunks
             UpdatedAt := inp.now
             Status :=
               if uploadedChunks = uploadInfo.TotalChunks then "allChunksReceived".toList
               else "inProgress".toList }
         (.received chunkIndex uploadedChunks uploadInfo.TotalChunks
             (decide (uploadedChunks = uploadInfo.TotalChunks)),
           { sv with
             fs := sv.fs.write (chunkPath uploadInfo.TempDir chunkIndex) data
             chunkedUploads := mapSet sv.chunkedUploads inp.uploadId info }))

/-- The next step of a request of `UploadChunk` on the shared state. -/
def stepChunk (sv : Server) (inp : ChunkInput) : ChunkRun → Option (ChunkRun × Server)
  | .start => some (UploadChunkCheck sv inp, sv)
  | .checked chunkIndex =>
    (UploadChunkStore sv inp chunkIndex).map (fun p => (.finished p.1, p.2))
  | .finished r => some (.finished r, sv)

/-- Two requests of `UploadChunk` served by two goroutines: the schedule names, step by
step, the request that runs next (`true` for the first). -/
def runTwo (first second : ChunkInput) :
    List Bool → Server → ChunkRun → ChunkRun → Option (Server × ChunkRun × ChunkRun)
  | [], sv, r1, r2 => some (sv, r1, r2)
  | true :: rest, sv, r1, r2 =>
    (stepChunk sv first r1).bind (fun p => runTwo first second rest p.2 p.1 r2)
  | false :: rest, sv, r1, r2 =>
    (stepChunk sv second r2).bind (fun p => runTwo first second rest p.2 r1 p.1)

/-- An initiation of a 200-byte upload in two chunks of 100 bytes by user 7. -/
def pairInit : InitInput :=
  { demoInit with body := some ⟨"f.bin".toList, 200, 100, 2, "bin".toList⟩ }

/-- The server after the initiation `pairInit`. -/
def pairServer : Server := (InitChunkedUpload {} pairInit).2

/-- The record of the upload of `pairServer` after two interleaved requests for
chunk 1. -/
def pairInfoRaced : ChunkedUploadInfo :=
  { demoInfo with
    TotalSize := 200
    TotalChunks := 2
    UploadedChunks := 2
    ChunksReceived := [1]
    Status := "allChunksReceived".toList
    UpdatedAt := 20 }

/-! ## Cleanup after a chunked upload (end of `assembleAndProcessFile`) -/

/-- The file system after `os.RemoveAll(dir)`: the directory and everything below it
are gone. -/
def FileSys.removeAll (fs : FileSys) (dir : Str) : FileSys :=
  { files := fs.files.filter (fun p => !(p.1 = dir || hasPrefix p.1 (dir ++ ['/'])))
    dirs := fs.dirs.filter (fun d => !(d = dir || hasPrefix d (dir ++ ['/']))) }

/-- The cleanup both checks of `assembleAndProcessFile` run: the staging directory is
removed, and the entries of the job in `filePaths` and of the upload in
`chunkedUploads` are deleted. -/
def cleanupUpload (sv : Server) (uploadInfo : ChunkedUploadInfo) (jobID : Str) : Server :=
  { sv with
    fs := sv.fs.removeAll uploadInfo.TempDir
    filePaths := mapDelete sv.filePaths jobID
    chunkedUploads := mapDelete sv.chunkedUploads uploadInfo.ID }

/-- The test of the first check, 5 s after `processUpload` returned, on the stage of
the job in the registry (`none` when the job is not registered):
`exists && (Status == "complete" || Status == "error")`. -/
def firstCheckStops (stage : Option Str) : Bool :=
  match stage with
  | some s => decide (s = "complete".toList) || decide (s = "error".toList)
  | none => false

/-- The test of the later checks, one per tick of the 10 s ticker:
`!exists || Status == "complete" || Status == "error"`. -/
def tickStops (stage : Option Str) : Bool :=
  match stage with
  | some s => decide (s = "complete".toList) || decide (s = "error".toList)
  | none => true

/-- The test of check number `k`, the first check being number 0, for the stages
`registry k` the checks find. -/
def checkStops (registry : Nat → Option Str) (k : Nat) : Bool :=
  if k = 0 then firstCheckStops (registry 0) else tickStops (registry k)

/-- The loop `for range cleanupTicker.C` with the number of ticks still considered and
the number of the next check: the check at which the cleanup runs, `none` when none of
the ticks considered leads to it. -/
def sweepTicks (registry : Nat → Option Str) : Nat → Nat → Option Nat
  | 0, _ => none
  | ticks + 1, k =>
    if tickStops (registry k) then some k else sweepTicks registry ticks (k + 1)

/-- The goroutine started after `processUpload` returned, observed for the first check
and `ticks` ticks of the ticker: the number of the check at which the cleanup runs,
`none` when it has not run by then. -/
def cleanupSweep (registry : Nat → Option Str) (ticks : Nat) : Option Nat :=
  if firstCheckStops (registry 0) then some 0 else sweepTicks registry ticks 1

/-- The number of checks the ticker loop makes within the ticks considered. -/
def sweepChecks (registry : Nat → Option Str) : Nat → Nat → Nat
  | 0, _ => 0
  | ticks + 1, k =>
    if tickStops (registry k) then 1 else 1 + sweepChecks registry ticks (k + 1)

/-- The number of checks the goroutine makes within the first check and `ticks` ticks. -/
def cleanupChecks (registry : Nat → Option Str) (ticks : Nat) : Nat :=
  if firstCheckStops (registry 0) then 1 else 1 + sweepChecks registry ticks 1

/-- The time of check number `k` after `processUpload` returned: `time.Sleep(5 *
time.Second)` before the first check, one tick of `time.NewTicker(10 * time.Second)`
before each later one. -/
def checkTime (k : Nat) : Int := 5 * second + (k : Int) * (10 * second)

/-- The stage of a job in the registry `uploadJobs`, `none` when it is not registered. -/
def jobStage (sv : Server) (jobID : Str) : Option Str :=
  (mapGet sv.uploadJobs jobID).map (fun p => p.Status)

/-- The stages the checks find for a job that stays `pending`. -/
def pendingRegistry (_ : Nat) : Option Str := some "pending".toList

/-- The stages the checks find for a job that is `finalizing` at the first three checks
and `complete` from then on. -/
def demoRegistry (k : Nat) : Option Str :=
  if k < 3 then some "finalizing".toList else some "complete".toList

/-! ## Persistence of the piece record -/

/-- The text of `Error` that `processUpload` writes when `db.Create(piece)` fails. -/
def persistenceError : Str := "Failed to save piece information to database".toList

/-- The piece record `processUpload` creates for the identifiers `c`, the id of the
proof set row and the record id `rootIDToSave`. -/
def pieceRecord (env : PipelineEnv) (job : UploadJob) (c : CIDs) (proofSetDBID : Nat)
    (rootIDToSave : Str) : Piece :=
  { UserID := job.userID
    CID := c.compoundCID
    Filename := job.Filename
    Size := job.Size
    ServiceName := env.ServiceName
    ServiceURL := env.ServiceURL
    ProofSetID := proofSetDBID
    RootID := rootIDToSave }

/-- Whether an event is neither the creation of the piece record nor a registry write
with the stage `complete` or with the error text of a failed creation. -/
def Event.plain : Event → Bool
  | .status p => decide (p.Status ≠ "complete".toList) && decide (p.Error ≠ persistenceError)
  | .createPiece _ => false
  | _ => true

/-- Every event of the run is plain. -/
def Plain (t : List Event) : Prop := ∀ e ∈ t, e.plain = true

/-- The registry write `p` closes a run that reached `db.Create(piece)`: the stage is
`complete` when the creation succeeded, and `error` with the error text of a failed
creation and the error of the database as message when it failed. -/
def Closes (env : PipelineEnv) (p : UploadProgress) : Prop :=
  (env.createPieceError = none ∧ p.Status = "complete".toList ∧ p.Error = []) ∨
  (env.createPieceError = some p.Message ∧ p.Status = "error".toList ∧
    p.Error = persistenceError)

/-- The run `t` ends with the creation of the piece record for the identifiers `c`,
the proof set row `proofSetDBID` and the record id `rootID`, followed by the registry
write `p` that closes the run, and nothing before the creation is a creation or a write
of `complete` or of the error text of a failed creation. -/
def EndsPersisting (env : PipelineEnv) (job : UploadJob) (c : CIDs) (proofSetDBID : Nat)
    (rootID : Str) (p : UploadProgress) (t : List Event) : Prop :=
  ∃ pre, Plain pre ∧
    t = pre ++ [.createPiece (pieceRecord env job c proofSetDBID rootID), .status p] ∧
    Closes env p

/-- What a run of `processUpload` on the upload output `outputStr` looks like: either it
has no creation of a piece record and no write of `complete` or of the error text of a
failed creation, or it ends with the creation of the record for the identifiers
extracted from the output, the proof set row of the user and the record id the polling
loop found, `1` when it found none, followed by the closing write. -/
def Outcome (env : PipelineEnv) (job : UploadJob) (outputStr : Str) (t : List Event) : Prop :=
  Plain t ∨
  ∃ c proofSetDBID proofSetID p,
    (extractCID outputStr).cids = some c ∧
    env.proofSet = .found proofSetDBID proofSetID ∧
    EndsPersisting env job c proofSetDBID
      ((pollResult maxPollAttempts env job c proofSetID).2.1.getD "1".toList) p t

/-- The tests of `RemoveRoot` on the stored Root ID of a piece: the answer is `missing`
for a nil or empty id, `invalid` for an id `strconv.Atoi` rejects, and `ok` otherwise. -/
inductive RootIDCheck where
  | missing
  | invalid
  | ok
deriving DecidableEq, Repr

/-- The tests of `RemoveRoot` on `piece.RootID`. -/
def checkStoredRootID (rootID : Option Str) : RootIDCheck :=
  match rootID with
  | none => .missing
  | some id =>
    if id = [] then .missing
    else if (Atoi id).isSome then .ok
    else .invalid

/-- The registry write that closes the run of `demoEnv`, `demoHead` and `demoJob`. -/
def demoCompleteRecord : UploadProgress :=
  { Status := "complete".toList
    Progress := 100
    Message := "Upload completed successfully".toList
    CID := "bagaAAA".toList
    Filename := "f.bin".toList
    JobID := "j1".toList
    ProofSetID := "12".toList }

/-- The environment `demoEnv` with a database that refuses the piece record. -/
def failingCreateEnv : PipelineEnv :=
  { demoEnv with createPieceError := some "db down".toList }

/-- The piece record the run of `demoEnv`, `demoHead` and `demoJob` creates. -/
def demoPiece : Piece := pieceRecord demoEnv demoJob demoCIDs 5 "4".toList

/-! ## Runs that reach the proof set query -/

/-- Whether an event can occur before the proof set query of a run that reaches it: a
sleep, or a registry write with a stage other than `error` and `pending`. -/
def Event.early : Event → Bool
  | .status p => decide (p.Status ≠ "error".toList) && decide (p.Status ≠ "pending".toList)
  | .sleep _ => true
  | _ => false

/-- Whether an event is the proof set query. -/
def Event.isLookup : Event → Bool
  | .findProofSet _ => true
  | _ => false

/-- What a run of `processUpload` on the upload output `outputStr` looks like with
respect to the proof set query: either the query is not made, or the run consists of
sleeps and registry writes with stages other than `error` and `pending`, followed by
the part of the function from the status `adding_root` on, for the identifiers
extracted from the output. -/
def Reaches (env : PipelineEnv) (job : UploadJob) (outputStr : Str) (t : List Event) : Prop :=
  (∀ e ∈ t, e.isLookup = false) ∨
  ∃ pre c, (extractCID outputStr).cids = some c ∧ (∀ e ∈ pre, e.early = true) ∧
    t = pre ++ bindAndConfirm env job c

/-- A chunk request of user `uid` for upload `id` whose index text reads `k` and whose
data, `d k`, arrives and is stored without error. -/
def StoresData (uid : Nat) (id : Str) (d : Int → Bytes) (r : ChunkInput) (k : Int) : Prop :=
  r.userID = some uid ∧ r.uploadId = id ∧ Atoi r.chunkIndex = some k ∧ r.chunk = .ok (d k)

/-- The chunks `d 0`, ..., `d (n - 1)` one after the other. -/
def chunksInOrder (d : Int → Bytes) (n : Nat) : Bytes :=
  ((List.range n).map (fun j : Nat => d j)).flatten

/-- No file operation of the assembly fails for a reason outside the state. -/
def NoFaults (f : AssembleFaults) : Prop :=
  f.removeError = none ∧ f.createError = none ∧ (∀ i, f.readError i = none) ∧
    (∀ i, f.writeError i = none) ∧ f.syncError = none ∧ f.closeError = none ∧
    f.statError = none

/-- The data of the chunks of `demoRequests`: the bytes 1, 2 and 3 for the indices 0, 1
and 2. -/
def demoData (k : Int) : Bytes :=
  if k = 0 then [1] else if k = 1 then [2] else [3]

/-! # Theorems -/

theorem Atoi_isSome_ne_nil (v : Str) (h : (Atoi v).isSome = true) : v ≠ [] := by
  intro hv
  subst hv
  simp [Atoi] at h

theorem lineAt_cons_succ (l : Str) (ls : List Str) (k : Nat) :
    lineAt (l :: ls) (k + 1) = lineAt ls k := by
  simp [lineAt]

theorem lineAt_cons_zero (l : Str) (ls : List Str) :
    lineAt (l :: ls) 0 = TrimSpace l := by
  simp [lineAt]

theorem valueAfter_none_iff (marker t : Str) :
    valueAfter marker t = none ↔ Contains t marker = false := by
  unfold valueAfter Contains
  cases Index t marker <;> simp

theorem Contains_nil_rootIDMarker : Contains [] rootIDMarker = false := by decide

/-- The scan from an arbitrary `lastSeenRootID`: a reported id comes from the last
`Root ID:` line at or before the matching line, or is the initial value when no such
line exists. -/
theorem scanRootLines_sound (target : Str) (lines : List Str) :
    ∀ (last id : Str), scanRootLines target lines last = some id →
      ∃ i, i < lines.length ∧ valueAfter rootCIDMarker (lineAt lines i) = some target ∧
        ((∃ j, j < i + 1 ∧ valueAfter rootIDMarker (lineAt lines j) = some id ∧
            (Atoi id).isSome = true ∧
            ∀ k, k < i + 1 → j < k → Contains (lineAt lines k) rootIDMarker = false) ∨
         (id = last ∧ last ≠ [] ∧
            ∀ k, k < i + 1 → Contains (lineAt lines k) rootIDMarker = false)) := by
  induction lines with
  | nil => intro last id h; simp [scanRootLines] at h
  | cons line rest ih =>
    intro last id h
    -- lifting a witness found in `rest` to `line :: rest`
    have lift : ∀ (last1 : Str), scanRootLines target rest last1 = some id →
        (last1 = updateLastSeen last (TrimSpace line)) →
        ∃ i, i < (line :: rest).length ∧
          valueAfter rootCIDMarker (lineAt (line :: rest) i) = some target ∧
          ((∃ j, j < i + 1 ∧ valueAfter rootIDMarker (lineAt (line :: rest) j) = some id ∧
              (Atoi id).isSome = true ∧
              ∀ k, k < i + 1 → j < k →
                Contains (lineAt (line :: rest) k) rootIDMarker = false) ∨
           (id = last ∧ last ≠ [] ∧
              ∀ k, k < i + 1 → Contains (lineAt (line :: rest) k) rootIDMarker = false)) := by
      intro last1 hscan hlast1
      obtain ⟨i, hi, hcid, hor⟩ := ih last1 id hscan
      refine ⟨i + 1, by simpa using hi, by simpa [lineAt_cons_succ] using hcid, ?_⟩
      rcases hor with ⟨j, hj, hval, hvalid, hno⟩ | ⟨hid, hne, hno⟩
      · left
        refine ⟨j + 1, by omega, by simpa [lineAt_cons_succ] using hval, hvalid, ?_⟩
        intro k hk hjk
        cases k with
        | zero => omega
        | succ k =>
          rw [lineAt_cons_succ]
          exact hno k (by omega) (by omega)
      · -- the id is the value of `lastSeenRootID` after the first line
        subst hid
        cases hv : valueAfter rootIDMarker (TrimSpace line) with
        | none =>
          right
          have hl : updateLastSeen last (TrimSpace line) = last := by
            simp [updateLastSeen, hv]
          refine ⟨by rw [hlast1, hl], by rw [← hl, ← hlast1]; exact hne, ?_⟩
          intro k hk
          cases k with
          | zero =>
            rw [lineAt_cons_zero]
            exact (valueAfter_none_iff _ _).1 hv
          | succ k =>
            rw [lineAt_cons_succ]
            exact hno k (by omega)
        | some v =>
          left
          have hl : updateLastSeen last (TrimSpace line) =
              if (Atoi v).isSome then v else [] := by
            simp [updateLastSeen, hv]
          by_cases hA : (Atoi v).isSome = true
          · rw [if_pos hA] at hl
            refine ⟨0, by omega, ?_, ?_, ?_⟩
            · rw [lineAt_cons_zero, hv, hlast1, hl]
            · rw [hlast1, hl]; exact hA
            · intro k hk h0
              cases k with
              | zero => omega
              | succ k =>
                rw [lineAt_cons_succ]
                exact hno k (by omega)
          · rw [if_neg hA] at hl
            exact absurd (hlast1.trans hl) hne
    by_cases hblank : TrimSpace line = []
    · -- a blank line is skipped
      have hscan : scanRootLines target rest last = some id := by
        simpa [scanRootLines, hblank] using h
      have hupd : last = updateLastSeen last (TrimSpace line) := by
        rw [hblank]; rfl
      exact lift last hscan hupd
    · cases hc : valueAfter rootCIDMarker (TrimSpace line) with
      | none =>
        have hscan : scanRootLines target rest (updateLastSeen last (TrimSpace line))
            = some id := by
          simpa [scanRootLines, hblank, hc] using h
        exact lift _ hscan rfl
      | some outputCID =>
        by_cases hmatch : outputCID = target
        · by_cases hne : updateLastSeen last (TrimSpace line) = []
          · have hscan : scanRootLines target rest (updateLastSeen last (TrimSpace line))
                = some id := by
              simpa [scanRootLines, hblank, hc, hmatch, hne] using h
            exact lift _ hscan rfl
          · -- the loop breaks on this line
            have hid : updateLastSeen last (TrimSpace line) = id := by
              simpa [scanRootLines, hblank, hc, hmatch, hne] using h
            refine ⟨0, by simp, by rw [lineAt_cons_zero, hc, hmatch], ?_⟩
            cases hv : valueAfter rootIDMarker (TrimSpace line) with
            | none =>
              right
              have hl : updateLastSeen last (TrimSpace line) = last := by
                simp [updateLastSeen, hv]
              refine ⟨by rw [← hid, hl], by rw [← hl]; exact hne, ?_⟩
              intro k hk
              have hk0 : k = 0 := by omega
              subst hk0
              rw [lineAt_cons_zero]
              exact (valueAfter_none_iff _ _).1 hv
            | some v =>
              left
              have hl : updateLastSeen last (TrimSpace line) =
                  if (Atoi v).isSome then v else [] := by
                simp [updateLastSeen, hv]
              by_cases hA : (Atoi v).isSome = true
              · rw [if_pos hA] at hl
                refine ⟨0, by omega, ?_, ?_, ?_⟩
                · rw [lineAt_cons_zero, hv, ← hid, hl]
                · rw [← hid, hl]; exact hA
                · intro k hk h0; omega
              · rw [if_neg hA] at hl
                exact absurd hl hne
        · have hscan : scanRootLines target rest (updateLastSeen last (TrimSpace line))
              = some id := by
            simpa [scanRootLines, hblank, hc, hmatch] using h
          exact lift _ hscan rfl

/-- C1 (as amended): when Root ID extraction on a `get-proof-set` output reports a
match for the target CID, some `Root CID:` line equal to the target has, at or before
it, a `Root ID:` line whose value is the reported id and is a valid integer, and no
later line up to the matching one contains `Root ID:`; other `Root CID:` lines may lie
between the two. -/
theorem extractRootID_match_after_last_seen_id (output target id : Str)
    (h : extractRootID output target = some id) :
    MatchAfterLastSeenID (splitLines output) target id := by
  obtain ⟨i, hi, hcid, hor⟩ := scanRootLines_sound target (splitLines output) [] id h
  rcases hor with hleft | ⟨_, hne, _⟩
  · exact ⟨i, hi, hcid, hleft⟩
  · exact absurd rfl hne

theorem extractRootID_match_after_last_seen_id_witness :
    extractRootID "Roots:\n  Root ID: 7\n  Root CID: bagaTarget\n".toList
        "bagaTarget".toList = some "7".toList ∧
      MatchAfterLastSeenID
        (splitLines "Roots:\n  Root ID: 7\n  Root CID: bagaTarget\n".toList)
        "bagaTarget".toList "7".toList :=
  ⟨by decide, extractRootID_match_after_last_seen_id _ _ _ (by decide)⟩

/-- C1 (as stated) fails: on the listing `Root ID: 1`, `Root CID: bagaOther`,
`Root CID: bagaTarget` the extraction reports id `1` for `bagaTarget`, although the
line `Root CID: bagaOther` lies between the captured id and the matching line. -/
theorem extractRootID_not_immediately_preceded :
    extractRootID "Root ID: 1\nRoot CID: bagaOther\nRoot CID: bagaTarget".toList
        "bagaTarget".toList = some "1".toList ∧
      ¬ MatchImmediatelyPreceded
        (splitLines "Root ID: 1\nRoot CID: bagaOther\nRoot CID: bagaTarget".toList)
        "bagaTarget".toList := by
  refine ⟨by decide, ?_⟩
  unfold MatchImmediatelyPreceded
  decide

/-- The scan over raw lines follows the described walk over the non-blank trimmed
lines, the empty `lastSeenRootID` standing for "nothing remembered". -/
theorem scanRootLines_eq_specWalk (target : Str) (lines : List Str) :
    ∀ (last : Str) (remembered : Option Str),
      (remembered = if last = [] then none else some last) →
      scanRootLines target lines last =
        specWalk target ((lines.map TrimSpace).filter (fun t => t ≠ [])) remembered := by
  induction lines with
  | nil => intro last remembered _; simp [scanRootLines, specWalk]
  | cons line rest ih =>
    intro last remembered hrel
    by_cases hblank : TrimSpace line = []
    · simp only [scanRootLines, hblank, List.map_cons, if_true]
      rw [List.filter_cons_of_neg (by simp)]
      exact ih last remembered hrel
    · have hstep : specRemember remembered (TrimSpace line) =
          if updateLastSeen last (TrimSpace line) = [] then none
          else some (updateLastSeen last (TrimSpace line)) := by
        unfold specRemember updateLastSeen
        cases hv : valueAfter rootIDMarker (TrimSpace line) with
        | none => simpa using hrel
        | some v =>
          by_cases hA : (Atoi v).isSome = true
          · simp [hA, Atoi_isSome_ne_nil v hA]
          · simp [hA]
      simp only [scanRootLines, hblank, List.map_cons, if_false]
      rw [List.filter_cons_of_pos (by simpa using hblank)]
      simp only [specWalk]
      cases hc : valueAfter rootCIDMarker (TrimSpace line) with
      | none =>
        simp only [reduceCtorEq, if_false]
        exact ih _ _ hstep
      | some outputCID =>
        by_cases hmatch : outputCID = target
        · subst hmatch
          by_cases hne : updateLastSeen last (TrimSpace line) = []
          · rw [hstep]
            simp only [hne, if_true, ne_eq, not_true_eq_false, if_false]
            exact ih _ _ (by simp [hne])
          · rw [hstep]
            simp [hne]
        · have hmatch2 : ¬ (some outputCID = some target) := by
            simpa using hmatch
          simp only [hmatch, hmatch2, if_false]
          exact ih _ _ hstep

/-- C2: Root ID extraction equals the described walk over the non-blank trimmed lines
of the listing: a `Root ID:` line sets the remembered id when its value parses as an
integer and clears it when not, the remembered id is returned at the first `Root CID:`
line equal to the target while an id is remembered, and the result is not-found when
no line produces such a match. -/
theorem extractRootID_eq_spec (output target : Str) :
    extractRootID output target = specExtractRootID output target := by
  unfold extractRootID specExtractRootID nonBlankTrimmed
  exact scanRootLines_eq_specWalk target (splitLines output) [] none (by simp)

/-! ## CID extraction -/

theorem hasPrefix_append (p t : Str) : hasPrefix (p ++ t) p = true := by
  induction p with
  | nil => cases t <;> simp [hasPrefix]
  | cons c p ih => simp [hasPrefix, ih]

theorem hasPrefix_elim (s p : Str) (h : hasPrefix s p = true) : ∃ t, s = p ++ t := by
  induction p generalizing s with
  | nil => exact ⟨s, rfl⟩
  | cons d p ih =>
    cases s with
    | nil => simp [hasPrefix] at h
    | cons c s =>
      simp only [hasPrefix, Bool.and_eq_true, beq_iff_eq] at h
      obtain ⟨t, ht⟩ := ih s h.2
      exact ⟨t, by rw [h.1, ht]; rfl⟩

theorem takeWhile_dropWhile_run (run rest : Str)
    (hrun : ∀ c ∈ run, isAlnum c = true)
    (hrest : ∀ c r, rest = c :: r → isAlnum c = false) :
    (run ++ rest).takeWhile isAlnum = run ∧ (run ++ rest).dropWhile isAlnum = rest := by
  induction run with
  | nil =>
    cases rest with
    | nil => simp
    | cons c r => simp [List.takeWhile, List.dropWhile, hrest c r rfl]
  | cons c run ih =>
    have hc : isAlnum c = true := hrun c (List.mem_cons_self _ _)
    have ih2 := ih (fun d hd => hrun d (List.mem_cons_of_mem _ hd))
    simp [List.takeWhile, List.dropWhile, hc, ih2.1, ih2.2]

theorem matchIdent_of_ident (a rest : Str) (ha : IsIdent a)
    (hrest : ∀ c r, rest = c :: r → isAlnum c = false) :
    matchIdent (a ++ rest) = some (a, rest) := by
  obtain ⟨body, rfl, hne, hall⟩ := ha
  have hp : hasPrefix (bagaPrefix ++ body ++ rest) bagaPrefix = true := by
    rw [List.append_assoc]; exact hasPrefix_append _ _
  have hd : (bagaPrefix ++ body ++ rest).drop bagaPrefix.length = body ++ rest := by
    rw [List.append_assoc, List.drop_left]
  obtain ⟨ht, hdw⟩ := takeWhile_dropWhile_run body rest hall hrest
  simp only [matchIdent, hp, hd, ht, hdw, if_true]
  simp [hne]

theorem matchIdent_elim (s g rest : Str) (h : matchIdent s = some (g, rest)) :
    IsIdent g ∧ s = g ++ rest ∧ ∀ c r, rest = c :: r → isAlnum c = false := by
  unfold matchIdent at h
  by_cases hp : hasPrefix s bagaPrefix = true
  · obtain ⟨body, rfl⟩ := hasPrefix_elim s bagaPrefix hp
    simp only [hp, if_true, List.drop_left] at h
    by_cases hrun : body.takeWhile isAlnum = []
    · simp [hrun] at h
    · simp only [hrun, if_false, Option.some.injEq, Prod.mk.injEq] at h
      obtain ⟨hg, hr⟩ := h
      refine ⟨⟨body.takeWhile isAlnum, hg.symm, hrun, ?_⟩, ?_, ?_⟩
      · intro c hc
        exact (List.mem_takeWhile_imp hc)
      · rw [← hg, ← hr, List.append_assoc, List.takeWhile_append_dropWhile]
      · intro c r hcr
        rw [← hr] at hcr
        have := List.head_dropWhile_not isAlnum body (by rw [hcr]; simp)
        simpa [hcr] using this
  · simp [hp] at h

theorem isAlnum_colon : isAlnum ':' = false := by decide

theorem cidRegexMatch_ident (s : Str) (h : IsIdent s) : cidRegexMatch s = some (s, []) := by
  have hm := matchIdent_of_ident s [] h (by intro c r hcr; cases hcr)
  rw [List.append_nil] at hm
  simp [cidRegexMatch, hm]

theorem cidRegexMatch_pair (a b : Str) (ha : IsIdent a) (hb : IsIdent b) :
    cidRegexMatch (a ++ ':' :: b) = some (a, b) := by
  have hm := matchIdent_of_ident a (':' :: b) ha (by
    intro c r hcr
    cases hcr
    exact isAlnum_colon)
  have hm2 := matchIdent_of_ident b [] hb (by intro c r hcr; cases hcr)
  rw [List.append_nil] at hm2
  simp [cidRegexMatch, hm, hm2]

theorem cidRegexMatch_grammar (s g1 g2 : Str) (h : cidRegexMatch s = some (g1, g2)) :
    CIDGrammar s := by
  unfold cidRegexMatch at h
  cases hm : matchIdent s with
  | none => simp [hm] at h
  | some p =>
    obtain ⟨g, rest⟩ := p
    obtain ⟨hg, hs, _⟩ := matchIdent_elim s g rest hm
    simp only [hm] at h
    cases rest with
    | nil =>
      left
      rw [hs, List.append_nil]
      exact hg
    | cons c rest2 =>
      simp only at h
      by_cases hc : c = ':'
      · subst hc
        simp only [if_true] at h
        cases hm2 : matchIdent rest2 with
        | none => simp [hm2] at h
        | some q =>
          obtain ⟨g', rest'⟩ := q
          obtain ⟨hg', hs', _⟩ := matchIdent_elim rest2 g' rest' hm2
          cases rest' with
          | nil =>
            right
            refine ⟨g, g', ?_, hg, hg'⟩
            rw [hs, hs', List.append_nil]
          | cons d r => simp [hm2] at h
      · simp [hc] at h

theorem cidRegexMatch_none_of_not_grammar (s : Str) (h : ¬ CIDGrammar s) :
    cidRegexMatch s = none := by
  cases hm : cidRegexMatch s with
  | none => rfl
  | some p => exact absurd (cidRegexMatch_grammar s p.1 p.2 hm) h

theorem IsIdent_ne_nil (s : Str) (h : IsIdent s) : s ≠ [] := by
  obtain ⟨body, rfl, _, _⟩ := h
  simp [bagaPrefix]

theorem scanCIDLines_skip (xs : List Str) (ys : List Str)
    (hxs : ∀ m ∈ xs, ¬ CIDGrammar (TrimSpace m)) :
    scanCIDLines (xs ++ ys) = scanCIDLines ys := by
  induction xs with
  | nil => rfl
  | cons x xs ih =>
    have hx := cidRegexMatch_none_of_not_grammar _ (hxs x (List.mem_cons_self _ _))
    simp only [List.cons_append, scanCIDLines, hx]
    exact ih (fun m hm => hxs m (List.mem_cons_of_mem _ hm))

theorem extractCID_of_last_match (output : Str) (pre post : List Str) (l g1 g2 : Str)
    (hsplit : splitLines output = pre ++ l :: post)
    (hpost : ∀ m ∈ post, ¬ CIDGrammar (TrimSpace m))
    (hm : cidRegexMatch (TrimSpace l) = some (g1, g2))
    (hne : TrimSpace l ≠ []) :
    extractCID output =
      .matched ⟨TrimSpace l, g1, if g2 ≠ [] then g2 else g1⟩ := by
  have hrev : (splitLines output).reverse = post.reverse ++ l :: pre.reverse := by
    rw [hsplit]; simp
  have hscan : scanCIDLines (splitLines output).reverse =
      ⟨TrimSpace l, g1, if g2 ≠ [] then g2 else g1⟩ := by
    rw [hrev, scanCIDLines_skip _ _ (by
      intro m hm
      exact hpost m (List.mem_reverse.1 hm))]
    simp [scanCIDLines, hm]
  simp only [extractCID, hscan]
  simp [hne]

/-- C3: when some trimmed line of the upload output matches the content-identifier
grammar, CID extraction uses the last such line `L`: the compound id is `L`, the base
id is the identifier before the colon (all of `L` without a colon), and the sub id is
the identifier after the colon when there is one and the base id otherwise. A line
`bagaXYZ123` followed by blank lines gives the three ids `bagaXYZ123`, and
`bagaAAA:bagaBBB` gives base `bagaAAA` and sub `bagaBBB`. -/
theorem extractCID_last_match :
    (∀ (output : Str) (pre post : List Str) (l : Str),
      splitLines output = pre ++ l :: post →
      (∀ m ∈ post, ¬ CIDGrammar (TrimSpace m)) →
      (IsIdent (TrimSpace l) →
        extractCID output = .matched ⟨TrimSpace l, TrimSpace l, TrimSpace l⟩) ∧
      (∀ a b, TrimSpace l = a ++ ':' :: b → IsIdent a → IsIdent b →
        extractCID output = .matched ⟨TrimSpace l, a, b⟩)) ∧
    (∀ (output : Str) (pre post : List Str),
      splitLines output = pre ++ "bagaXYZ123".toList :: post →
      (∀ m ∈ post, TrimSpace m = []) →
      extractCID output =
        .matched ⟨"bagaXYZ123".toList, "bagaXYZ123".toList, "bagaXYZ123".toList⟩) ∧
    extractCID "bagaAAA:bagaBBB".toList =
      .matched ⟨"bagaAAA:bagaBBB".toList, "bagaAAA".toList, "bagaBBB".toList⟩ := by
  have general : ∀ (output : Str) (pre post : List Str) (l : Str),
      splitLines output = pre ++ l :: post →
      (∀ m ∈ post, ¬ CIDGrammar (TrimSpace m)) →
      (IsIdent (TrimSpace l) →
        extractCID output = .matched ⟨TrimSpace l, TrimSpace l, TrimSpace l⟩) ∧
      (∀ a b, TrimSpace l = a ++ ':' :: b → IsIdent a → IsIdent b →
        extractCID output = .matched ⟨TrimSpace l, a, b⟩) := by
    intro output pre post l hsplit hpost
    constructor
    · intro hid
      have h := extractCID_of_last_match output pre post l _ _ hsplit hpost
        (cidRegexMatch_ident _ hid) (IsIdent_ne_nil _ hid)
      simpa using h
    · intro a b hab ha hb
      have hm : cidRegexMatch (TrimSpace l) = some (a, b) := by
        rw [hab]; exact cidRegexMatch_pair a b ha hb
      have hne : TrimSpace l ≠ [] := by
        rw [hab]
        have := IsIdent_ne_nil a ha
        simp [this]
      have h := extractCID_of_last_match output pre post l a b hsplit hpost hm hne
      simpa [IsIdent_ne_nil b hb] using h
  refine ⟨general, ?_, by decide⟩
  intro output pre post hsplit hblank
  have hid : IsIdent (TrimSpace "bagaXYZ123".toList) :=
    ⟨"XYZ123".toList, by decide, by decide, by decide⟩
  have h := (general output pre post "bagaXYZ123".toList hsplit (by
    intro m hm hg
    have hnil := hblank m hm
    rw [hnil] at hg
    rcases hg with hi | ⟨a, b, hab, _, _⟩
    · exact IsIdent_ne_nil _ hi rfl
    · cases a <;> simp at hab)).1 hid
  have ht : TrimSpace "bagaXYZ123".toList = "bagaXYZ123".toList := by decide
  rw [ht] at h
  exact h

theorem extractCID_last_match_witness :
    splitLines "uploading\nbagaAB12:bagaCD34\n \n".toList =
        ["uploading".toList] ++ "bagaAB12:bagaCD34".toList :: [" ".toList, []] ∧
      extractCID "uploading\nbagaAB12:bagaCD34\n \n".toList =
        .matched ⟨"bagaAB12:bagaCD34".toList, "bagaAB12".toList, "bagaCD34".toList⟩ := by
  refine ⟨by decide, ?_⟩
  have h := (extractCID_last_match.1 "uploading\nbagaAB12:bagaCD34\n \n".toList
    ["uploading".toList] [" ".toList, []] "bagaAB12:bagaCD34".toList (by decide) (by
      intro m hm hg
      have hnil : TrimSpace m = [] := by
        simp only [List.mem_cons, List.mem_singleton, List.not_mem_nil, or_false] at hm
        rcases hm with rfl | rfl <;> decide
      rw [hnil] at hg
      rcases hg with hi | ⟨a, b, hab, _, _⟩
      · exact IsIdent_ne_nil _ hi rfl
      · cases a <;> simp at hab)).2
    "bagaAB12".toList "bagaCD34".toList (by decide)
    ⟨"AB12".toList, by decide, by decide, by decide⟩
    ⟨"CD34".toList, by decide, by decide, by decide⟩
  have ht : TrimSpace "bagaAB12:bagaCD34".toList = "bagaAB12:bagaCD34".toList := by decide
  rw [ht] at h
  exact h

/-! ## Chunked uploads -/

theorem mapGet_mapSet_same {β : Type} (m : List (Str × β)) (k : Str) (v : β) :
    mapGet (mapSet m k v) k = some v := by
  induction m with
  | nil => simp [mapSet, mapGet]
  | cons p rest ih =>
    obtain ⟨a, b⟩ := p
    by_cases h : a = k
    · simp [mapSet, mapGet, h]
    · simp [mapSet, mapGet, h, ih]

theorem mapGet_mapSet_other {β : Type} (m : List (Str × β)) (k k2 : Str) (v : β)
    (h : k2 ≠ k) : mapGet (mapSet m k v) k2 = mapGet m k2 := by
  induction m with
  | nil =>
    have : ¬ k = k2 := fun e => h e.symm
    simp [mapSet, mapGet, this]
  | cons p rest ih =>
    obtain ⟨a, b⟩ := p
    by_cases ha : a = k
    · subst ha
      have : ¬ a = k2 := fun e => h e.symm
      simp [mapSet, mapGet, this]
    · by_cases hb : a = k2
      · subst hb
        simp [mapSet, mapGet, ha]
      · simp [mapSet, mapGet, ha, hb, ih]

theorem Atoi_some_ne_nil (s : Str) (n : Int) (h : Atoi s = some n) : s ≠ [] :=
  Atoi_isSome_ne_nil s (by simp [h])

/-- C5: for an authenticated request with an upload id and an integer chunk index,
`UploadChunk` answers 404 (not found) when the upload id is unknown, 403 (forbidden)
when the upload belongs to another user, and 400 (invalid chunk index) when the index
is negative or at least `TotalChunks`; in each of these cases the whole server state,
and with it the received-set, the uploaded count, the status and the last-activity
time of the upload, is unchanged. -/
theorem UploadChunk_rejections (sv : Server) (inp : ChunkInput) (uid : Nat) (idx : Int)
    (huser : inp.userID = some uid) (hid : inp.uploadId ≠ [])
    (hidx : Atoi inp.chunkIndex = some idx) :
    (mapGet sv.chunkedUploads inp.uploadId = none →
      UploadChunk sv inp = (.notFound, sv)) ∧
    (∀ info, mapGet sv.chunkedUploads inp.uploadId = some info → info.UserID ≠ uid →
      UploadChunk sv inp = (.forbidden, sv)) ∧
    (∀ info, mapGet sv.chunkedUploads inp.uploadId = some info → info.UserID = uid →
      (idx < 0 ∨ idx ≥ info.TotalChunks) →
      UploadChunk sv inp = (.outOfRange (wrap64 (info.TotalChunks - 1)), sv) ∧
      mapGet (UploadChunk sv inp).2.chunkedUploads inp.uploadId = some info) := by
  have hne := Atoi_some_ne_nil _ _ hidx
  refine ⟨?_, ?_, ?_⟩
  · intro hnone
    simp [UploadChunk, huser, hid, hne, hidx, hnone]
  · intro info hsome hown
    simp [UploadChunk, huser, hid, hne, hidx, hsome, hown]
  · intro info hsome hown hrange
    have h : UploadChunk sv inp = (.outOfRange (wrap64 (info.TotalChunks - 1)), sv) := by
      simp [UploadChunk, huser, hid, hne, hidx, hsome, hown, hrange]
    exact ⟨h, by rw [h]; exact hsome⟩

theorem UploadChunk_rejections_witness :
    UploadChunk demoServer (demoChunk "3" []) =
        (.outOfRange (wrap64 (demoInfo.TotalChunks - 1)), demoServer) ∧
      mapGet (UploadChunk demoServer (demoChunk "3" [])).2.chunkedUploads
        (demoChunk "3" []).uploadId = some demoInfo :=
  (UploadChunk_rejections demoServer (demoChunk "3" []) 7 3
    (by decide) (by decide) (by decide)).2.2 demoInfo (by decide) (by decide) (by decide)

/-- The requests `UploadChunk` answers with 200: the chunk was already received and
nothing changes, or it is stored and recorded. -/
theorem UploadChunk_code_200 (sv : Server) (inp : ChunkInput)
    (h : (UploadChunk sv inp).1.code = 200) :
    ∃ uid idx info, inp.userID = some uid ∧ inp.uploadId ≠ [] ∧ inp.chunkIndex ≠ [] ∧
      Atoi inp.chunkIndex = some idx ∧
      mapGet sv.chunkedUploads inp.uploadId = some info ∧ info.UserID = uid ∧
      ¬ (idx < 0 ∨ idx ≥ info.TotalChunks) ∧
      ((idx ∈ info.ChunksReceived ∧
          UploadChunk sv inp =
            (.alreadyReceived idx info.UploadedChunks info.TotalChunks, sv)) ∨
       (idx ∉ info.ChunksReceived ∧ ∃ data, inp.chunk = .ok data ∧
          UploadChunk sv inp =
            (.received idx (wrap64 (info.UploadedChunks + 1)) info.TotalChunks
                (decide (wrap64 (info.UploadedChunks + 1) = info.TotalChunks)),
              { sv with
                fs := sv.fs.write (chunkPath info.TempDir idx) data
                chunkedUploads := mapSet sv.chunkedUploads inp.uploadId
                  { info with
                    ChunksReceived := insertKey idx info.ChunksReceived
                    UploadedChunks := wrap64 (info.UploadedChunks + 1)
                    UpdatedAt := inp.now
                    Status :=
                      if wrap64 (info.UploadedChunks + 1) = info.TotalChunks then
                        "allChunksReceived".toList
                      else "inProgress".toList } }))) := by
  cases huser : inp.userID with
  | none => simp [UploadChunk, huser, ChunkResponse.code] at h
  | some uid =>
    by_cases hid : inp.uploadId = []
    · simp [UploadChunk, huser, hid, ChunkResponse.code] at h
    by_cases hci : inp.chunkIndex = []
    · simp [UploadChunk, huser, hid, hci, ChunkResponse.code] at h
    cases hidx : Atoi inp.chunkIndex with
    | none => simp [UploadChunk, huser, hid, hci, hidx, ChunkResponse.code] at h
    | some idx =>
      cases hget : mapGet sv.chunkedUploads inp.uploadId with
      | none => simp [UploadChunk, huser, hid, hci, hidx, hget, ChunkResponse.code] at h
      | some info =>
        by_cases hown : info.UserID = uid
        swap
        · simp [UploadChunk, huser, hid, hci, hidx, hget, hown, ChunkResponse.code] at h
        by_cases hrange : idx < 0 ∨ idx ≥ info.TotalChunks
        · simp [UploadChunk, huser, hid, hci, hidx, hget, hown, hrange,
            ChunkResponse.code] at h
        refine ⟨uid, idx, info, rfl, hid, hci, rfl, rfl, hown, hrange, ?_⟩
        by_cases hmem : idx ∈ info.ChunksReceived
        · left
          refine ⟨hmem, ?_⟩
          simp [UploadChunk, huser, hid, hci, hidx, hget, hown, hrange, hmem]
        · right
          refine ⟨hmem, ?_⟩
          cases hchunk : inp.chunk with
          | formFileError err =>
            simp [UploadChunk, huser, hid, hci, hidx, hget, hown, hrange, hmem, hchunk,
              ChunkResponse.code] at h
          | openError err =>
            simp [UploadChunk, huser, hid, hci, hidx, hget, hown, hrange, hmem, hchunk,
              ChunkResponse.code] at h
          | createError err =>
            simp [UploadChunk, huser, hid, hci, hidx, hget, hown, hrange, hmem, hchunk,
              ChunkResponse.code] at h
          | copyError written err =>
            simp [UploadChunk, huser, hid, hci, hidx, hget, hown, hrange, hmem, hchunk,
              ChunkResponse.code] at h
          | ok data =>
            refine ⟨data, rfl, ?_⟩
            simp [UploadChunk, huser, hid, hci, hidx, hget, hown, hrange, hmem, hchunk]

theorem mem_insertKey (k : Int) (keys : List Int) : k ∈ insertKey k keys := by
  unfold insertKey
  by_cases h : k ∈ keys <;> simp [h]

/-- C6: when a chunk submission is answered with success, submitting the same chunk
index again for the same upload right after it (whatever data and time the second
request carries) succeeds too, reports the same uploaded count, and leaves the server
state, and with it the received-set, the uploaded count and the status, exactly as the
first submission left it. -/
theorem UploadChunk_idempotent (sv : Server) (inp inp2 : ChunkInput)
    (huser : inp2.userID = inp.userID) (hid : inp2.uploadId = inp.uploadId)
    (hidx : inp2.chunkIndex = inp.chunkIndex)
    (hfirst : (UploadChunk sv inp).1.code = 200) :
    (UploadChunk (UploadChunk sv inp).2 inp2).1.code = 200 ∧
    (UploadChunk (UploadChunk sv inp).2 inp2).1.uploadedChunks =
      (UploadChunk sv inp).1.uploadedChunks ∧
    (UploadChunk sv inp).1.uploadedChunks ≠ none ∧
    (UploadChunk (UploadChunk sv inp).2 inp2).2 = (UploadChunk sv inp).2 := by
  obtain ⟨uid, idx, info, hu, hi, hc, ha, hget, hown, hrange, hcases⟩ :=
    UploadChunk_code_200 sv inp hfirst
  rw [← huser] at hu
  rw [← hid] at hi hget
  rw [← hidx] at hc ha
  rcases hcases with ⟨hmem, hres⟩ | ⟨hmem, data, _, hres⟩
  · rw [hres]
    have h2 : UploadChunk sv inp2 =
        (.alreadyReceived idx info.UploadedChunks info.TotalChunks, sv) := by
      simp [UploadChunk, hu, hi, hc, ha, hget, hown, hrange, hmem]
    simp [h2, ChunkResponse.code, ChunkResponse.uploadedChunks]
  · rw [hres]
    rw [← hid]
    have hmem2 := mem_insertKey idx info.ChunksReceived
    simp [UploadChunk, hu, hi, hc, ha, mapGet_mapSet_same, hown, hrange, hmem2,
      ChunkResponse.code, ChunkResponse.uploadedChunks]

theorem UploadChunk_idempotent_witness :
    (UploadChunk demoServer (demoChunk "1" [1, 2])).1.code = 200 ∧
      (UploadChunk (UploadChunk demoServer (demoChunk "1" [1, 2])).2
          (demoChunk "1" [9])).1.uploadedChunks = some 1 ∧
      (UploadChunk (UploadChunk demoServer (demoChunk "1" [1, 2])).2
          (demoChunk "1" [9])).2 = (UploadChunk demoServer (demoChunk "1" [1, 2])).2 := by
  have h := UploadChunk_idempotent demoServer (demoChunk "1" [1, 2]) (demoChunk "1" [9])
    rfl rfl rfl (by decide)
  refine ⟨by decide, ?_, h.2.2.2⟩
  rw [h.2.1]
  decide

theorem nodup_range_length_le (l : List Int) (T : Int) (hnd : l.Nodup)
    (hr : ∀ k ∈ l, 0 ≤ k ∧ k < T) : (l.length : Int) ≤ max T 0 := by
  have hsub : l.toFinset ⊆ Finset.Ico (0 : Int) T := by
    intro k hk
    rw [List.mem_toFinset] at hk
    rw [Finset.mem_Ico]
    exact hr k hk
  have hcard := Finset.card_le_card hsub
  rw [List.toFinset_card_of_nodup hnd, Int.card_Ico] at hcard
  have : ((T - 0).toNat : Int) = max T 0 := by
    simp [Int.toNat_eq_max]
  omega

theorem wrap64_id (x : Int) (h1 : -(2 ^ 63) ≤ x) (h2 : x < 2 ^ 63) : wrap64 x = x := by
  unfold wrap64
  have h : (x + 2 ^ 63) % 2 ^ 64 = x + 2 ^ 63 :=
    Int.emod_eq_of_lt (by omega) (by omega)
  omega

theorem inInt64_lt (x : Int) (h : inInt64 x = true) : x < 2 ^ 63 := by
  simp [inInt64] at h
  exact h.2

theorem UploadRecordOK_init (r : InitRequest) (id dir ft : Str) (uid now : Nat)
    (hb : bindInit (some r) = some r) :
    UploadRecordOK
      { ID := id, UserID := uid, Filename := r.Filename, ChunkSize := r.ChunkSize,
        TotalSize := r.TotalSize, TotalChunks := r.TotalChunks, UploadedChunks := 0,
        ChunksReceived := [], TempDir := dir, Status := "initialized".toList,
        CreatedAt := now, UpdatedAt := now, FileType := ft } := by
  simp only [bindInit] at hb
  split at hb
  · rename_i hcond
    simp only [Bool.and_eq_true, decide_eq_true_eq] at hcond
    obtain ⟨⟨⟨⟨⟨⟨⟨_, _⟩, hT⟩, _⟩, _⟩, _⟩, hT0⟩, _⟩ := hcond
    refine ⟨⟨by simp, by simp, by simp, ?_, ?_⟩, hT, hT0⟩
    · intro hpos
      have hpos2 : 0 < r.TotalChunks := hpos
      show (0 : Int) ≤ r.TotalChunks
      omega
    · have hne : "initialized".toList ≠ "allChunksReceived".toList := by decide
      constructor
      · intro h; exact absurd h hne
      · intro h
        have h2 : (0 : Int) = r.TotalChunks := h
        exact absurd h2.symm hT0
  · simp at hb

theorem bindInit_some (body : Option InitRequest) (r : InitRequest)
    (h : bindInit body = some r) : bindInit (some r) = some r := by
  cases body with
  | none => simp [bindInit] at h
  | some r2 =>
    have : r2 = r := by
      simp only [bindInit] at h
      split at h
      · simpa using h
      · simp at h
    subst this
    exact h

theorem UploadRecordOK_accept (info : ChunkedUploadInfo) (idx : Int) (now : Nat)
    (hok : UploadRecordOK info) (hrange : ¬ (idx < 0 ∨ idx ≥ info.TotalChunks))
    (hmem : idx ∉ info.ChunksReceived) :
    UploadRecordOK
      { info with
        ChunksReceived := insertKey idx info.ChunksReceived
        UploadedChunks := wrap64 (info.UploadedChunks + 1)
        UpdatedAt := now
        Status :=
          if wrap64 (info.UploadedChunks + 1) = info.TotalChunks then
            "allChunksReceived".toList
          else "inProgress".toList } := by
  obtain ⟨⟨hin, hnd, hcount, _, _⟩, hT, hT0⟩ := hok
  have hins : insertKey idx info.ChunksReceived = idx :: info.ChunksReceived := by
    simp [insertKey, hmem]
  have hin2 : ∀ k ∈ idx :: info.ChunksReceived, 0 ≤ k ∧ k < info.TotalChunks := by
    intro k hk
    rcases List.mem_cons.1 hk with rfl | hk
    · omega
    · exact hin k hk
  have hnd2 : (idx :: info.ChunksReceived).Nodup := List.nodup_cons.2 ⟨hmem, hnd⟩
  have hlen := nodup_range_length_le _ _ hnd2 hin2
  have hTlt := inInt64_lt _ hT
  have hlen2 : ((info.ChunksReceived.length : Int) + 1) ≤ info.TotalChunks := by
    have : ((idx :: info.ChunksReceived).length : Int) =
        (info.ChunksReceived.length : Int) + 1 := by simp
    rw [this] at hlen
    have hpos : 0 < info.TotalChunks := by omega
    rw [max_eq_left (le_of_lt hpos)] at hlen
    exact hlen
  have hw : wrap64 (info.UploadedChunks + 1) = info.UploadedChunks + 1 :=
    wrap64_id _ (by rw [hcount]; omega) (by rw [hcount]; omega)
  refine ⟨⟨?_, ?_, ?_, ?_, ?_⟩, hT, hT0⟩
  · simpa [hins] using hin2
  · simpa [hins] using hnd2
  · show wrap64 (info.UploadedChunks + 1) =
      ((insertKey idx info.ChunksReceived).length : Int)
    rw [hins, hw, hcount, List.length_cons]
    push_cast
    rfl
  · intro _
    show wrap64 (info.UploadedChunks + 1) ≤ info.TotalChunks
    rw [hw, hcount]
    exact hlen2
  · show (if wrap64 (info.UploadedChunks + 1) = info.TotalChunks then
        "allChunksReceived".toList else "inProgress".toList) = "allChunksReceived".toList ↔
      wrap64 (info.UploadedChunks + 1) = info.TotalChunks
    have hne : "inProgress".toList ≠ "allChunksReceived".toList := by decide
    by_cases he : wrap64 (info.UploadedChunks + 1) = info.TotalChunks
    · simp only [he, if_true]
    · simp only [he, if_false, iff_false]
      exact hne

/-- Every upload record of a reachable state satisfies `UploadRecordOK`. -/
theorem reachable_records_ok (sv : Server) (h : Reachable sv) :
    ∀ id info, mapGet sv.chunkedUploads id = some info → UploadRecordOK info := by
  induction h with
  | start => intro id info hget; simp [mapGet] at hget
  | initiate sv inp _ ih =>
    intro id info hget
    cases huser : inp.userID with
    | none =>
      simp only [InitChunkedUpload, huser] at hget
      exact ih id info hget
    | some uid =>
      cases hbind : bindInit inp.body with
      | none =>
        simp only [InitChunkedUpload, huser, hbind] at hget
        exact ih id info hget
      | some r =>
        cases hmk : inp.mkdirError with
        | some err =>
          simp only [InitChunkedUpload, huser, hbind, hmk] at hget
          exact ih id info hget
        | none =>
          simp only [InitChunkedUpload, huser, hbind, hmk] at hget
          by_cases hk : id = inp.newUUID
          · subst hk
            rw [mapGet_mapSet_same] at hget
            cases hget
            exact UploadRecordOK_init r _ _ _ _ _ (bindInit_some _ _ hbind)
          · rw [mapGet_mapSet_other _ _ _ _ hk] at hget
            exact ih id info hget
  | acceptChunk sv inp _ ih =>
    intro id info hget
    by_cases h200 : (UploadChunk sv inp).1.code = 200
    · obtain ⟨uid, idx, old, _, _, _, _, hold, _, hrange, hcases⟩ :=
        UploadChunk_code_200 sv inp h200
      rcases hcases with ⟨_, hres⟩ | ⟨hmem, data, _, hres⟩
      · rw [hres] at hget
        exact ih id info hget
      · rw [hres] at hget
        simp only at hget
        by_cases hk : id = inp.uploadId
        · subst hk
          rw [mapGet_mapSet_same] at hget
          cases hget
          exact UploadRecordOK_accept old idx inp.now (ih _ _ hold) hrange hmem
        · rw [mapGet_mapSet_other _ _ _ _ hk] at hget
          exact ih id info hget
    · -- a request that is not answered with 200 leaves the upload records as they are
      have hsame : (UploadChunk sv inp).2.chunkedUploads = sv.chunkedUploads := by
        unfold UploadChunk at h200 ⊢
        split
        · rfl
        · split
          · rfl
          · split
            · rfl
            · split
              · rfl
              · split
                · rfl
                · split
                  · rfl
                  · split
                    · rfl
                    · split
                      · rfl
                      · split <;> first | rfl | (exfalso; apply h200; simp_all [ChunkResponse.code])
      rw [hsame] at hget
      exact ih id info hget

/-- C7 (as amended): in every state reached from the empty server by initiations and
chunk submissions handled one after the other, each upload's received-set holds only
indices in `[0, TotalChunks)`, each once, the uploaded count equals the number of
received indices, the uploaded count is at most `TotalChunks` when `TotalChunks` is
positive, and the status is `allChunksReceived` exactly when the uploaded count equals
`TotalChunks`. -/
theorem reachable_received_set_invariant (sv : Server) (h : Reachable sv)
    (id : Str) (info : ChunkedUploadInfo)
    (hget : mapGet sv.chunkedUploads id = some info) : ReceivedSetInvariant info :=
  (reachable_records_ok sv h id info hget).1

theorem reachable_received_set_invariant_witness :
    mapGet (UploadChunk demoServer (demoChunk "1" [1, 2])).2.chunkedUploads "u1".toList =
        some demoInfoAfterChunk ∧
      ReceivedSetInvariant demoInfoAfterChunk :=
  ⟨by decide,
    reachable_received_set_invariant
      (UploadChunk (InitChunkedUpload {} demoInit).2 (demoChunk "1" [1, 2])).2
      (Reachable.acceptChunk _ _ (Reachable.initiate _ _ Reachable.start))
      "u1".toList demoInfoAfterChunk (by decide)⟩

/-- C7 (as stated) fails: the initiation with chunk count -1 is accepted, and in the
state it reaches the upload has the uploaded count 0 above its `TotalChunks`. -/
theorem reachable_count_above_total :
    Reachable (InitChunkedUpload {} negativeInit).2 ∧
      mapGet (InitChunkedUpload {} negativeInit).2.chunkedUploads "u1".toList =
        some negativeInfo ∧
      ¬ ReceivedSetClaim negativeInfo := by
  refine ⟨Reachable.initiate _ _ Reachable.start, by decide, ?_⟩
  intro h
  have hle : negativeInfo.UploadedChunks ≤ negativeInfo.TotalChunks := h.2.2.2.1
  revert hle
  decide

/-- C8 (as stated) fails: an initiation whose chunk count is -1 is answered with
success, returns the upload id and creates the upload record. -/
theorem InitChunkedUpload_accepts_negative :
    (InitChunkedUpload {} negativeInit).1 = .ok "u1".toList (-1) ∧
      mapGet (InitChunkedUpload {} negativeInit).2.chunkedUploads "u1".toList =
        some negativeInfo := by
  decide

/-- C8 (as amended): `InitChunkedUpload` rejects every request whose total size, chunk
size or chunk count is zero: the server state is unchanged, so no upload record is
created, and the answer is not a success, so no upload id is returned. -/
theorem InitChunkedUpload_rejects_zero (sv : Server) (inp : InitInput) (r : InitRequest)
    (hbody : inp.body = some r)
    (hzero : r.TotalSize = 0 ∨ r.ChunkSize = 0 ∨ r.TotalChunks = 0) :
    (InitChunkedUpload sv inp).2 = sv ∧
      ((InitChunkedUpload sv inp).1 = .unauthorized ∨
        (InitChunkedUpload sv inp).1 = .badRequest) := by
  have hbind : bindInit inp.body = none := by
    rw [hbody]
    simp only [bindInit]
    rw [if_neg]
    simp only [Bool.and_eq_true, decide_eq_true_eq]
    intro hall
    rcases hzero with h | h | h
    · exact hall.1.1.1.2 h
    · exact hall.1.1.2 h
    · exact hall.1.2 h
  cases huser : inp.userID with
  | none => simp [InitChunkedUpload, huser]
  | some uid => simp [InitChunkedUpload, huser, hbind]

theorem InitChunkedUpload_rejects_zero_witness :
    (InitChunkedUpload demoServer
        { demoInit with body := some ⟨"g.bin".toList, 300, 100, 0, "bin".toList⟩,
                        newUUID := "u2".toList }).2 = demoServer ∧
      ((InitChunkedUpload demoServer
          { demoInit with body := some ⟨"g.bin".toList, 300, 100, 0, "bin".toList⟩,
                          newUUID := "u2".toList }).1 = .unauthorized ∨
        (InitChunkedUpload demoServer
          { demoInit with body := some ⟨"g.bin".toList, 300, 100, 0, "bin".toList⟩,
                          newUUID := "u2".toList }).1 = .badRequest) :=
  InitChunkedUpload_rejects_zero demoServer _ ⟨"g.bin".toList, 300, 100, 0, "bin".toList⟩
    rfl (Or.inr (Or.inr rfl))

/-- The answer of `CompleteChunkedUpload` when every chunk has arrived: success with
the job id just generated, the status `assembling`, and the assembly job started. -/
theorem CompleteChunkedUpload_complete (sv : Server) (inp : CompleteInput)
    (uid : Nat) (id : Str) (info : ChunkedUploadInfo)
    (huser : inp.userID = some uid) (hbody : inp.body = some id) (hid : id ≠ [])
    (hget : mapGet sv.chunkedUploads id = some info) (hown : info.UserID = uid)
    (he : info.UploadedChunks = info.TotalChunks) :
    CompleteChunkedUpload sv inp =
      (.ok id inp.newUUID,
        { sv with
          chunkedUploads :=
            mapSet sv.chunkedUploads id { info with Status := "assembling".toList } },
        some ⟨id, inp.newUUID, uid⟩) := by
  simp [CompleteChunkedUpload, huser, hbody, hid, hget, hown, he]

/-- C9: for an authenticated completion request naming a known upload of the same
user, `CompleteChunkedUpload` answers `incomplete` exactly when the uploaded count
differs from `TotalChunks`; in that case the server state is unchanged and no assembly
job is started; when the counts agree it answers with the job id just generated, starts
the assembly job under that id, and the upload's status becomes `assembling`, nothing
else of the upload changing. -/
theorem CompleteChunkedUpload_incomplete_iff (sv : Server) (inp : CompleteInput)
    (uid : Nat) (id : Str) (info : ChunkedUploadInfo)
    (huser : inp.userID = some uid) (hbody : inp.body = some id) (hid : id ≠ [])
    (hget : mapGet sv.chunkedUploads id = some info) (hown : info.UserID = uid) :
    ((CompleteChunkedUpload sv inp).1 =
        .incomplete info.UploadedChunks info.TotalChunks ↔
      info.UploadedChunks ≠ info.TotalChunks) ∧
    (info.UploadedChunks ≠ info.TotalChunks →
      CompleteChunkedUpload sv inp =
        (.incomplete info.UploadedChunks info.TotalChunks, sv, none)) ∧
    (info.UploadedChunks = info.TotalChunks →
      (CompleteChunkedUpload sv inp).1 = .ok id inp.newUUID ∧
      (CompleteChunkedUpload sv inp).2.2 = some ⟨id, inp.newUUID, uid⟩ ∧
      mapGet (CompleteChunkedUpload sv inp).2.1.chunkedUploads id =
        some { info with Status := "assembling".toList } ∧
      (∀ other, other ≠ id →
        mapGet (CompleteChunkedUpload sv inp).2.1.chunkedUploads other =
          mapGet sv.chunkedUploads other) ∧
      (CompleteChunkedUpload sv inp).2.1.uploadJobs = sv.uploadJobs) := by
  have hfail : info.UploadedChunks ≠ info.TotalChunks →
      CompleteChunkedUpload sv inp =
        (.incomplete info.UploadedChunks info.TotalChunks, sv, none) := by
    intro hne
    simp [CompleteChunkedUpload, huser, hbody, hid, hget, hown, hne]
  have hok := CompleteChunkedUpload_complete sv inp uid id info huser hbody hid hget hown
  refine ⟨?_, hfail, ?_⟩
  · constructor
    · intro h hne
      by_cases he : info.UploadedChunks = info.TotalChunks
      · rw [hok he] at h
        cases h
      · exact he hne
    · intro hne
      rw [hfail hne]
  · intro he
    rw [hok he]
    refine ⟨rfl, rfl, ?_, ?_, rfl⟩
    · exact mapGet_mapSet_same _ _ _
    · intro other hother
      exact mapGet_mapSet_other _ _ _ _ hother

theorem CompleteChunkedUpload_incomplete_iff_witness :
    CompleteChunkedUpload demoServer demoComplete = (.incomplete 0 3, demoServer, none) :=
  (CompleteChunkedUpload_incomplete_iff demoServer demoComplete 7 "u1".toList demoInfo
    (by decide) (by decide) (by decide) (by decide) (by decide)).2.1 (by decide)

/-! ## Assembly -/

theorem AsmState.update_fs (s : AsmState) (jobID : Str) (p : UploadProgress) :
    (s.update jobID p).server.fs = s.server.fs := rfl

theorem setUploadStatus_fs (sv : Server) (id status : Str) :
    (setUploadStatus sv id status).fs = sv.fs := by
  unfold setUploadStatus
  cases mapGet sv.chunkedUploads id <;> rfl

theorem assembleAndProcessFile_handedOff (f : AssembleFaults) (sv : Server)
    (info : ChunkedUploadInfo) (jobID path : Str) (r : AssembleResult)
    (hr : assembleAndProcessFile f sv info jobID = r)
    (h : r.outcome = .handedOff path) :
    ∃ content, r.state.server.fs.read path = some content ∧
      (content.length : Int) = info.TotalSize := by
  unfold assembleAndProcessFile at hr
  simp only at hr
  repeat' split at hr
  all_goals subst hr
  all_goals first
    | (exfalso; simp at h; done)
    | skip
  rename_i content _ hread hlen _ _ _ _
  simp only [AssembleOutcome.handedOff.injEq] at h
  subst h
  refine ⟨content, ?_, ?_⟩
  · simp only [setUploadStatus_fs, AsmState.update_fs]
    exact hread
  · simpa using hlen


theorem UploadChunk_fresh (sv : Server) (r : ChunkInput) (uid : Nat) (id : Str) (k : Int)
    (info : ChunkedUploadInfo) (hid : id ≠ [])
    (hget : mapGet sv.chunkedUploads id = some info) (hown : info.UserID = uid)
    (hr : StoresChunk uid id r k) (hrange : 0 ≤ k ∧ k < info.TotalChunks)
    (hmem : k ∉ info.ChunksReceived) :
    mapGet (UploadChunk sv r).2.chunkedUploads id =
      some { info with
        ChunksReceived := insertKey k info.ChunksReceived
        UploadedChunks := wrap64 (info.UploadedChunks + 1)
        UpdatedAt := r.now
        Status :=
          if wrap64 (info.UploadedChunks + 1) = info.TotalChunks then
            "allChunksReceived".toList
          else "inProgress".toList } := by
  obtain ⟨hu, hi, ha, data, hd⟩ := hr
  subst hi
  have hne := Atoi_some_ne_nil _ _ ha
  have hrange2 : ¬ (k < 0 ∨ k ≥ info.TotalChunks) := by omega
  simp [UploadChunk, hu, hid, hne, ha, hget, hown, hrange2, hmem, hd, mapGet_mapSet_same]

theorem submitAll_fresh (uid : Nat) (id : Str) (hid : id ≠ []) (reqs : List ChunkInput)
    (idxs : List Int) (hreqs : List.Forall₂ (StoresChunk uid id) reqs idxs) :
    ∀ (sv : Server) (info : ChunkedUploadInfo),
      mapGet sv.chunkedUploads id = some info → UploadRecordOK info → info.UserID = uid →
      (∀ k ∈ idxs, 0 ≤ k ∧ k < info.TotalChunks ∧ k ∉ info.ChunksReceived) →
      idxs.Nodup →
      ∃ info2, mapGet (submitAll sv reqs).chunkedUploads id = some info2 ∧
        info2.UserID = uid ∧ info2.TotalChunks = info.TotalChunks ∧
        info2.TotalSize = info.TotalSize ∧
        info2.UploadedChunks = info.UploadedChunks + idxs.length := by
  induction hreqs with
  | nil =>
    intro sv info hget _ hown _ _
    exact ⟨info, hget, hown, rfl, rfl, by simp⟩
  | @cons r k reqs idxs hrk _ ih =>
    intro sv info hget hok hown hall hnd
    have hk := hall k (List.mem_cons_self _ _)
    have hrange2 : ¬ (k < 0 ∨ k ≥ info.TotalChunks) := by omega
    have hstep := UploadChunk_fresh sv r uid id k info hid hget hown hrk ⟨hk.1, hk.2.1⟩ hk.2.2
    have hok2 := UploadRecordOK_accept info k r.now hok hrange2 hk.2.2
    have hnd2 := List.nodup_cons.1 hnd
    obtain ⟨info2, hget2, hown2, hT2, hS2, hcount2⟩ :=
      ih (UploadChunk sv r).2 _ hstep hok2 hown (by
        intro j hj
        have hj2 := hall j (List.mem_cons_of_mem _ hj)
        refine ⟨hj2.1, hj2.2.1, ?_⟩
        show j ∉ insertKey k info.ChunksReceived
        unfold insertKey
        rw [if_neg hk.2.2]
        intro hmem
        rcases List.mem_cons.1 hmem with rfl | hmem
        · exact hnd2.1 hj
        · exact hj2.2.2 hmem) hnd2.2
    refine ⟨info2, ?_, hown2, hT2, hS2, ?_⟩
    · simpa [submitAll] using hget2
    · rw [hcount2]
      show wrap64 (info.UploadedChunks + 1) + (idxs.length : Int) =
        info.UploadedChunks + ((k :: idxs).length : Int)
      have hw : wrap64 (info.UploadedChunks + 1) = info.UploadedChunks + 1 := by
        obtain ⟨⟨_, _, hc, _, _⟩, _, _⟩ := hok2
        have hcc : wrap64 (info.UploadedChunks + 1) =
            ((insertKey k info.ChunksReceived).length : Int) := hc
        obtain ⟨⟨_, _, hc0, _, _⟩, _, _⟩ := hok
        rw [hcc, hc0]
        simp [insertKey, hk.2.2]
      rw [hw, List.length_cons]
      push_cast
      ring

theorem covering_length (idxs : List Int) (T : Int) (hnd : idxs.Nodup)
    (hall : ∀ k, k ∈ idxs ↔ 0 ≤ k ∧ k < T) (hpos : 0 < T) : (idxs.length : Int) = T := by
  have heq : idxs.toFinset = Finset.Ico (0 : Int) T := by
    ext k
    rw [List.mem_toFinset, Finset.mem_Ico]
    exact hall k
  have hcard := congrArg Finset.card heq
  rw [List.toFinset_card_of_nodup hnd, Int.card_Ico] at hcard
  rw [hcard]
  simp
  omega


theorem AsmState.update_job (s : AsmState) (jobID : Str) (p : UploadProgress) :
    mapGet (s.update jobID p).server.uploadJobs jobID = some { p with JobID := jobID } := by
  simp [AsmState.update, mapGet_mapSet_same]

theorem assembleLoop_none (f : AssembleFaults) (info : ChunkedUploadInfo)
    (jobID final : Str) (n : Nat) :
    ∀ (i total : Int) (s s2 : AsmState),
      assembleLoop f info jobID final n i total s = (s2, none) →
      jobStatus s2.server jobID = some "error".toList := by
  induction n with
  | zero => intro i total s s2 h; simp [assembleLoop] at h
  | succ n ih =>
    intro i total s s2 h
    unfold assembleLoop at h
    simp only at h
    repeat' split at h
    all_goals first
      | (simp only [Prod.mk.injEq, and_true] at h; subst h; simp [jobStatus, AsmState.update_job])
      | exact ih _ _ _ _ h

theorem assembleAndProcessFile_failed (f : AssembleFaults) (sv : Server)
    (info : ChunkedUploadInfo) (jobID : Str) (r : AssembleResult)
    (hr : assembleAndProcessFile f sv info jobID = r)
    (h : r.outcome = .failed) :
    jobStatus r.state.server jobID = some "error".toList := by
  unfold assembleAndProcessFile at hr
  simp only at hr
  repeat' split at hr
  all_goals subst hr
  all_goals first
    | (simp [jobStatus, AsmState.update_job]; done)
    | (exfalso; simp at h; done)
    | skip
  rename_i hloop
  exact assembleLoop_none _ _ _ _ _ _ _ _ _ hloop

/-- C10 (as stated) fails: the 300-byte upload `u1` of three chunks receives each of
the indices 0, 1, 2 exactly once with one byte of data each; the completion request is
answered with success, and the assembly leaves a file of 3 bytes and the job in
`error`. -/
theorem complete_with_short_chunks :
    (CompleteChunkedUpload (submitAll demoServer demoRequests) demoComplete).1 =
        .ok "u1".toList "j1".toList ∧
      mapGet (CompleteChunkedUpload (submitAll demoServer demoRequests)
        demoComplete).2.1.chunkedUploads "u1".toList = some demoInfoAssembling ∧
      (assembleAndProcessFile {} (CompleteChunkedUpload (submitAll demoServer demoRequests)
        demoComplete).2.1 demoInfoAssembling "j1".toList).state.server.fs.read
          "/tmp/chunked_uploads/u1/f.bin".toList = some [1, 2, 3] ∧
      demoInfoAssembling.TotalSize = 300 ∧
      jobStatus (assembleAndProcessFile {} (CompleteChunkedUpload (submitAll demoServer demoRequests)
        demoComplete).2.1 demoInfoAssembling "j1".toList).state.server "j1".toList =
          some "error".toList := by
  decide

/-! ## Fallback and failure of CID extraction -/

theorem not_grammar_of_match_none (s : Str) (h : cidRegexMatch s = none) : ¬ CIDGrammar s := by
  intro hg
  rcases hg with hi | ⟨a, b, rfl, ha, hb⟩
  · rw [cidRegexMatch_ident s hi] at h
    cases h
  · rw [cidRegexMatch_pair a b ha hb] at h
    cases h

theorem scanCIDLines_no_match (xs : List Str)
    (hxs : ∀ m ∈ xs, ¬ CIDGrammar (TrimSpace m)) : scanCIDLines xs = ⟨[], [], []⟩ := by
  have h := scanCIDLines_skip xs [] hxs
  rw [List.append_nil] at h
  rw [h]
  rfl

theorem lastNonEmpty_skip (xs ys : List Str) (hxs : ∀ m ∈ xs, TrimSpace m = []) :
    lastNonEmpty (xs ++ ys) = lastNonEmpty ys := by
  induction xs with
  | nil => rfl
  | cons x xs ih =>
    have hx := hxs x (List.mem_cons_self _ _)
    simp only [List.cons_append, lastNonEmpty, hx, ne_eq, not_true_eq_false, if_false]
    exact ih (fun m hm => hxs m (List.mem_cons_of_mem _ hm))

theorem last_non_blank (lines : List Str) (h : ∃ l ∈ lines, TrimSpace l ≠ []) :
    ∃ pre l post, lines = pre ++ l :: post ∧ TrimSpace l ≠ [] ∧
      ∀ m ∈ post, TrimSpace m = [] := by
  induction lines with
  | nil => obtain ⟨l, hl, _⟩ := h; cases hl
  | cons x xs ih =>
    by_cases hx : ∃ l ∈ xs, TrimSpace l ≠ []
    · obtain ⟨pre, l, post, hsplit, hl, hpost⟩ := ih hx
      exact ⟨x :: pre, l, post, by rw [hsplit]; rfl, hl, hpost⟩
    · obtain ⟨l, hl, hne⟩ := h
      rcases List.mem_cons.1 hl with rfl | hl
      · refine ⟨[], l, xs, rfl, hne, ?_⟩
        intro m hm
        by_contra hm2
        exact hx ⟨m, hm, hm2⟩
      · exact absurd ⟨l, hl, hne⟩ hx

theorem extractCID_fallback (output : Str) (pre post : List Str) (l : Str)
    (hnone : ∀ m ∈ splitLines output, ¬ CIDGrammar (TrimSpace m))
    (hsplit : splitLines output = pre ++ l :: post) (hl : TrimSpace l ≠ [])
    (hpost : ∀ m ∈ post, TrimSpace m = []) :
    ∃ base, extractCID output = .fallback ⟨TrimSpace l, base, base⟩ := by
  have hscan : scanCIDLines (splitLines output).reverse = ⟨[], [], []⟩ :=
    scanCIDLines_no_match _ (fun m hm => hnone m (List.mem_reverse.1 hm))
  have hrev : (splitLines output).reverse = post.reverse ++ l :: pre.reverse := by
    rw [hsplit]; simp
  have hlast : lastNonEmpty (splitLines output).reverse = TrimSpace l := by
    rw [hrev, lastNonEmpty_skip _ _ (fun m hm => hpost m (List.mem_reverse.1 hm))]
    simp [lastNonEmpty, hl]
  simp only [extractCID, hscan, hlast, if_true]
  rw [if_pos hl]
  exact ⟨_, rfl⟩

theorem extractCID_failed (output : Str)
    (hblank : ∀ m ∈ splitLines output, TrimSpace m = []) : extractCID output = .failed := by
  have hnone : ∀ m ∈ splitLines output, ¬ CIDGrammar (TrimSpace m) := by
    intro m hm
    rw [hblank m hm]
    exact not_grammar_of_match_none [] (by decide)
  have hscan : scanCIDLines (splitLines output).reverse = ⟨[], [], []⟩ :=
    scanCIDLines_no_match _ (fun m hm => hnone m (List.mem_reverse.1 hm))
  have hlast : lastNonEmpty (splitLines output).reverse = [] := by
    have h := lastNonEmpty_skip (splitLines output).reverse []
      (fun m hm => hblank m (List.mem_reverse.1 hm))
    rw [List.append_nil] at h
    rw [h]
    rfl
  simp [extractCID, hscan, hlast]

/-- C4: when no trimmed line of the upload output matches the content-identifier
grammar, then, if some line is not blank, CID extraction falls back to the last
non-blank line, trimmed, as the identifier and the pipeline goes on to the binding
stage (its next registry write is `adding_root` with that identifier); and if every
line is blank, the only thing the pipeline does is write the stage `error` to the
registry, so no `add-roots` command is run. -/
theorem extractCID_fallback_or_error (env : PipelineEnv) (job : UploadJob) (output : Str)
    (hnone : ∀ m ∈ splitLines output, ¬ CIDGrammar (TrimSpace m)) :
    ((∃ l ∈ splitLines output, TrimSpace l ≠ []) →
      ∃ pre l post, splitLines output = pre ++ l :: post ∧ TrimSpace l ≠ [] ∧
        (∀ m ∈ post, TrimSpace m = []) ∧
        (∃ base, extractCID output = .fallback ⟨TrimSpace l, base, base⟩) ∧
        ∃ rest, processUploadAfterUpload env job output =
          updateStatus job
            { Status := "adding_root".toList
              Progress := 95
              Message := "Finding or creating a proof set for your file...".toList
              CID := TrimSpace l } :: rest) ∧
    ((∀ l ∈ splitLines output, TrimSpace l = []) →
      processUploadAfterUpload env job output =
        [updateStatus job
          { Status := "error".toList
            Error := "Failed to extract CID from upload response".toList
            Message := "Could not determine upload result CID.".toList }] ∧
      ∀ e ∈ processUploadAfterUpload env job output, e.isAddRoots = false) := by
  constructor
  · intro hex
    obtain ⟨pre, l, post, hsplit, hl, hpost⟩ := last_non_blank _ hex
    obtain ⟨base, hfb⟩ := extractCID_fallback output pre post l hnone hsplit hl hpost
    refine ⟨pre, l, post, hsplit, hl, hpost, ⟨base, hfb⟩, ?_⟩
    simp only [processUploadAfterUpload, hfb, bindAndConfirm]
    exact ⟨_, rfl⟩
  · intro hblank
    have hf := extractCID_failed output hblank
    have htrace : processUploadAfterUpload env job output =
        [updateStatus job
          { Status := "error".toList
            Error := "Failed to extract CID from upload response".toList
            Message := "Could not determine upload result CID.".toList }] := by
      simp only [processUploadAfterUpload, hf]
    refine ⟨htrace, ?_⟩
    intro e he
    rw [htrace] at he
    rw [List.mem_singleton] at he
    subst he
    rfl

theorem extractCID_fallback_or_error_witness :
    processUploadAfterUpload demoEnv demoJob "\n \n".toList =
        [updateStatus demoJob
          { Status := "error".toList
            Error := "Failed to extract CID from upload response".toList
            Message := "Could not determine upload result CID.".toList }] ∧
      ∀ e ∈ processUploadAfterUpload demoEnv demoJob "\n \n".toList, e.isAddRoots = false :=
  (extractCID_fallback_or_error demoEnv demoJob "\n \n".toList (by
    intro m hm
    have hm2 : m ∈ [[], " ".toList, []] := hm
    simp only [List.mem_cons, List.mem_singleton, List.not_mem_nil, or_false] at hm2
    rcases hm2 with rfl | rfl | rfl <;>
      exact not_grammar_of_match_none _ (by decide))).2 (by
    intro m hm
    have hm2 : m ∈ [[], " ".toList, []] := hm
    simp only [List.mem_cons, List.mem_singleton, List.not_mem_nil, or_false] at hm2
    rcases hm2 with rfl | rfl | rfl <;> decide)

/-! ## The pending stage -/

theorem processUploadAfterUpload_cids (env : PipelineEnv) (job : UploadJob) (output : Str)
    (c : CIDs) (hc : (extractCID output).cids = some c) :
    processUploadAfterUpload env job output = bindAndConfirm env job c := by
  unfold processUploadAfterUpload
  cases h : extractCID output with
  | failed => rw [h] at hc; cases hc
  | matched c2 =>
    rw [h] at hc
    simp only [CIDExtraction.cids, Option.some.injEq] at hc
    subst hc
    rfl
  | fallback c2 =>
    rw [h] at hc
    simp only [CIDExtraction.cids, Option.some.injEq] at hc
    subst hc
    rfl

/-! ## The binding loop -/

theorem nextBackoff_ten : nextBackoff (10 * second) = 10 * second := by decide

theorem shouldRetry_true (stderrStr : Str) : shouldRetry stderrStr = true := by
  unfold shouldRetry
  repeat' split
  all_goals rfl

theorem countAddRoots_append (a b : List Event) :
    countAddRoots (a ++ b) = countAddRoots a + countAddRoots b := by
  simp [countAddRoots, List.countP_append]

theorem tdiv_ten : ¬ (Int.tdiv (10 * second) 2 ≤ 0) := by decide

theorem statuses_append (a b : List Event) : statuses (a ++ b) = statuses a ++ statuses b := by
  simp [statuses, List.filterMap_append]

theorem finalStage_append (a b : List Event) (x : Str) (h : finalStage b = some x) :
    finalStage (a ++ b) = some x := by
  unfold finalStage at h ⊢
  rw [statuses_append]
  cases hb : (statuses b).getLast? with
  | none => rw [hb] at h; cases h
  | some p =>
    rw [hb] at h
    have hne : statuses b ≠ [] := by
      intro hnil
      rw [hnil] at hb
      cases hb
    rw [List.getLast?_append_of_ne_nil _ hne, hb]
    exact h

/-- One iteration of the binding loop with the backoff it always has. -/
theorem addRootsLoop_step (env : PipelineEnv) (job : UploadJob) (c : CIDs) (ps : Str)
    (args : List Str) (fuel attempt : Nat) (ha : attempt ≤ maxRetries) :
    (¬ (env.addRoots attempt).failed = true →
      countAddRoots (addRootsLoop env job c ps args (fuel + 1) attempt (10 * second)).1 = 1 ∧
      (addRootsLoop env job c ps args (fuel + 1) attempt (10 * second)).2 = .success) ∧
    ((env.addRoots attempt).failed = true → attempt < maxRetries →
      countAddRoots (addRootsLoop env job c ps args (fuel + 1) attempt (10 * second)).1 =
        1 + countAddRoots (addRootsLoop env job c ps args fuel (attempt + 1)
          (10 * second)).1 ∧
      (addRootsLoop env job c ps args (fuel + 1) attempt (10 * second)).2 =
        (addRootsLoop env job c ps args fuel (attempt + 1) (10 * second)).2 ∧
      ∃ pre, (addRootsLoop env job c ps args (fuel + 1) attempt (10 * second)).1 =
        pre ++ (addRootsLoop env job c ps args fuel (attempt + 1) (10 * second)).1) ∧
    ((env.addRoots attempt).failed = true → ¬ attempt < maxRetries →
      countAddRoots (addRootsLoop env job c ps args (fuel + 1) attempt (10 * second)).1 = 1 ∧
      (addRootsLoop env job c ps args (fuel + 1) attempt (10 * second)).2 = .returned ∧
      finalStage (addRootsLoop env job c ps args (fuel + 1) attempt (10 * second)).1 =
        some "error".toList) := by
  refine ⟨?_, ?_, ?_⟩
  · intro hf
    simp only [addRootsLoop, ha, if_true, hf]
    by_cases h1 : attempt > 1 <;>
      simp [h1, countAddRoots, Event.isAddRoots, updateStatus]
  · intro hf hlt
    have key : ∃ pre, countAddRoots pre = 1 ∧
        addRootsLoop env job c ps args (fuel + 1) attempt (10 * second) =
          (pre ++ (addRootsLoop env job c ps args fuel (attempt + 1) (10 * second)).1,
            (addRootsLoop env job c ps args fuel (attempt + 1) (10 * second)).2) := by
      by_cases hto : (env.addRoots attempt).timedOut = true
      · simp only [addRootsLoop, ha, if_true, hf, hto, hlt, nextBackoff_ten]
        refine ⟨_, ?_, rfl⟩
        by_cases h1 : attempt > 1 <;>
          simp [h1, countAddRoots, Event.isAddRoots, updateStatus]
      · simp only [addRootsLoop, ha, if_true, hf, hto, hlt, nextBackoff_ten,
          shouldRetry_true, decide_True, Bool.and_self, tdiv_ten, if_false]
        refine ⟨_, ?_, rfl⟩
        by_cases h1 : attempt > 1 <;>
          simp [h1, countAddRoots, Event.isAddRoots, updateStatus]
    obtain ⟨pre, hpre, hloop⟩ := key
    rw [hloop]
    refine ⟨?_, rfl, pre, rfl⟩
    show countAddRoots (pre ++ _) = _
    rw [countAddRoots_append, hpre]
  · intro hf hlt
    have hge : attempt ≥ maxRetries := by omega
    by_cases hto : (env.addRoots attempt).timedOut = true
    · simp only [addRootsLoop, ha, if_true, hf, hto, hlt, if_false]
      by_cases h1 : attempt > 1 <;>
        simp [h1, countAddRoots, Event.isAddRoots, updateStatus, finalStage, statuses,
          List.filterMap_append]
    · simp only [addRootsLoop, ha, if_true, hf, hto, hlt, decide_False, Bool.and_false,
        hge, if_false]
      by_cases h1 : attempt > 1 <;>
        simp [h1, countAddRoots, Event.isAddRoots, updateStatus, finalStage, statuses,
          List.filterMap_append]

theorem addRootsLoop_exceeded (env : PipelineEnv) (job : UploadJob) (c : CIDs) (ps : Str)
    (args : List Str) (fuel attempt : Nat) (b : Int) (ha : ¬ attempt ≤ maxRetries) :
    addRootsLoop env job c ps args fuel attempt b = ([], .exhausted) := by
  cases fuel with
  | zero => rfl
  | succ n => simp [addRootsLoop, ha]

/-- The binding loop runs `add-roots` at most as often as it has iterations. -/
theorem addRootsLoop_count_le (env : PipelineEnv) (job : UploadJob) (c : CIDs) (ps : Str)
    (args : List Str) (fuel : Nat) :
    ∀ attempt, countAddRoots (addRootsLoop env job c ps args fuel attempt
      (10 * second)).1 ≤ fuel := by
  induction fuel with
  | zero => intro attempt; simp [addRootsLoop, countAddRoots]
  | succ n ih =>
    intro attempt
    by_cases ha : attempt ≤ maxRetries
    · obtain ⟨h1, h2, h3⟩ := addRootsLoop_step env job c ps args n attempt ha
      by_cases hf : (env.addRoots attempt).failed = true
      · by_cases hlt : attempt < maxRetries
        · rw [(h2 hf hlt).1]
          have := ih (attempt + 1)
          omega
        · rw [(h3 hf hlt).1]
          omega
      · rw [(h1 hf).1]
        omega
    · rw [addRootsLoop_exceeded env job c ps args _ attempt _ ha]
      simp [countAddRoots]

/-- While the attempts fail, the next attempt is made. -/
theorem addRootsLoop_retries (env : PipelineEnv) (job : UploadJob) (c : CIDs) (ps : Str)
    (args : List Str) (m : Nat) :
    ∀ (fuel attempt : Nat), m + 1 ≤ fuel → attempt + m ≤ maxRetries →
      (∀ j, attempt ≤ j → j < attempt + m → (env.addRoots j).failed = true) →
      m + 1 ≤ countAddRoots (addRootsLoop env job c ps args fuel attempt (10 * second)).1 := by
  induction m with
  | zero =>
    intro fuel attempt hfuel ha _
    obtain ⟨n, rfl⟩ : ∃ n, fuel = n + 1 := ⟨fuel - 1, by omega⟩
    obtain ⟨h1, h2, h3⟩ := addRootsLoop_step env job c ps args n attempt (by omega)
    by_cases hf : (env.addRoots attempt).failed = true
    · by_cases hlt : attempt < maxRetries
      · rw [(h2 hf hlt).1]; omega
      · rw [(h3 hf hlt).1]
    · rw [(h1 hf).1]
  | succ m ih =>
    intro fuel attempt hfuel ha hfail
    obtain ⟨n, rfl⟩ : ∃ n, fuel = n + 1 := ⟨fuel - 1, by omega⟩
    obtain ⟨_, h2, _⟩ := addRootsLoop_step env job c ps args n attempt (by omega)
    have hf := hfail attempt (le_refl _) (by omega)
    rw [(h2 hf (by omega)).1]
    have := ih n (attempt + 1) (by omega) (by omega) (by
      intro j hj1 hj2
      exact hfail j (by omega) (by omega))
    omega

/-- When every remaining attempt fails, the loop makes all of them and returns with the
job in `error`. -/
theorem addRootsLoop_all_fail (env : PipelineEnv) (job : UploadJob) (c : CIDs) (ps : Str)
    (args : List Str) (fuel : Nat) :
    ∀ attempt, 1 ≤ attempt → attempt + fuel = maxRetries + 1 → 1 ≤ fuel →
      (∀ j, attempt ≤ j → j ≤ maxRetries → (env.addRoots j).failed = true) →
      countAddRoots (addRootsLoop env job c ps args fuel attempt (10 * second)).1 = fuel ∧
      (addRootsLoop env job c ps args fuel attempt (10 * second)).2 = .returned ∧
      finalStage (addRootsLoop env job c ps args fuel attempt (10 * second)).1 =
        some "error".toList := by
  induction fuel with
  | zero => intro attempt _ _ h; omega
  | succ n ih =>
    intro attempt h1 hsum _ hfail
    obtain ⟨_, h2, h3⟩ := addRootsLoop_step env job c ps args n attempt (by omega)
    have hf := hfail attempt (le_refl _) (by omega)
    by_cases hlt : attempt < maxRetries
    · obtain ⟨hc, he, hs⟩ := ih (attempt + 1) (by omega) (by omega) (by omega) (by
        intro j hj1 hj2
        exact hfail j (by omega) hj2)
      obtain ⟨pre, hpre⟩ := (h2 hf hlt).2.2
      refine ⟨by rw [(h2 hf hlt).1, hc]; omega, by rw [(h2 hf hlt).2.1, he], ?_⟩
      rw [hpre]
      exact finalStage_append _ _ _ hs
    · have hn : n = 0 := by omega
      subst hn
      exact ⟨(h3 hf hlt).1, (h3 hf hlt).2.1, (h3 hf hlt).2.2⟩

theorem pollLoop_no_addRoots (M : Nat) (env : PipelineEnv) (job : UploadJob) (c : CIDs)
    (ps : Str) (args : List Str) (fuel : Nat) :
    ∀ (a : Nat) (interval : Int) (ce : Nat),
      countAddRoots (pollLoop M env job c ps args fuel a interval ce).1 = 0 := by
  induction fuel with
  | zero => intro a interval ce; rfl
  | succ n ih =>
    intro a interval ce
    unfold pollLoop
    simp only
    repeat' split
    all_goals
      simp only [countAddRoots_append, ih]
      simp [countAddRoots, Event.isAddRoots, updateStatus]

theorem finishUpload_no_addRoots (M : Nat) (env : PipelineEnv) (job : UploadJob) (c : CIDs)
    (dbID : Nat) (ps : Str) (found : Option Str) (ce : Nat) :
    countAddRoots (finishUpload M env job c dbID ps found ce) = 0 := by
  unfold finishUpload
  simp only
  repeat' split
  all_goals simp [countAddRoots, Event.isAddRoots, updateStatus, List.countP_append]

theorem confirmRoot_no_addRoots (M : Nat) (env : PipelineEnv) (job : UploadJob) (c : CIDs)
    (dbID : Nat) (ps : Str) : countAddRoots (confirmRoot M env job c dbID ps) = 0 := by
  unfold confirmRoot
  simp only [countAddRoots_append, pollLoop_no_addRoots, finishUpload_no_addRoots]
  simp [countAddRoots, Event.isAddRoots, updateStatus]

/-- The trace of the binding stage and what follows, for a provisioned proof set. -/
theorem bindAndConfirm_found (env : PipelineEnv) (job : UploadJob) (c : CIDs) (dbID : Nat)
    (ps : Str) (hps : env.proofSet = .found dbID ps) (hne : ps ≠ []) :
    ∃ pre, countAddRoots pre = 0 ∧
      bindAndConfirm env job c =
        pre ++ (addRootsLoop env job c ps
          ["add-roots".toList, "--service-url".toList, env.ServiceURL,
           "--service-name".toList, env.ServiceName, "--proof-set-id".toList, ps,
           "--root".toList, c.compoundCID] maxRetries 1 (10 * second)).1 ++
        (match (addRootsLoop env job c ps
          ["add-roots".toList, "--service-url".toList, env.ServiceURL,
           "--service-name".toList, env.ServiceName, "--proof-set-id".toList, ps,
           "--root".toList, c.compoundCID] maxRetries 1 (10 * second)).2 with
         | .returned => []
         | .exhausted =>
           [updateStatus job
             { Status := "error".toList
               Error := "Failed to add root to proof set after multiple attempts".toList
               Message := "Service did not accept the root after multiple attempts.".toList
               CID := c.compoundCID
               ProofSetID := ps }]
         | .success => confirmRoot maxPollAttempts env job c dbID ps) := by
  refine ⟨[updateStatus job
      { Status := "adding_root".toList
        Progress := 95
        Message := "Finding or creating a proof set for your file...".toList
        CID := c.compoundCID },
     .sleep (1 * second),
     .findProofSet job.userID,
     updateStatus job
      { Status := "adding_root".toList
        Progress := 95
        Message := "Adding root to proof set ".toList ++ ps ++ "...".toList
        CID := c.compoundCID
        ProofSetID := ps }], ?_, ?_⟩
  · simp [countAddRoots, Event.isAddRoots, updateStatus]
  · unfold bindAndConfirm
    rw [hps]
    simp only
    rw [if_neg hne]
    rfl

/-- C16: in the binding stage, for a provisioned proof set, the `add-roots` command is
run at most `maxRetries` (100) times; while the attempts fail, by timeout or otherwise
and whatever the error text, the next attempt is made up to the last one; and when every
attempt fails the command is run exactly `maxRetries` times and the job is left in stage
`error`. -/
theorem binding_retries (env : PipelineEnv) (job : UploadJob) (c : CIDs) (dbID : Nat)
    (ps : Str) (hps : env.proofSet = .found dbID ps) (hne : ps ≠ []) :
    countAddRoots (bindAndConfirm env job c) ≤ maxRetries ∧
    (∀ k, 1 ≤ k → k < maxRetries →
      (∀ j, 1 ≤ j → j ≤ k → (env.addRoots j).failed = true) →
      k + 1 ≤ countAddRoots (bindAndConfirm env job c)) ∧
    ((∀ j, 1 ≤ j → j ≤ maxRetries → (env.addRoots j).failed = true) →
      countAddRoots (bindAndConfirm env job c) = maxRetries ∧
      finalStage (bindAndConfirm env job c) = some "error".toList) := by
  obtain ⟨pre, hpre, htrace⟩ := bindAndConfirm_found env job c dbID ps hps hne
  have htail : ∀ x : LoopExit, countAddRoots (match x with
      | .returned => []
      | .exhausted =>
        [updateStatus job
          { Status := "error".toList
            Error := "Failed to add root to proof set after multiple attempts".toList
            Message := "Service did not accept the root after multiple attempts.".toList
            CID := c.compoundCID
            ProofSetID := ps }]
      | .success => confirmRoot maxPollAttempts env job c dbID ps) = 0 := by
    intro x
    cases x
    · exact confirmRoot_no_addRoots _ _ _ _ _ _
    · simp [countAddRoots, Event.isAddRoots, updateStatus]
    · rfl
  have hcount : countAddRoots (bindAndConfirm env job c) =
      countAddRoots (addRootsLoop env job c ps
        ["add-roots".toList, "--service-url".toList, env.ServiceURL,
         "--service-name".toList, env.ServiceName, "--proof-set-id".toList, ps,
         "--root".toList, c.compoundCID] maxRetries 1 (10 * second)).1 := by
    rw [htrace, countAddRoots_append, countAddRoots_append, hpre, htail]
    omega
  refine ⟨?_, ?_, ?_⟩
  · rw [hcount]
    exact addRootsLoop_count_le _ _ _ _ _ _ _
  · intro k hk1 hk2 hfail
    rw [hcount]
    exact addRootsLoop_retries env job c ps _ k maxRetries 1 (by omega) (by omega) (by
      intro j hj1 hj2
      exact hfail j hj1 (by omega))
  · intro hfail
    obtain ⟨hc, he, hs⟩ := addRootsLoop_all_fail env job c ps
      ["add-roots".toList, "--service-url".toList, env.ServiceURL,
       "--service-name".toList, env.ServiceName, "--proof-set-id".toList, ps,
       "--root".toList, c.compoundCID] maxRetries 1 (le_refl _) (by omega)
      (by decide) hfail
    refine ⟨by rw [hcount, hc], ?_⟩
    rw [htrace, he]
    simp only [List.append_nil]
    exact finalStage_append _ _ _ hs

theorem binding_retries_witness :
    countAddRoots (bindAndConfirm failingBindEnv demoJob
        ⟨"bagaAAA".toList, "bagaAAA".toList, "bagaAAA".toList⟩) = maxRetries ∧
      finalStage (bindAndConfirm failingBindEnv demoJob
        ⟨"bagaAAA".toList, "bagaAAA".toList, "bagaAAA".toList⟩) = some "error".toList :=
  (binding_retries failingBindEnv demoJob
    ⟨"bagaAAA".toList, "bagaAAA".toList, "bagaAAA".toList⟩ 5 "12".toList rfl
    (by decide)).2.2 (fun _ _ _ => rfl)

/-! ## The confirmation poll -/

theorem confirmRoot_eq (M : Nat) (env : PipelineEnv) (job : UploadJob) (c : CIDs)
    (dbID : Nat) (ps : Str) :
    confirmRoot M env job c dbID ps =
      [updateStatus job
        { Status := "finalizing".toList
          Progress := 96
          Message := "Confirming Root ID assignment...".toList
          CID := c.compoundCID
          ProofSetID := ps }] ++ (pollResult M env job c ps).1 ++
      finishUpload M env job c dbID ps (pollResult M env job c ps).2.1
        (pollResult M env job c ps).2.2 := rfl

theorem countGetProofSet_append (a b : List Event) :
    countGetProofSet (a ++ b) = countGetProofSet a + countGetProofSet b := by
  simp [countGetProofSet, List.countP_append]

theorem pollLoop_no_createPiece (M : Nat) (env : PipelineEnv) (job : UploadJob) (c : CIDs)
    (ps : Str) (args : List Str) (fuel : Nat) :
    ∀ (a : Nat) (interval : Int) (ce : Nat),
      (pollLoop M env job c ps args fuel a interval ce).1.countP Event.isCreatePiece = 0 := by
  induction fuel with
  | zero => intro a interval ce; rfl
  | succ n ih =>
    intro a interval ce
    unfold pollLoop
    simp only
    repeat' split
    all_goals
      simp only [List.countP_append, ih]
      simp [Event.isCreatePiece, updateStatus]

/-- The polling loop when every listing call fails: every remaining attempt is made,
nothing is found, and each attempt adds one to `consecutiveErrors`. -/
theorem pollLoop_all_fail (M : Nat) (env : PipelineEnv) (job : UploadJob) (c : CIDs)
    (ps : Str) (args : List Str) (hfail : ∀ k, (env.getProofSet k).failed = true)
    (fuel : Nat) :
    ∀ (a : Nat) (interval : Int) (ce : Nat), a + fuel = M →
      countGetProofSet (pollLoop M env job c ps args fuel a interval ce).1 = fuel ∧
      (pollLoop M env job c ps args fuel a interval ce).2.1 = none ∧
      (pollLoop M env job c ps args fuel a interval ce).2.2 = ce + fuel := by
  induction fuel with
  | zero =>
    intro a interval ce _
    simp [pollLoop, countGetProofSet]
  | succ n ih =>
    intro a interval ce hsum
    have hlt : a < M := by omega
    have hf := hfail (a + 1)
    have hstart : countGetProofSet
        ((if a > 0 then [Event.sleep (10 * second)] else []) ++
          (if (a + 1) % 5 = 0 then
            [updateStatus job
              { Status := "finalizing".toList
                Progress := 96
                Message := "Waiting for blockchain confirmation...".toList
                CID := c.compoundCID
                ProofSetID := ps }]
           else []) ++
          [.getProofSet args]) = 1 := by
      by_cases h0 : a > 0 <;> by_cases h5 : (a + 1) % 5 = 0 <;>
        simp [h0, h5, countGetProofSet, Event.isGetProofSet, updateStatus]
    have key : ∃ pre interval2, countGetProofSet pre = 1 ∧
        pollLoop M env job c ps args (n + 1) a interval ce =
          (pre ++ (pollLoop M env job c ps args n (a + 1) interval2 (ce + 1)).1,
            (pollLoop M env job c ps args n (a + 1) interval2 (ce + 1)).2) := by
      simp only [pollLoop, hlt, if_true, hf]
      split
      · refine ⟨_, _, ?_, rfl⟩
        rw [countGetProofSet_append, hstart]
        simp [countGetProofSet, Event.isGetProofSet]
      · refine ⟨_, _, ?_, rfl⟩
        rw [countGetProofSet_append, hstart]
        simp [countGetProofSet, Event.isGetProofSet]
    obtain ⟨pre, interval2, hpre, hloop⟩ := key
    obtain ⟨h1, h2, h3⟩ := ih (a + 1) interval2 (ce + 1) (by omega)
    rw [hloop]
    refine ⟨?_, h2, by rw [h3]; omega⟩
    show countGetProofSet (pre ++ _) = _
    rw [countGetProofSet_append, hpre, h1]
    omega

theorem finishUpload_no_getProofSet (M : Nat) (env : PipelineEnv) (job : UploadJob)
    (c : CIDs) (dbID : Nat) (ps : Str) (found : Option Str) (ce : Nat) :
    countGetProofSet (finishUpload M env job c dbID ps found ce) = 0 := by
  unfold finishUpload
  simp only
  repeat' split
  all_goals simp [countGetProofSet, Event.isGetProofSet, updateStatus]

/-- C17: the confirmation poll of `processUpload`, whose attempt bound is the constant
`maxPollAttempts` = 100, run with a listing command that fails on every call, runs the
command exactly 100 times and then reports exhaustion: the last registry write is the
error `Polling for Root ID timed out after 100 attempts`, the fallback record id is not
used and no piece record is created. The count holds for the loop with any attempt
bound `M`: the command runs exactly `M` times, never `M + 1`. -/
theorem confirm_poll_exhaustion (env : PipelineEnv) (job : UploadJob) (c : CIDs) (dbID : Nat)
    (ps : Str) (hfail : ∀ k, (env.getProofSet k).failed = true) :
    maxPollAttempts = 100 ∧
    (∀ M, countGetProofSet (confirmRoot M env job c dbID ps) = M) ∧
    countGetProofSet (confirmRoot maxPollAttempts env job c dbID ps) = 100 ∧
    (pollResult maxPollAttempts env job c ps).2.1 = none ∧
    (statuses (confirmRoot maxPollAttempts env job c dbID ps)).getLast? = some
      { Status := "error".toList
        Progress := 98
        Message := "Error: Could not confirm integer Root ID assignment after polling.".toList
        Error := "Polling for Root ID timed out after 100 attempts".toList
        CID := c.compoundCID
        ProofSetID := ps
        JobID := job.jobID } ∧
    finalStage (confirmRoot maxPollAttempts env job c dbID ps) = some "error".toList ∧
    (confirmRoot maxPollAttempts env job c dbID ps).countP Event.isCreatePiece = 0 := by
  have hcount : ∀ M, countGetProofSet (confirmRoot M env job c dbID ps) = M := by
    intro M
    obtain ⟨h1, _, _⟩ := pollLoop_all_fail M env job c ps
      ["get-proof-set".toList, "--service-url".toList, env.ServiceURL,
       "--service-name".toList, env.ServiceName, ps] hfail M 0 (10 * second) 0 (by omega)
    have e0 : countGetProofSet (pollResult M env job c ps).1 = M := h1
    rw [confirmRoot_eq, countGetProofSet_append, countGetProofSet_append, e0,
      finishUpload_no_getProofSet]
    simp [countGetProofSet, Event.isGetProofSet, updateStatus]
  obtain ⟨_, h2, h3⟩ := pollLoop_all_fail maxPollAttempts env job c ps
    ["get-proof-set".toList, "--service-url".toList, env.ServiceURL,
     "--service-name".toList, env.ServiceName, ps] hfail maxPollAttempts 0 (10 * second) 0
    (by omega)
  have e1 : (pollResult maxPollAttempts env job c ps).2.1 = none := h2
  have e2 : (pollResult maxPollAttempts env job c ps).2.2 = 0 + maxPollAttempts := h3
  have hfin : finishUpload maxPollAttempts env job c dbID ps
      (pollResult maxPollAttempts env job c ps).2.1
      (pollResult maxPollAttempts env job c ps).2.2 =
      [updateStatus job
        { Status := "error".toList
          Progress := 98
          Message :=
            "Error: Could not confirm integer Root ID assignment after polling.".toList
          Error := "Polling for Root ID timed out after 100 attempts".toList
          CID := c.compoundCID
          ProofSetID := ps }] := by
    have hnot : ¬ (maxPollAttempts < maxConsecutiveErrors) := by decide
    have hten : "Polling for Root ID timed out after ".toList ++ itoa maxPollAttempts ++
        " attempts".toList = "Polling for Root ID timed out after 100 attempts".toList := by
      decide
    rw [e1, e2]
    simp only [finishUpload, Option.isNone_none, zero_add, hnot, decide_False, Bool.and_false,
      Bool.not_false, Bool.and_self, if_true, hten]
  refine ⟨rfl, hcount, hcount maxPollAttempts, e1, ?_, ?_, ?_⟩
  · rw [confirmRoot_eq, hfin, statuses_append]
    exact List.getLast?_concat _
  · rw [confirmRoot_eq, hfin]
    apply finalStage_append
    simp [finalStage, statuses, updateStatus]
  · rw [confirmRoot_eq, hfin, List.countP_append, List.countP_append]
    have e0 : (pollResult maxPollAttempts env job c ps).1.countP Event.isCreatePiece = 0 :=
      pollLoop_no_createPiece _ _ _ _ _ _ _ _ _ _
    rw [e0]
    simp [Event.isCreatePiece, updateStatus]

/-- C17, witness: with a listing command that fails with `boom` on every call the poll
runs the command 100 times and the job ends in `error`. -/
theorem confirm_poll_exhaustion_witness :
    (∀ k, (failingPollEnv.getProofSet k).failed = true) ∧
    countGetProofSet (confirmRoot maxPollAttempts failingPollEnv demoJob demoCIDs 5
      "12".toList) = 100 ∧
    finalStage (confirmRoot maxPollAttempts failingPollEnv demoJob demoCIDs 5 "12".toList) =
      some "error".toList ∧
    (confirmRoot maxPollAttempts failingPollEnv demoJob demoCIDs 5
      "12".toList).countP Event.isCreatePiece = 0 :=
  let h := confirm_poll_exhaustion failingPollEnv demoJob demoCIDs 5 "12".toList
    (fun _ => rfl)
  ⟨fun _ => rfl, h.2.2.1, h.2.2.2.2.2.1, h.2.2.2.2.2.2⟩

/-- The polling loop when every listing call succeeds without showing the target: it
ends without a record id and with `consecutiveErrors` at zero. -/
theorem pollLoop_never_listed (M : Nat) (env : PipelineEnv) (job : UploadJob) (c : CIDs)
    (ps : Str) (args : List Str)
    (hok : ∀ k, (env.getProofSet k).failed = false ∧
      extractRootID (env.getProofSet k).stdout c.baseCID = none)
    (fuel : Nat) :
    ∀ (a : Nat) (interval : Int) (ce : Nat), 1 ≤ fuel → a < M →
      (pollLoop M env job c ps args fuel a interval ce).2.1 = none ∧
      (pollLoop M env job c ps args fuel a interval ce).2.2 = 0 := by
  induction fuel with
  | zero => intro a interval ce h; omega
  | succ n ih =>
    intro a interval ce _ hlt
    obtain ⟨hf, hx⟩ := hok (a + 1)
    have hnext : ∀ interval2, (pollLoop M env job c ps args n (a + 1) interval2 0).2.1 = none ∧
        (pollLoop M env job c ps args n (a + 1) interval2 0).2.2 = 0 := by
      intro interval2
      cases n with
      | zero => simp [pollLoop]
      | succ m =>
        by_cases hlt2 : a + 1 < M
        · exact ih (a + 1) interval2 0 (by omega) hlt2
        · simp [pollLoop, hlt2]
    simp only [pollLoop, hlt, if_true, hf, hx, Bool.false_eq_true, if_false]
    split
    · exact hnext _
    · exact hnext _

/-- C20: when the confirmation poll ends without a record id and with the final
`consecutiveErrors` below `maxConsecutiveErrors`, the run writes the fallback notice,
creates the piece record with the record id `1` and finishes with `complete` (or with
the persistence error when the database rejects the record); it does not write the
polling error. This is the case in particular when every listing call succeeds but
none lists the content identifier. -/
theorem poll_fallback (env : PipelineEnv) (job : UploadJob) (c : CIDs) (dbID : Nat)
    (ps : Str) :
    ((pollResult maxPollAttempts env job c ps).2.1 = none →
      (pollResult maxPollAttempts env job c ps).2.2 < maxConsecutiveErrors →
      confirmRoot maxPollAttempts env job c dbID ps =
        [updateStatus job
          { Status := "finalizing".toList
            Progress := 96
            Message := "Confirming Root ID assignment...".toList
            CID := c.compoundCID
            ProofSetID := ps }] ++ (pollResult maxPollAttempts env job c ps).1 ++
        fallbackFinish env job c dbID ps ∧
      Event.createPiece (fallbackPiece env job c dbID) ∈
        confirmRoot maxPollAttempts env job c dbID ps ∧
      (env.createPieceError = none →
        finalStage (confirmRoot maxPollAttempts env job c dbID ps) =
          some "complete".toList)) ∧
    ((∀ k, (env.getProofSet k).failed = false ∧
        extractRootID (env.getProofSet k).stdout c.baseCID = none) →
      (pollResult maxPollAttempts env job c ps).2.1 = none ∧
      (pollResult maxPollAttempts env job c ps).2.2 < maxConsecutiveErrors) := by
  constructor
  · intro hnone hce
    have htrace : confirmRoot maxPollAttempts env job c dbID ps =
        [updateStatus job
          { Status := "finalizing".toList
            Progress := 96
            Message := "Confirming Root ID assignment...".toList
            CID := c.compoundCID
            ProofSetID := ps }] ++ (pollResult maxPollAttempts env job c ps).1 ++
        fallbackFinish env job c dbID ps := by
      rw [confirmRoot_eq, hnone]
      simp only [finishUpload, Option.isNone_none, Bool.true_and, hce, decide_True,
        Bool.not_true, Bool.and_false, if_true, Option.getD_none]
      rfl
    refine ⟨htrace, ?_, ?_⟩
    · rw [htrace]
      simp [fallbackFinish]
    · intro hdb
      rw [htrace]
      apply finalStage_append
      simp [fallbackFinish, hdb, finalStage, statuses, updateStatus]
  · intro hok
    obtain ⟨h1, h2⟩ := pollLoop_never_listed maxPollAttempts env job c ps
      ["get-proof-set".toList, "--service-url".toList, env.ServiceURL,
       "--service-name".toList, env.ServiceName, ps] hok maxPollAttempts 0 (10 * second) 0
      (by decide) (by decide)
    refine ⟨h1, ?_⟩
    show (pollLoop maxPollAttempts env job c ps _ maxPollAttempts 0 (10 * second) 0).2.2 < _
    rw [h2]
    decide

theorem poll_fallback_witness :
    Event.createPiece (fallbackPiece emptyListingEnv demoJob
        ⟨"bagaAAA".toList, "bagaAAA".toList, "bagaAAA".toList⟩ 5) ∈
      confirmRoot maxPollAttempts emptyListingEnv demoJob
        ⟨"bagaAAA".toList, "bagaAAA".toList, "bagaAAA".toList⟩ 5 "12".toList ∧
    finalStage (confirmRoot maxPollAttempts emptyListingEnv demoJob
        ⟨"bagaAAA".toList, "bagaAAA".toList, "bagaAAA".toList⟩ 5 "12".toList) =
      some "complete".toList :=
  let h := poll_fallback emptyListingEnv demoJob
    ⟨"bagaAAA".toList, "bagaAAA".toList, "bagaAAA".toList⟩ 5 "12".toList
  let hres := h.2 (fun _ => ⟨rfl,
    show extractRootID "Proof Set ID: 12\n".toList "bagaAAA".toList = none by decide⟩)
  ⟨(h.1 hres.1 hres.2).2.1, (h.1 hres.1 hres.2).2.2 rfl⟩

/-! ## Polling for the proof set id -/

/-- The decision on the output of a successful status call, as a table over the four
fields. -/
theorem classifyStatus_table (statusOutput : Str) :
    (∀ id, classifyStatus statusOutput = .done id ↔
      ((txStatusRegex statusOutput).getD [] = "confirmed".toList ∧
        (txSuccessRegex statusOutput).getD [] = "true".toList ∧
        (creationStatusRegex statusOutput).getD [] = "true".toList ∧
        proofSetIDRegex statusOutput = some id)) ∧
    ((classifyStatus statusOutput = .stalled ∨ classifyStatus statusOutput = .txFailed) ↔
      ((txStatusRegex statusOutput).getD [] = "failed".toList ∨
        ((txStatusRegex statusOutput).getD [] = "confirmed".toList ∧
          ((txSuccessRegex statusOutput).getD [] = "false".toList ∨
            ((creationStatusRegex statusOutput).getD [] = "true".toList ∧
              proofSetIDRegex statusOutput = none))))) ∧
    (classifyStatus statusOutput = .again ↔
      (¬ ((txStatusRegex statusOutput).getD [] = "confirmed".toList ∧
          (txSuccessRegex statusOutput).getD [] = "true".toList ∧
          (creationStatusRegex statusOutput).getD [] = "true".toList ∧
          (proofSetIDRegex statusOutput).isSome = true) ∧
       ¬ ((txStatusRegex statusOutput).getD [] = "failed".toList ∨
        ((txStatusRegex statusOutput).getD [] = "confirmed".toList ∧
          ((txSuccessRegex statusOutput).getD [] = "false".toList ∨
            ((creationStatusRegex statusOutput).getD [] = "true".toList ∧
              proofSetIDRegex statusOutput = none)))))) := by
  have hcf : "confirmed".toList ≠ "failed".toList := by decide
  have htf : "true".toList ≠ "false".toList := by decide
  have hft : "false".toList ≠ "true".toList := by decide
  have hfc : "failed".toList ≠ "confirmed".toList := by decide
  unfold classifyStatus
  simp only
  generalize (txStatusRegex statusOutput).getD [] = st
  generalize (txSuccessRegex statusOutput).getD [] = su
  generalize (creationStatusRegex statusOutput).getD [] = cr
  generalize "confirmed".toList = CF at hcf hfc ⊢
  generalize "failed".toList = FL at hcf hfc ⊢
  generalize "true".toList = TR at htf hft ⊢
  generalize "false".toList = FA at htf hft ⊢
  generalize "pending".toList = PE
  cases hid : proofSetIDRegex statusOutput with
  | none =>
    simp only [Option.isSome_none, Option.isNone_none, Option.getD_none]
    split_ifs <;> simp_all
  | some x =>
    simp only [Option.isSome_some, Option.isNone_some, Option.getD_some]
    split_ifs <;> simp_all

/-- One iteration of the loop of `pollForProofSetID`. -/
theorem pollStatusLoop_step (env : StatusPollEnv) (fuel a : Nat) :
    (¬ TerminalAttempt env (a + 1) →
      pollStatusLoop env (fuel + 1) a = pollStatusLoop env fuel (a + 1)) ∧
    (TerminalAttempt env (a + 1) →
      pollStatusLoop env (fuel + 1) a =
        some ((classifyStatus (env.getStatus (a + 1)).stdout).toReturn, a + 1)) := by
  constructor
  · intro hnt
    by_cases hf : (env.getStatus (a + 1)).failed = true
    · simp [pollStatusLoop, hf]
    · have hf2 : (env.getStatus (a + 1)).failed = false := by simpa using hf
      have hag : classifyStatus (env.getStatus (a + 1)).stdout = .again := by
        by_contra hne
        exact hnt ⟨hf2, hne⟩
      simp [pollStatusLoop, hf2, hag]
  · intro ht
    obtain ⟨hf, hne⟩ := ht
    cases hd : classifyStatus (env.getStatus (a + 1)).stdout with
    | again => exact absurd hd hne
    | done id => simp [pollStatusLoop, hf, hd, StatusDecision.toReturn]
    | stalled => simp [pollStatusLoop, hf, hd, StatusDecision.toReturn]
    | txFailed => simp [pollStatusLoop, hf, hd, StatusDecision.toReturn]

theorem pollStatusLoop_polling (env : StatusPollEnv) (fuel : Nat) :
    ∀ a, (∀ j, a < j → j ≤ a + fuel → ¬ TerminalAttempt env j) →
      pollStatusLoop env fuel a = none := by
  induction fuel with
  | zero => intro a _; rfl
  | succ n ih =>
    intro a h
    rw [(pollStatusLoop_step env n a).1 (h (a + 1) (by omega) (by omega))]
    exact ih (a + 1) (fun j hj1 hj2 => h j (by omega) (by omega))

theorem pollStatusLoop_returns (env : StatusPollEnv) (m : Nat) :
    ∀ (fuel a : Nat), m + 1 ≤ fuel →
      (∀ j, a < j → j < a + m + 1 → ¬ TerminalAttempt env j) →
      TerminalAttempt env (a + m + 1) →
      pollStatusLoop env fuel a =
        some ((classifyStatus (env.getStatus (a + m + 1)).stdout).toReturn, a + m + 1) := by
  induction m with
  | zero =>
    intro fuel a hfuel _ ht
    obtain ⟨n, rfl⟩ : ∃ n, fuel = n + 1 := ⟨fuel - 1, by omega⟩
    exact (pollStatusLoop_step env n a).2 ht
  | succ m ih =>
    intro fuel a hfuel hnt ht
    obtain ⟨n, rfl⟩ : ∃ n, fuel = n + 1 := ⟨fuel - 1, by omega⟩
    rw [(pollStatusLoop_step env n a).1 (hnt (a + 1) (by omega) (by omega))]
    have h := ih n (a + 1) (by omega) (fun j hj1 hj2 => hnt j (by omega) (by omega))
      (by
        have e : a + 1 + m + 1 = a + (m + 1) + 1 := by omega
        rw [e]
        exact ht)
    have e : a + 1 + m + 1 = a + (m + 1) + 1 := by omega
    rw [e] at h
    exact h

/-- C18 (as amended): `pollForProofSetID` has no attempt bound. It returns at the
first attempt whose status call succeeds with an output it does not poll again on, and
with the result of that attempt; before that attempt, and for as long as the calls
fail or report a pending transaction, it is still polling after any number of
iterations. -/
theorem pollForProofSetID_first_terminal (env : StatusPollEnv) (k : Nat)
    (hdir : env.chdirError = none) (hk : 1 ≤ k)
    (hbefore : ∀ j, 1 ≤ j → j < k → ¬ TerminalAttempt env j) :
    (∀ fuel, fuel < k → pollForProofSetID env fuel = none) ∧
    (TerminalAttempt env k → ∀ fuel, k ≤ fuel →
      pollForProofSetID env fuel =
        some ((classifyStatus (env.getStatus k).stdout).toReturn, k)) := by
  constructor
  · intro fuel hfuel
    simp only [pollForProofSetID, hdir]
    exact pollStatusLoop_polling env fuel 0 (fun j hj1 hj2 => hbefore j (by omega) (by omega))
  · intro ht fuel hfuel
    simp only [pollForProofSetID, hdir]
    obtain ⟨m, rfl⟩ : ∃ m, k = m + 1 := ⟨k - 1, by omega⟩
    have h := pollStatusLoop_returns env m fuel 0 (by omega)
      (fun j hj1 hj2 => hbefore j (by omega) (by omega))
      (by simpa using ht)
    simpa using h

theorem pollForProofSetID_first_terminal_witness :
    pollForProofSetID confirmingStatusEnv 2 = none ∧
      pollForProofSetID confirmingStatusEnv 3 = some (.proofSetID "42".toList, 3) := by
  have hnt : ∀ j, 1 ≤ j → j < 3 → ¬ TerminalAttempt confirmingStatusEnv j := by
    intro j hj1 hj2 ht
    have hj : j = 1 ∨ j = 2 := by omega
    rcases hj with rfl | rfl
    · exact ht.2 (by decide)
    · exact ht.2 (by decide)
  have h := pollForProofSetID_first_terminal confirmingStatusEnv 3 rfl (by decide) hnt
  refine ⟨h.1 2 (by decide), ?_⟩
  have h3 := h.2 ⟨rfl, by decide⟩ 3 (le_refl _)
  rw [h3]
  decide

/-- C18 (as stated) fails: when the status command fails on every attempt, and also
when it reports a pending transaction on every attempt, `pollForProofSetID` has not
returned after any number of iterations. -/
theorem pollForProofSetID_unbounded :
    (∀ n, pollForProofSetID failingStatusEnv n = none) ∧
      (∀ n, pollForProofSetID pendingStatusEnv n = none) := by
  constructor
  · intro n
    exact pollStatusLoop_polling failingStatusEnv n 0 (by
      intro j _ _ ht
      have hf : (failingStatusEnv.getStatus j).failed = true := rfl
      have hf2 : (failingStatusEnv.getStatus j).failed = false := ht.1
      rw [hf] at hf2
      exact absurd hf2 (by decide))
  · intro n
    exact pollStatusLoop_polling pendingStatusEnv n 0 (by
      intro j _ _ ht
      have hp : classifyStatus "Transaction Status: pending\n".toList = .again := by decide
      exact ht.2 hp)

theorem pollStatusLoop_count (env : StatusPollEnv) (fuel : Nat) :
    ∀ (a : Nat) (r : PollReturn) (n : Nat),
      pollStatusLoop env fuel a = some (r, n) → a < n := by
  induction fuel with
  | zero => intro a r n h; simp [pollStatusLoop] at h
  | succ m ih =>
    intro a r n h
    by_cases ht : TerminalAttempt env (a + 1)
    · rw [(pollStatusLoop_step env m a).2 ht] at h
      simp only [Option.some.injEq, Prod.mk.injEq] at h
      omega
    · rw [(pollStatusLoop_step env m a).1 ht] at h
      have := ih (a + 1) r n h
      omega

/-- C19: at an attempt whose status call succeeds, with the four fields of the
output extracted each by its own expression and an absent field empty: the poll returns
the proof set id at this attempt exactly when the status is `confirmed`, the success
flag `true`, the created flag `true` and an id is present; it returns an error at this
attempt exactly when the status is `failed`, or the status is `confirmed` and the
success flag is `false` or the created flag is `true` without an id; in every other
case it goes on to the next attempt. -/
theorem pollStatusLoop_decision (env : StatusPollEnv) (fuel a : Nat)
    (hrun : (env.getStatus (a + 1)).failed = false) :
    (∀ id, pollStatusLoop env (fuel + 1) a = some (.proofSetID id, a + 1) ↔
      ((txStatusRegex (env.getStatus (a + 1)).stdout).getD [] = "confirmed".toList ∧
        (txSuccessRegex (env.getStatus (a + 1)).stdout).getD [] = "true".toList ∧
        (creationStatusRegex (env.getStatus (a + 1)).stdout).getD [] = "true".toList ∧
        proofSetIDRegex (env.getStatus (a + 1)).stdout = some id)) ∧
    ((pollStatusLoop env (fuel + 1) a = some (.stalled, a + 1) ∨
        pollStatusLoop env (fuel + 1) a = some (.txFailed, a + 1)) ↔
      ((txStatusRegex (env.getStatus (a + 1)).stdout).getD [] = "failed".toList ∨
        ((txStatusRegex (env.getStatus (a + 1)).stdout).getD [] = "confirmed".toList ∧
          ((txSuccessRegex (env.getStatus (a + 1)).stdout).getD [] = "false".toList ∨
            ((creationStatusRegex (env.getStatus (a + 1)).stdout).getD [] = "true".toList ∧
              proofSetIDRegex (env.getStatus (a + 1)).stdout = none))))) ∧
    ((¬ ((txStatusRegex (env.getStatus (a + 1)).stdout).getD [] = "confirmed".toList ∧
          (txSuccessRegex (env.getStatus (a + 1)).stdout).getD [] = "true".toList ∧
          (creationStatusRegex (env.getStatus (a + 1)).stdout).getD [] = "true".toList ∧
          (proofSetIDRegex (env.getStatus (a + 1)).stdout).isSome = true) ∧
       ¬ ((txStatusRegex (env.getStatus (a + 1)).stdout).getD [] = "failed".toList ∨
        ((txStatusRegex (env.getStatus (a + 1)).stdout).getD [] = "confirmed".toList ∧
          ((txSuccessRegex (env.getStatus (a + 1)).stdout).getD [] = "false".toList ∨
            ((creationStatusRegex (env.getStatus (a + 1)).stdout).getD [] = "true".toList ∧
              proofSetIDRegex (env.getStatus (a + 1)).stdout = none))))) →
      pollStatusLoop env (fuel + 1) a = pollStatusLoop env fuel (a + 1)) := by
  obtain ⟨hdone, hfail, hagain⟩ := classifyStatus_table (env.getStatus (a + 1)).stdout
  have hloop : pollStatusLoop env (fuel + 1) a =
      match classifyStatus (env.getStatus (a + 1)).stdout with
      | .done id => some (.proofSetID id, a + 1)
      | .stalled => some (.stalled, a + 1)
      | .txFailed => some (.txFailed, a + 1)
      | .again => pollStatusLoop env fuel (a + 1) := by
    simp [pollStatusLoop, hrun]
  have hlater : ∀ r, pollStatusLoop env fuel (a + 1) ≠ some (r, a + 1) := by
    intro r h
    have := pollStatusLoop_count env fuel (a + 1) r (a + 1) h
    omega
  refine ⟨?_, ?_, ?_⟩
  · intro id
    rw [← hdone id, hloop]
    cases hd : classifyStatus (env.getStatus (a + 1)).stdout with
    | done x => simp
    | stalled => simp
    | txFailed => simp
    | again =>
      simp only [reduceCtorEq, iff_false]
      exact hlater _
  · rw [← hfail, hloop]
    cases hd : classifyStatus (env.getStatus (a + 1)).stdout with
    | done x => simp
    | stalled => simp
    | txFailed => simp
    | again =>
      simp only [reduceCtorEq, or_self, iff_false, not_or]
      exact ⟨hlater _, hlater _⟩
  · intro hcond
    rw [hloop, hagain.2 hcond]

theorem pollStatusLoop_decision_witness :
    pollStatusLoop confirmingStatusEnv 1 2 = some (.proofSetID "42".toList, 3) :=
  ((pollStatusLoop_decision confirmingStatusEnv 0 2 rfl).1 "42".toList).2
    ⟨by decide, by decide, by decide, by decide⟩

/-! ## Assembly of the chunks -/

theorem FileSys.read_write_same (fs : FileSys) (p : Str) (d : Bytes) :
    (fs.write p d).read p = some d := by
  simp [FileSys.read, FileSys.write, mapGet_mapSet_same]

theorem FileSys.read_write_other (fs : FileSys) (p q : Str) (d : Bytes) (h : q ≠ p) :
    (fs.write p d).read q = fs.read q := by
  simp [FileSys.read, FileSys.write, mapGet_mapSet_other _ _ _ _ h]

theorem FileSys.stat_write_other (fs : FileSys) (p q : Str) (d : Bytes) (h : q ≠ p) :
    (fs.write p d).stat q = fs.stat q := by
  unfold FileSys.stat
  rw [FileSys.read_write_other _ _ _ _ h]
  rfl

theorem FileSys.stat_of_read (fs : FileSys) (p : Str) (h : (fs.read p).isSome) :
    fs.stat p = true := by
  simp [FileSys.stat, h]

theorem FileSys.read_append_isSome (fs : FileSys) (p q : Str) (d : Bytes)
    (h : (fs.read q).isSome) : ((fs.append p d).read q).isSome := by
  unfold FileSys.append
  by_cases e : q = p
  · subst e
    simp [FileSys.read_write_same]
  · rw [FileSys.read_write_other _ _ _ _ e]
    exact h

theorem assembleLoop_chunkedUploads (f : AssembleFaults) (info : ChunkedUploadInfo)
    (jobID final : Str) (n : Nat) :
    ∀ (i total : Int) (s : AsmState),
      (assembleLoop f info jobID final n i total s).1.server.chunkedUploads =
        s.server.chunkedUploads := by
  induction n with
  | zero => intro i total s; rfl
  | succ n ih =>
    intro i total s
    unfold assembleLoop
    simp only
    repeat' split
    all_goals first
      | rfl
      | exact (ih _ _ _).trans rfl

theorem assembleLoop_missing (f : AssembleFaults) (info : ChunkedUploadInfo)
    (jobID final : Str) (m : Nat) :
    ∀ (n : Nat) (i total : Int) (s : AsmState),
      m < n →
      (s.server.fs.read final).isSome →
      (∀ j : Nat, j < m → f.readError (i + j) = none ∧ f.writeError (i + j) = none ∧
        (s.server.fs.read (chunkPath info.TempDir (i + j))).isSome) →
      s.server.fs.stat (chunkPath info.TempDir (i + m)) = false →
      ∃ s2, assembleLoop f info jobID final n i total s = (s2, none) ∧
        mapGet s2.server.uploadJobs jobID = some
          { Status := "error".toList
            Error := "Missing chunk ".toList ++ itoa (i + m)
            Message := "Chunk file ".toList ++ chunkPath info.TempDir (i + m) ++
              " doesn't exist".toList
            JobID := jobID } := by
  induction m with
  | zero =>
    intro n i total s hn _ _ hstat
    obtain ⟨n, rfl⟩ : ∃ k, n = k + 1 := ⟨n - 1, by omega⟩
    simp only [Nat.cast_zero, add_zero] at hstat ⊢
    unfold assembleLoop
    simp only [AsmState.update_fs, hstat, if_true]
    exact ⟨_, rfl, AsmState.update_job _ _ _⟩
  | succ m ih =>
    intro n i total s hn hfinal hgood hstat
    obtain ⟨n, rfl⟩ : ∃ k, n = k + 1 := ⟨n - 1, by omega⟩
    have h0 := hgood 0 (by omega)
    simp only [Nat.cast_zero, add_zero] at h0
    obtain ⟨hre, hwe, hrd⟩ := h0
    obtain ⟨cd, hcd⟩ := Option.isSome_iff_exists.mp hrd
    have hst : s.server.fs.stat (chunkPath info.TempDir i) = true :=
      FileSys.stat_of_read _ _ hrd
    have e : ∀ k : Nat, i + 1 + (k : Int) = i + ((k + 1 : Nat) : Int) := by
      intro k; push_cast; ring
    have hne : chunkPath info.TempDir (i + ((m + 1 : Nat) : Int)) ≠ final := by
      intro h
      rw [h, FileSys.stat_of_read _ _ hfinal] at hstat
      exact Bool.noConfusion hstat
    unfold assembleLoop
    simp only [AsmState.update_fs, hst, hre, hcd, hwe, Bool.true_eq_false, if_false]
    have := ih n (i + 1) (wrap64 (total + (cd.length : Int)))
      { (s.update jobID
          { Status := "assembling".toList
            Progress := f.progressOf i info.TotalChunks
            Message := "Assembling chunks: ".toList ++ itoa (wrap64 (i + 1)) ++ "/".toList ++
              itoa info.TotalChunks
            Filename := info.Filename
            TotalSize := info.TotalSize }) with
        server :=
          { (s.update jobID
              { Status := "assembling".toList
                Progress := f.progressOf i info.TotalChunks
                Message := "Assembling chunks: ".toList ++ itoa (wrap64 (i + 1)) ++
                  "/".toList ++ itoa info.TotalChunks
                Filename := info.Filename
                TotalSize := info.TotalSize }).server with
            fs := s.server.fs.append final cd } }
      (by omega)
      (FileSys.read_append_isSome _ _ _ _ hfinal)
      (by
        intro j hj
        have hj2 := hgood (j + 1) (by omega)
        rw [e j]
        exact ⟨hj2.1, hj2.2.1, FileSys.read_append_isSome _ _ _ _ hj2.2.2⟩)
      (by
        rw [e m]
        show (s.server.fs.append final cd).stat _ = false
        unfold FileSys.append
        rw [FileSys.stat_write_other _ _ _ _ hne]
        exact hstat)
    rw [e m] at this
    exact this

theorem uploadStatus_setUploadStatus (sv : Server) (id status : Str) :
    uploadStatus (setUploadStatus sv id status) id = none ∨
      uploadStatus (setUploadStatus sv id status) id = some status := by
  unfold uploadStatus setUploadStatus
  cases h : mapGet sv.chunkedUploads id with
  | none => left; simp [h]
  | some info => right; simp [mapGet_mapSet_same]

theorem assembleAndProcessFile_loop (f : AssembleFaults) (sv : Server)
    (info : ChunkedUploadInfo) (jobID : Str)
    (hdir : sv.fs.stat info.TempDir = true) (hrem : f.removeError = none)
    (hcre : f.createError = none) :
    (∀ s3, assembleLoop f info jobID (filepathJoin info.TempDir info.Filename)
        info.TotalChunks.toNat 0 0 (assembleStart sv info jobID) = (s3, none) →
      assembleAndProcessFile f sv info jobID = ⟨s3, .failed⟩) ∧
    (∀ s3 W, assembleLoop f info jobID (filepathJoin info.TempDir info.Filename)
        info.TotalChunks.toNat 0 0 (assembleStart sv info jobID) = (s3, some W) →
      W ≠ info.TotalSize →
      assembleAndProcessFile f sv info jobID =
        ⟨s3.update jobID
          { Status := "error".toList
            Error := "Assembled file size mismatch".toList
            Message := "Expected ".toList ++ itoa info.TotalSize ++
              " bytes but wrote ".toList ++ itoa W ++ " bytes".toList }, .failed⟩) := by
  constructor
  · intro s3 hl
    unfold assembleAndProcessFile
    unfold assembleStart at hl
    simp only [setUploadStatus_fs, hdir, hrem, hcre, Bool.true_eq_false, if_false] at hl ⊢
    split
    · rename_i h; simp at h
    · rw [hl]
  · intro s3 W hl hW
    unfold assembleAndProcessFile
    unfold assembleStart at hl
    simp only [setUploadStatus_fs, hdir, hrem, hcre, Bool.true_eq_false, if_false] at hl ⊢
    split
    · rename_i h; simp at h
    · rw [hl]
      simp only [hW, ne_eq, not_false_eq_true, if_true]

/-- The directory of all chunked uploads, the first join of `InitChunkedUpload`. -/
theorem uploadsDir_clean :
    filepathJoin osTempDir "chunked_uploads".toList = "/tmp/chunked_uploads".toList ∧
    filepathClean ("/tmp/chunked_uploads".toList ++ '/' :: "u1".toList) =
      filepathJoin (filepathJoin osTempDir "chunked_uploads".toList) "u1".toList := by
  decide

/-- The final file path is cleaned as `filepath.Join` does: a file name `./chunk_1`
names the file of chunk 1, and a name that climbs out of the staging directory is
resolved lexically. -/
theorem filepathJoin_cleans :
    filepathJoin "/tmp/chunked_uploads/u1".toList "./chunk_1".toList =
      chunkPath "/tmp/chunked_uploads/u1".toList 1 ∧
    filepathJoin "/tmp/chunked_uploads/u1".toList "../u2/f.bin".toList =
      "/tmp/chunked_uploads/u2/f.bin".toList ∧
    filepathJoin "/tmp/chunked_uploads/u1".toList "a//b/".toList =
      "/tmp/chunked_uploads/u1/a/b".toList := by
  decide

theorem wrap64_add_wrap64 (a b : Int) : wrap64 (wrap64 a + b) = wrap64 (a + b) := by
  unfold wrap64
  norm_num
  omega

theorem assembleLoop_written (f : AssembleFaults) (info : ChunkedUploadInfo)
    (jobID final : Str) (n : Nat) :
    ∀ (i total : Int) (s s3 : AsmState) (W : Int) (content : Bytes),
      s.server.fs.read final = some content →
      total = wrap64 content.length →
      assembleLoop f info jobID final n i total s = (s3, some W) →
      ∃ content3, s3.server.fs.read final = some content3 ∧ W = wrap64 content3.length := by
  induction n with
  | zero =>
    intro i total s s3 W content hfinal htotal h
    simp only [assembleLoop, Prod.mk.injEq, Option.some.injEq] at h
    obtain ⟨rfl, rfl⟩ := h
    exact ⟨content, hfinal, htotal⟩
  | succ n ih =>
    intro i total s s3 W content hfinal htotal h
    unfold assembleLoop at h
    simp only [AsmState.update_fs] at h
    repeat' split at h
    all_goals first
      | (exfalso; simp at h; done)
      | skip
    rename_i chunkData _ _ _ _
    refine ih _ _ _ s3 W (content ++ chunkData) ?_ ?_ h
    · show (s.server.fs.append final chunkData).read final = _
      unfold FileSys.append
      rw [FileSys.read_write_same, hfinal]
      rfl
    · rw [htotal, wrap64_add_wrap64, List.length_append]
      push_cast
      rfl

/-- C12: in a run of `assembleAndProcessFile` that found the temporary directory and
created the final file, (1) when the loop finds the file of chunk `m` missing, the
chunks before it having been read and written without a fault, the run stops with the
job in `error`, the diagnostic naming the index `m` and the path of the chunk; (2) when
the loop ends with a byte count different from `TotalSize`, the run stops with the job
in `error`, the diagnostic giving the expected and the written byte counts, the written
count being the byte length of the assembled file as a Go `int64`. In both cases
`processUpload` is not called and the status of the upload is not `processing`. -/
theorem assembly_errors (f : AssembleFaults) (sv : Server) (info : ChunkedUploadInfo)
    (jobID : Str) (hdir : sv.fs.stat info.TempDir = true) (hrem : f.removeError = none)
    (hcre : f.createError = none) :
    (∀ m : Nat, (m : Int) < info.TotalChunks →
      (∀ j : Nat, j < m → f.readError j = none ∧ f.writeError j = none ∧
        ((assembleStart sv info jobID).server.fs.read (chunkPath info.TempDir j)).isSome) →
      (assembleStart sv info jobID).server.fs.stat (chunkPath info.TempDir m) = false →
      (assembleAndProcessFile f sv info jobID).outcome = .failed ∧
      mapGet (assembleAndProcessFile f sv info jobID).state.server.uploadJobs jobID = some
        { Status := "error".toList
          Error := "Missing chunk ".toList ++ itoa m
          Message := "Chunk file ".toList ++ chunkPath info.TempDir m ++
            " doesn't exist".toList
          JobID := jobID } ∧
      uploadStatus (assembleAndProcessFile f sv info jobID).state.server info.ID ≠
        some "processing".toList) ∧
    (∀ s3 W, assembleLoop f info jobID (filepathJoin info.TempDir info.Filename)
        info.TotalChunks.toNat 0 0 (assembleStart sv info jobID) = (s3, some W) →
      W ≠ info.TotalSize →
      (assembleAndProcessFile f sv info jobID).outcome = .failed ∧
      mapGet (assembleAndProcessFile f sv info jobID).state.server.uploadJobs jobID = some
        { Status := "error".toList
          Error := "Assembled file size mismatch".toList
          Message := "Expected ".toList ++ itoa info.TotalSize ++
            " bytes but wrote ".toList ++ itoa W ++ " bytes".toList
          JobID := jobID } ∧
      uploadStatus (assembleAndProcessFile f sv info jobID).state.server info.ID ≠
        some "processing".toList ∧
      ∃ content,
        (assembleAndProcessFile f sv info jobID).state.server.fs.read
          (filepathJoin info.TempDir info.Filename) = some content ∧
        W = wrap64 content.length) := by
  have hne : "assembling".toList ≠ "processing".toList := by decide
  have hstart : ∀ s : AsmState,
      s.server.chunkedUploads = (assembleStart sv info jobID).server.chunkedUploads →
      uploadStatus s.server info.ID ≠ some "processing".toList := by
    intro s hs
    have h := uploadStatus_setUploadStatus
      { sv with
        uploadJobs := mapSet sv.uploadJobs jobID
          { Status := "assembling".toList
            Progress := 0
            Message := "Assembling file chunks".toList
            Filename := info.Filename
            TotalSize := info.TotalSize
            JobID := jobID } } info.ID "assembling".toList
    have e : uploadStatus s.server info.ID =
        uploadStatus (setUploadStatus
          { sv with
            uploadJobs := mapSet sv.uploadJobs jobID
              { Status := "assembling".toList
                Progress := 0
                Message := "Assembling file chunks".toList
                Filename := info.Filename
                TotalSize := info.TotalSize
                JobID := jobID } } info.ID "assembling".toList) info.ID := by
      unfold uploadStatus
      rw [hs]
      rfl
    rw [e]
    rcases h with h | h
    · rw [h]; exact fun c => Option.noConfusion c
    · rw [h]; exact fun c => hne (Option.some.inj c)
  obtain ⟨hnone, hsome⟩ := assembleAndProcessFile_loop f sv info jobID hdir hrem hcre
  constructor
  · intro m hm hgood hmiss
    have hfinal : ((assembleStart sv info jobID).server.fs.read
        (filepathJoin info.TempDir info.Filename)).isSome := by
      show ((FileSys.write _ _ _).read _).isSome
      rw [FileSys.read_write_same]
      rfl
    obtain ⟨s2, hloop, hjob⟩ := assembleLoop_missing f info jobID
      (filepathJoin info.TempDir info.Filename) m info.TotalChunks.toNat 0 0
      (assembleStart sv info jobID) (by omega) hfinal
      (by intro j hj; simpa using hgood j hj) (by simpa using hmiss)
    rw [hnone s2 hloop]
    refine ⟨rfl, by simpa using hjob, hstart s2 ?_⟩
    have := assembleLoop_chunkedUploads f info jobID
      (filepathJoin info.TempDir info.Filename) info.TotalChunks.toNat 0 0
      (assembleStart sv info jobID)
    rw [hloop] at this
    exact this
  · intro s3 W hloop hW
    rw [hsome s3 W hloop hW]
    refine ⟨rfl, AsmState.update_job _ _ _, hstart _ ?_, ?_⟩
    · have := assembleLoop_chunkedUploads f info jobID
        (filepathJoin info.TempDir info.Filename) info.TotalChunks.toNat 0 0
        (assembleStart sv info jobID)
      rw [hloop] at this
      exact this
    · have hfinal : (assembleStart sv info jobID).server.fs.read
          (filepathJoin info.TempDir info.Filename) = some [] := by
        show (FileSys.write _ _ _).read _ = some []
        exact FileSys.read_write_same _ _ _
      exact assembleLoop_written f info jobID (filepathJoin info.TempDir info.Filename)
        info.TotalChunks.toNat 0 0 (assembleStart sv info jobID) s3 W [] hfinal rfl hloop

/-- Witness for C12: with chunk 1 of the upload `u1` missing the job `j1` ends in `error`
naming chunk 1, and with three bytes written for the 300 declared it ends in `error`
giving both counts. -/
theorem assembly_errors_witness :
    ((assembleAndProcessFile {} gapServer demoInfo "j1".toList).outcome = .failed ∧
      mapGet (assembleAndProcessFile {} gapServer demoInfo "j1".toList).state.server.uploadJobs
        "j1".toList = some
        { Status := "error".toList
          Error := "Missing chunk 1".toList
          Message := "Chunk file /tmp/chunked_uploads/u1/chunk_1 doesn't exist".toList
          JobID := "j1".toList } ∧
      uploadStatus (assembleAndProcessFile {} gapServer demoInfo "j1".toList).state.server
        "u1".toList ≠ some "processing".toList) ∧
    ((assembleAndProcessFile {} shortServer demoInfo "j1".toList).outcome = .failed ∧
      mapGet (assembleAndProcessFile {} shortServer demoInfo "j1".toList).state.server.uploadJobs
        "j1".toList = some
        { Status := "error".toList
          Error := "Assembled file size mismatch".toList
          Message := "Expected 300 bytes but wrote 3 bytes".toList
          JobID := "j1".toList } ∧
      uploadStatus (assembleAndProcessFile {} shortServer demoInfo "j1".toList).state.server
        "u1".toList ≠ some "processing".toList ∧
      ∃ content,
        (assembleAndProcessFile {} shortServer demoInfo "j1".toList).state.server.fs.read
          (filepathJoin demoInfo.TempDir demoInfo.Filename) = some content ∧
        (3 : Int) = wrap64 content.length) :=
  ⟨(assembly_errors {} gapServer demoInfo "j1".toList (by decide) rfl rfl).1 1 (by decide)
      (by intro j hj
          obtain rfl : j = 0 := by omega
          exact ⟨rfl, rfl, by decide⟩)
      (by decide),
   (assembly_errors {} shortServer demoInfo "j1".toList (by decide) rfl rfl).2
      (assembleLoop {} demoInfo "j1".toList (filepathJoin demoInfo.TempDir demoInfo.Filename)
        demoInfo.TotalChunks.toNat 0 0 (assembleStart shortServer demoInfo "j1".toList)).1
      3 (by decide) (by decide)⟩

theorem assembleLoop_content (f : AssembleFaults) (info : ChunkedUploadInfo)
    (jobID final : Str) (d : Int → Bytes) (n : Nat) :
    ∀ (i total : Int) (s s2 : AsmState) (content : Bytes) (W : Int),
      s.server.fs.read final = some content →
      (∀ j : Nat, j < n →
        s.server.fs.read (chunkPath info.TempDir (i + j)) = some (d (i + j)) ∧
        chunkPath info.TempDir (i + j) ≠ final) →
      assembleLoop f info jobID final n i total s = (s2, some W) →
      s2.server.fs.read final =
        some (content ++ ((List.range n).map (fun j : Nat => d (i + j))).flatten) := by
  induction n with
  | zero =>
    intro i total s s2 content W hfinal _ h
    simp only [assembleLoop, Prod.mk.injEq] at h
    rw [← h.1]
    simpa using hfinal
  | succ n ih =>
    intro i total s s2 content W hfinal hstore h
    have h0 := hstore 0 (by omega)
    simp only [Nat.cast_zero, add_zero] at h0
    have e : ∀ k : Nat, i + 1 + (k : Int) = i + ((k + 1 : Nat) : Int) := by
      intro k; push_cast; ring
    unfold assembleLoop at h
    simp only [AsmState.update_fs, h0.1] at h
    repeat' split at h
    all_goals first
      | (exfalso; simp at h; done)
      | skip
    rename_i _ hcd _ _
    simp only [Option.some.injEq] at hcd
    subst hcd
    have hrest := ih (i + 1) _ _ s2 (content ++ d i) W
      (by
        show (s.server.fs.append final _).read final = _
        unfold FileSys.append
        rw [FileSys.read_write_same, hfinal]
        rfl)
      (by
        intro j hj
        have hj2 := hstore (j + 1) (by omega)
        rw [e j]
        refine ⟨?_, hj2.2⟩
        show (s.server.fs.append final _).read _ = _
        unfold FileSys.append
        rw [FileSys.read_write_other _ _ _ _ hj2.2]
        exact hj2.1)
      h
    rw [hrest, List.range_succ_eq_map]
    simp [List.map_map, Function.comp_def, e, List.append_assoc]

theorem assembleAndProcessFile_content (f : AssembleFaults) (sv : Server)
    (info : ChunkedUploadInfo) (jobID path : Str) (d : Int → Bytes)
    (hstore : ∀ j : Nat, j < info.TotalChunks.toNat →
      sv.fs.read (chunkPath info.TempDir j) = some (d j) ∧
      chunkPath info.TempDir j ≠ filepathJoin info.TempDir info.Filename)
    (h : (assembleAndProcessFile f sv info jobID).outcome = .handedOff path) :
    (assembleAndProcessFile f sv info jobID).state.server.fs.read path =
      some ((List.range info.TotalChunks.toNat).map (fun j : Nat => d j)).flatten := by
  generalize hr : assembleAndProcessFile f sv info jobID = r at h ⊢
  unfold assembleAndProcessFile at hr
  simp only at hr
  repeat' split at hr
  all_goals subst hr
  all_goals first
    | (exfalso; simp at h; done)
    | skip
  rename_i hloop _ _ _ _ _ _ _ _ _ _ _ _ _ _ _
  simp only [AssembleOutcome.handedOff.injEq] at h
  subst h
  have hc := assembleLoop_content f info jobID (filepathJoin info.TempDir info.Filename) d
    info.TotalChunks.toNat 0 0 _ _ [] _
    (by
      show (FileSys.write _ _ _).read _ = some []
      exact FileSys.read_write_same _ _ _)
    (by
      intro j hj
      have hj2 := hstore j hj
      simp only [zero_add]
      refine ⟨?_, hj2.2⟩
      show (FileSys.write _ _ _).read _ = _
      rw [FileSys.read_write_other _ _ _ _ hj2.2, setUploadStatus_fs]
      exact hj2.1)
    hloop
  simp only [zero_add, List.nil_append] at hc
  simp only [setUploadStatus_fs, AsmState.update_fs]
  exact hc

/-- C11 fails for a file name that is the name of a chunk file: the upload `u1` is
declared with the file name `chunk_1`, 3 bytes and three chunks; the chunks 2, 1, 0 are
submitted in this order with the bytes 3, 2, 1 and stored as `chunk_2`, `chunk_1`,
`chunk_0`; the completion request is accepted, the assembly succeeds and hands the
file `chunk_1` to the pipeline, and the file holds the bytes 1, 1, 3, not 1, 2, 3. -/
theorem assemble_aliased_chunk :
    aliasServer.fs.read "/tmp/chunked_uploads/u1/chunk_0".toList = some [1] ∧
    aliasServer.fs.read "/tmp/chunked_uploads/u1/chunk_1".toList = some [2] ∧
    aliasServer.fs.read "/tmp/chunked_uploads/u1/chunk_2".toList = some [3] ∧
    (CompleteChunkedUpload aliasServer demoComplete).1 = .ok "u1".toList "j1".toList ∧
    mapGet (CompleteChunkedUpload aliasServer demoComplete).2.1.chunkedUploads "u1".toList =
      some aliasInfo ∧
    (assembleAndProcessFile {} (CompleteChunkedUpload aliasServer demoComplete).2.1 aliasInfo
      "j1".toList).outcome = .handedOff "/tmp/chunked_uploads/u1/chunk_1".toList ∧
    (assembleAndProcessFile {} (CompleteChunkedUpload aliasServer demoComplete).2.1 aliasInfo
      "j1".toList).state.server.fs.read "/tmp/chunked_uploads/u1/chunk_1".toList =
        some [1, 1, 3] := by
  decide

/-! ## Progress values of a run -/

theorem liveProgress_append (a b : List Event) :
    liveProgress (a ++ b) = liveProgress a ++ liveProgress b := by
  simp [liveProgress, statuses_append]

theorem liveProgress_cons (e : Event) (t : List Event) :
    liveProgress (e :: t) = liveProgress [e] ++ liveProgress t :=
  liveProgress_append [e] t

theorem Mono.nil (lo hi : Int) : Mono lo hi [] := by
  simp [Mono, liveProgress, statuses]

theorem Mono.append {a b c : Int} {t1 t2 : List Event} (hab : a ≤ b) (hbc : b ≤ c)
    (h1 : Mono a b t1) (h2 : Mono b c t2) : Mono a c (t1 ++ t2) := by
  obtain ⟨p1, b1⟩ := h1
  obtain ⟨p2, b2⟩ := h2
  refine ⟨?_, ?_⟩
  · rw [liveProgress_append, List.pairwise_append]
    refine ⟨p1, p2, ?_⟩
    intro x hx y hy
    exact le_trans (b1 x hx).2 (b2 y hy).1
  · intro x hx
    rw [liveProgress_append, List.mem_append] at hx
    rcases hx with hx | hx
    · exact ⟨(b1 x hx).1, le_trans (b1 x hx).2 hbc⟩
    · exact ⟨le_trans hab (b2 x hx).1, (b2 x hx).2⟩

theorem Mono.weaken {a b a2 b2 : Int} {t : List Event} (ha : a2 ≤ a) (hb : b ≤ b2)
    (h : Mono a b t) : Mono a2 b2 t :=
  ⟨h.1, fun x hx => ⟨le_trans ha (h.2 x hx).1, le_trans (h.2 x hx).2 hb⟩⟩

theorem Mono.skip {lo hi : Int} {e : Event} {t : List Event} (he : liveProgress [e] = [])
    (h : Mono lo hi t) : Mono lo hi (e :: t) := by
  unfold Mono
  rw [liveProgress_cons, he]
  exact h

theorem Mono.step {lo hi x : Int} {e : Event} {t : List Event}
    (he : liveProgress [e] = [x]) (hlo : lo ≤ x) (hhi : x ≤ hi) (h : Mono x hi t) :
    Mono lo hi (e :: t) := by
  have h1 : Mono lo x [e] := by
    unfold Mono
    rw [he]
    simp [hlo]
  exact Mono.append hlo hhi h1 h

theorem addRootsLoop_mono (env : PipelineEnv) (job : UploadJob) (c : CIDs) (proofSetID : Str)
    (args : List Str) (fuel : Nat) :
    ∀ (attempt : Nat) (backoff : Int),
      Mono 95 95 (addRootsLoop env job c proofSetID args fuel attempt backoff).1 := by
  induction fuel with
  | zero => intro attempt backoff; exact Mono.nil _ _
  | succ fuel ih =>
    intro attempt backoff
    unfold addRootsLoop
    simp only
    repeat' split
    all_goals simp only [List.cons_append, List.nil_append, List.append_assoc]
    all_goals
      repeat first
        | exact Mono.nil _ _
        | exact ih _ _
        | refine Mono.skip (by rfl) ?_
        | refine Mono.step (x := 95) (by rfl) (by decide) (by decide) ?_

theorem pollLoop_mono (maxAttempts : Nat) (env : PipelineEnv) (job : UploadJob) (c : CIDs)
    (proofSetID : Str) (args : List Str) (fuel : Nat) :
    ∀ (pollAttempt : Nat) (pollInterval : Int) (consecutiveErrors : Nat),
      Mono 96 96 (pollLoop maxAttempts env job c proofSetID args fuel pollAttempt pollInterval
        consecutiveErrors).1 := by
  induction fuel with
  | zero => intro _ _ _; exact Mono.nil _ _
  | succ fuel ih =>
    intro pollAttempt pollInterval consecutiveErrors
    unfold pollLoop
    simp only
    repeat' split
    all_goals simp only [List.cons_append, List.nil_append, List.append_assoc]
    all_goals
      repeat first
        | exact Mono.nil _ _
        | exact ih _ _ _
        | refine Mono.skip (by rfl) ?_
        | refine Mono.step (x := 96) (by rfl) (by decide) (by decide) ?_

theorem finishUpload_mono (maxAttempts : Nat) (env : PipelineEnv) (job : UploadJob) (c : CIDs)
    (proofSetDBID : Nat) (proofSetID : Str) (found : Option Str) (consecutiveErrors : Nat) :
    Mono 98 100
      (finishUpload maxAttempts env job c proofSetDBID proofSetID found consecutiveErrors) := by
  unfold finishUpload
  simp only
  repeat' split
  all_goals simp only [List.cons_append, List.nil_append, List.append_assoc]
  all_goals
    repeat first
      | exact Mono.nil _ _
      | refine Mono.skip (by rfl) ?_
      | refine Mono.step (x := 98) (by rfl) (by decide) (by decide) ?_
      | refine Mono.step (x := 100) (by rfl) (by decide) (by decide) ?_

theorem confirmRoot_mono (maxAttempts : Nat) (env : PipelineEnv) (job : UploadJob) (c : CIDs)
    (proofSetDBID : Nat) (proofSetID : Str) :
    Mono 96 100 (confirmRoot maxAttempts env job c proofSetDBID proofSetID) := by
  unfold confirmRoot
  simp only [List.cons_append, List.nil_append, List.append_assoc]
  refine Mono.step (x := 96) (by rfl) (by decide) (by decide) ?_
  exact Mono.append (b := 96) (by decide) (by decide) (pollLoop_mono _ _ _ _ _ _ _ _ _ _)
    (Mono.weaken (by decide) (by decide) (finishUpload_mono _ _ _ _ _ _ _ _))

theorem bindAndConfirm_mono (env : PipelineEnv) (job : UploadJob) (c : CIDs) :
    Mono 95 100 (bindAndConfirm env job c) := by
  unfold bindAndConfirm
  simp only [List.cons_append, List.nil_append, List.append_assoc]
  refine Mono.step (x := 95) (by rfl) (by decide) (by decide) ?_
  refine Mono.skip (by rfl) ?_
  refine Mono.skip (by rfl) ?_
  split
  · exact Mono.skip (by rfl) (Mono.nil _ _)
  · exact Mono.skip (by rfl) (Mono.nil _ _)
  · split
    · exact Mono.skip (by rfl) (Mono.nil _ _)
    · try simp only [List.cons_append, List.nil_append, List.append_assoc]
      refine Mono.step (x := 95) (by rfl) (by decide) (by decide) ?_
      refine Mono.append (b := 95) (by decide) (by decide)
        (addRootsLoop_mono _ _ _ _ _ _ _ _) ?_
      split
      · exact Mono.nil _ _
      · exact Mono.skip (by rfl) (Mono.nil _ _)
      · exact Mono.weaken (by decide) (by decide) (confirmRoot_mono _ _ _ _ _ _)

theorem processUploadAfterUpload_mono (env : PipelineEnv) (job : UploadJob) (outputStr : Str) :
    Mono 95 100 (processUploadAfterUpload env job outputStr) := by
  unfold processUploadAfterUpload
  split
  · exact Mono.skip (by rfl) (Mono.nil _ _)
  · exact bindAndConfirm_mono _ _ _
  · exact bindAndConfirm_mono _ _ _

theorem Mono.status {lo hi : Int} {p : UploadProgress} {t : List Event}
    (hlo : lo ≤ p.Progress) (hhi : p.Progress ≤ hi) (h : Mono p.Progress hi t) :
    Mono lo hi (.status p :: t) := by
  cases hl : live p with
  | true =>
    refine Mono.step (x := p.Progress) ?_ hlo hhi h
    simp [liveProgress, statuses, hl]
  | false =>
    refine Mono.skip ?_ (Mono.weaken hlo (le_refl _) h)
    simp [liveProgress, statuses, hl]

theorem tickBody_mono (job : UploadJob) (start i : Int) (stage : Str) (cp : Int) (hi : Int)
    (t : List Event) (hhi : start + prepareWeight - 1 ≤ hi)
    (h : Mono (tickBody job start i stage cp).2 hi t) :
    Mono cp hi ((tickBody job start i stage cp).1 ++ t) := by
  unfold tickBody at h ⊢
  by_cases hlt : cp < start + prepareWeight - 1
  · rw [if_pos hlt] at h ⊢
    simp only at h ⊢
    by_cases hm : Int.tmod i 5 = 0
    · rw [if_pos hm]
      show Mono cp hi (Event.status _ :: t)
      refine Mono.status ?_ ?_ h
      · show cp ≤ cp + 1
        omega
      · show cp + 1 ≤ hi
        omega
    · rw [if_neg hm]
      exact Mono.weaken (by omega) (le_refl _) h
  · rw [if_neg hlt] at h ⊢
    exact h

theorem prepareTicker_mono (job : UploadJob) (start : Int) (stage : Str) (hi : Int)
    (hhi : start + prepareWeight - 1 ≤ hi) (ticks : Nat) :
    ∀ (i cp : Int), cp ≤ hi →
      Mono cp hi (prepareTicker job start stage ticks i cp).1 ∧
      cp ≤ (prepareTicker job start stage ticks i cp).2.2 := by
  induction ticks with
  | zero => intro i cp _; exact ⟨Mono.nil _ _, le_refl _⟩
  | succ ticks ih =>
    intro i cp hcp
    unfold prepareTicker
    split
    · simp only
      have hb : (tickBody job start i stage cp).2 ≤ hi ∧ cp ≤ (tickBody job start i stage cp).2 := by
        unfold tickBody
        split
        · simp only; omega
        · exact ⟨hcp, le_refl _⟩
      obtain ⟨hm, hle⟩ := ih (i + 1) _ hb.1
      exact ⟨tickBody_mono job start i stage cp hi _ hhi hm, le_trans hb.2 hle⟩
    · exact ⟨Mono.nil _ _, le_refl _⟩

theorem lateIteration_off (h : HeadEnv) (job : UploadJob) (start i : Int) (stage : Str)
    (cp : Int) (hl : h.lateTick = false) :
    lateIteration h job start i stage cp = ([], cp) := by
  simp [lateIteration, hl]

theorem createServiceSecret_mono (h : HeadEnv) (job : UploadJob) (rest : List Event)
    (hrest : Mono 0 100 rest) :
    Mono 0 100 ((createServiceSecret h job 0).1 ++ rest) ∧
    ∀ cp, (createServiceSecret h job 0).2 = some cp → 0 ≤ cp ∧ cp ≤ 5 := by
  unfold createServiceSecret
  split
  · refine ⟨hrest, ?_⟩
    intro cp hcp
    simp only [Option.some.injEq] at hcp
    omega
  · split
    · refine ⟨?_, ?_⟩
      · exact Mono.step (x := 0) (by rfl) (by decide) (by decide)
          (Mono.skip (by rfl) hrest)
      · intro cp hcp
        simp at hcp
    · refine ⟨?_, ?_⟩
      · exact Mono.step (x := 0) (by rfl) (by decide) (by decide) hrest
      · intro cp hcp
        simp only [Option.some.injEq] at hcp
        omega

theorem stageFile_error (h : HeadEnv) (job : UploadJob) (failure : UploadProgress)
    (hf : stageFile h job = some failure) : failure.Status = "error".toList := by
  unfold stageFile at hf
  repeat' split at hf
  all_goals first
    | (simp only [Option.some.injEq] at hf; subst hf; rfl)
    | (exfalso; simp at hf)

theorem Mono.error {lo hi : Int} {p : UploadProgress} {t : List Event}
    (hp : p.Status = "error".toList) (h : Mono lo hi t) : Mono lo hi (.status p :: t) := by
  refine Mono.skip ?_ h
  simp [liveProgress, statuses, live, hp]

theorem preparePiece_mono (env : PipelineEnv) (h : HeadEnv) (job : UploadJob)
    (currentProgress : Int) (hl : h.lateTick = false) (h0 : 0 ≤ currentProgress)
    (h5 : currentProgress ≤ 5) :
    Mono currentProgress 100 (preparePiece env h job currentProgress) := by
  unfold preparePiece
  simp only [lateIteration_off _ _ _ _ _ _ hl]
  have hw : prepareWeight = 20 := rfl
  have htick := (prepareTicker_mono job (currentProgress + 5) "preparing".toList 29
    (by rw [hw]; omega) h.prepareTicks 0 (currentProgress + 5) (by omega)).1
  split
  · simp only [List.cons_append, List.nil_append, List.append_assoc, List.append_nil]
    refine Mono.step (x := currentProgress + 5) (by rfl) (by omega) (by omega) ?_
    refine Mono.append (b := 29) (by omega) (by decide) htick ?_
    split
    · exact Mono.skip (by rfl) (Mono.nil _ _)
    · exact Mono.skip (by rfl) (Mono.nil _ _)
  · simp only [List.cons_append, List.nil_append, List.append_assoc, List.append_nil]
    refine Mono.step (x := currentProgress + 5) (by rfl) (by omega) (by omega) ?_
    refine Mono.append (b := 29) (by omega) (by decide) htick ?_
    refine Mono.step (x := 30) (by rfl) (by decide) (by decide) ?_
    refine Mono.skip (by rfl) ?_
    refine Mono.step (x := 30) (by rfl) (by decide) (by decide) ?_
    split
    · exact Mono.skip (by rfl) (Mono.nil _ _)
    · exact Mono.weaken (by decide) (by decide) (processUploadAfterUpload_mono _ _ _)

theorem processUpload_mono (env : PipelineEnv) (h : HeadEnv) (job : UploadJob)
    (prev : UploadProgress) (hl : h.lateTick = false) :
    Mono 0 100 (processUpload env h job prev) := by
  unfold processUpload
  split
  · exact Mono.skip (by rfl) (Mono.nil _ _)
  split
  · exact Mono.skip (by rfl) (Mono.nil _ _)
  simp only
  split
  · have := (createServiceSecret_mono h job [] (Mono.nil _ _)).1
    simpa using this
  · rename_i cp hcp
    have hb := (createServiceSecret_mono h job [] (Mono.nil _ _)).2 cp hcp
    split
    · rename_i failure hf
      exact (createServiceSecret_mono h job _
        (show Mono 0 100 [updateStatus job failure] from
          Mono.error (stageFile_error h job failure hf) (Mono.nil _ _))).1
    · split
      · exact (createServiceSecret_mono h job _ (Mono.skip (by rfl) (Mono.nil _ _))).1
      · exact (createServiceSecret_mono h job _
          (Mono.weaken hb.1 (le_refl _) (preparePiece_mono env h job cp hl hb.1 hb.2))).1

theorem UploadFile_mono (env : PipelineEnv) (h : HeadEnv) (job : UploadJob) (pdptoolPath : Str)
    (pdptoolExists : Bool) (hl : h.lateTick = false) :
    Mono 0 100 (UploadFile env h job pdptoolPath pdptoolExists) := by
  unfold UploadFile
  simp only
  split
  · exact Mono.step (x := 0) (by rfl) (by decide) (by decide)
      (Mono.skip (by rfl) (Mono.nil _ _))
  · exact Mono.step (x := 0) (by rfl) (by decide) (by decide)
      (processUpload_mono env h job _ hl)

set_option maxRecDepth 8000

/-- C13 (as stated) fails. In a direct upload whose `prepare-piece` command fails the
progress values written for the job are 0, 5, 0: the `error` update carries no
progress. In a chunked upload that runs to `complete` the assembly writes 0, 0, 10, 20,
30 and the pipeline then starts again at 5. -/
theorem progress_drops :
    progressValues (UploadFile demoEnv failingPrepare demoJob demoTool true) = [0, 5, 0] ∧
    mapGet smallServer.chunkedUploads "u1".toList = some smallInfoAssembling ∧
    (assembleAndProcessFile {} smallServer smallInfoAssembling "j1".toList).outcome =
      .handedOff "/tmp/chunked_uploads/u1/f.bin".toList ∧
    (assembleAndProcessFile {} smallServer smallInfoAssembling "j1".toList).state.updates.getLast? =
      some processingRecord ∧
    (assembleAndProcessFile {} smallServer smallInfoAssembling "j1".toList).state.updates.map
        (fun p => p.Progress) ++
      progressValues (processUpload demoEnv chunkedHead smallJob processingRecord) =
      [0, 0, 10, 20, 30, 5, 30, 30, 95, 95, 95, 96, 98, 100] := by
  decide

/-- C13 (as amended): in a direct upload, from the first registry write of `UploadFile`
to the last of `processUpload`, in which the progress goroutine makes no write after
`prepareDone` is closed, the progress values of the updates whose stage is neither
`error` nor `pending` never decrease and lie between 0 and 100. -/
theorem direct_upload_progress_monotone (env : PipelineEnv) (h : HeadEnv) (job : UploadJob)
    (pdptoolPath : Str) (pdptoolExists : Bool) (hl : h.lateTick = false) :
    List.Pairwise (fun a b => a ≤ b)
      (liveProgress (UploadFile env h job pdptoolPath pdptoolExists)) ∧
    ∀ x ∈ liveProgress (UploadFile env h job pdptoolPath pdptoolExists), 0 ≤ x ∧ x ≤ 100 :=
  UploadFile_mono env h job pdptoolPath pdptoolExists hl

/-- Witness for C13: the direct upload `demoHead` runs to `complete` with the progress
values 0, 5, 30, 30, 95, 95, 95, 96, 98, 100. -/
theorem direct_upload_progress_monotone_witness :
    liveProgress (UploadFile demoEnv demoHead demoJob demoTool true) =
      [0, 5, 30, 30, 95, 95, 95, 96, 98, 100] ∧
    List.Pairwise (fun a b => a ≤ b)
      (liveProgress (UploadFile demoEnv demoHead demoJob demoTool true)) :=
  ⟨by decide, (direct_upload_progress_monotone demoEnv demoHead demoJob demoTool true rfl).1⟩

/-- C14 fails when the progress goroutine is overtaken: the `prepare-piece` command of a
direct upload fails after the first timer of the goroutine fired and before its body
ran; `processUpload` writes `error` and returns, and the goroutine then writes
`preparing` with progress 6, which is the value the registry keeps: a write after a
terminal stage, which `runPhases` does not allow. -/
theorem stage_after_terminal :
    failingPrepare.prepare.failed = true ∧
    statuses (UploadFile demoEnv { failingPrepare with lateTick := true } demoJob demoTool true) =
      [{ Status := "uploading".toList
         Progress := 0
         Message := "Starting upload".toList
         Filename := "f.bin".toList
         TotalSize := 300
         JobID := "j1".toList },
       { Status := "preparing".toList
         Progress := 5
         Message := "Preparing piece".toList
         JobID := "j1".toList },
       { Status := "error".toList
         Error := "Failed to prepare piece".toList
         JobID := "j1".toList },
       { Status := "preparing".toList
         Progress := 6
         Message := "Preparing piece data...".toList
         JobID := "j1".toList }] ∧
    finalStage (UploadFile demoEnv { failingPrepare with lateTick := true } demoJob demoTool true) =
      some "preparing".toList ∧
    runPhases .uploading
      (stages (UploadFile demoEnv { failingPrepare with lateTick := true } demoJob demoTool true)) =
      none := by
  decide

/-! ## Order of the stages of a run -/

theorem stages_append (a b : List Event) : stages (a ++ b) = stages a ++ stages b := by
  simp [stages, statuses_append]

theorem runPhases_append (a b : List Str) :
    ∀ p, runPhases p (a ++ b) = (runPhases p a).bind (fun q => runPhases q b) := by
  induction a with
  | nil => intro p; rfl
  | cons s a ih =>
    intro p
    simp only [List.cons_append, runPhases]
    cases nextPhase p s with
    | none => rfl
    | some r => simpa using ih r

theorem phased_nil (p : Phase) : Phased p p [] := rfl

theorem phased_append {p q r : Phase} {a b : List Event} (h1 : Phased p q a)
    (h2 : Phased q r b) : Phased p r (a ++ b) := by
  unfold Phased at *
  rw [stages_append, runPhases_append, h1]
  exact h2

theorem phased_skip {p q : Phase} {e : Event} {t : List Event} (he : stages [e] = [])
    (h : Phased p q t) : Phased p q (e :: t) := by
  have h0 : Phased p p [e] := by
    unfold Phased
    rw [he]
    rfl
  exact phased_append h0 h

theorem phased_step {p q r : Phase} {e : Event} {t : List Event} {s : Str}
    (he : stages [e] = [s]) (hn : nextPhase p s = some r) (h : Phased r q t) :
    Phased p q (e :: t) := by
  have h0 : Phased p r [e] := by
    unfold Phased
    rw [he]
    simp [runPhases, hn]
  exact phased_append h0 h

theorem valid_nil (p : Phase) : Valid p [] := ⟨p, phased_nil p⟩

theorem valid_append {p q : Phase} {a b : List Event} (h1 : Phased p q a) (h2 : Valid q b) :
    Valid p (a ++ b) := by
  obtain ⟨r, hr⟩ := h2
  exact ⟨r, phased_append h1 hr⟩

theorem valid_skip {p : Phase} {e : Event} {t : List Event} (he : stages [e] = [])
    (h : Valid p t) : Valid p (e :: t) := by
  obtain ⟨r, hr⟩ := h
  exact ⟨r, phased_skip he hr⟩

theorem valid_step {p r : Phase} {e : Event} {t : List Event} {s : Str}
    (he : stages [e] = [s]) (hn : nextPhase p s = some r) (h : Valid r t) :
    Valid p (e :: t) := by
  obtain ⟨q, hq⟩ := h
  exact ⟨q, phased_step he hn hq⟩

theorem addRootsLoop_valid (env : PipelineEnv) (job : UploadJob) (c : CIDs) (proofSetID : Str)
    (args : List Str) (fuel : Nat) :
    ∀ (attempt : Nat) (backoff : Int),
      Valid .binding (addRootsLoop env job c proofSetID args fuel attempt backoff).1 := by
  induction fuel with
  | zero => intro attempt backoff; exact valid_nil _
  | succ fuel ih =>
    intro attempt backoff
    unfold addRootsLoop
    simp only
    repeat' split
    all_goals simp only [List.cons_append, List.nil_append, List.append_assoc]
    all_goals
      repeat first
        | exact valid_nil _
        | exact ih _ _

theorem addRootsLoop_phased (env : PipelineEnv) (job : UploadJob) (c : CIDs) (proofSetID : Str)
    (args : List Str) (fuel : Nat) :
    ∀ (attempt : Nat) (backoff : Int),
      (addRootsLoop env job c proofSetID args fuel attempt backoff).2 ≠ .returned →
        Phased .binding .binding
          (addRootsLoop env job c proofSetID args fuel attempt backoff).1 := by
  induction fuel with
  | zero => intro attempt backoff _; exact phased_nil _
  | succ fuel ih =>
    intro attempt backoff
    unfold addRootsLoop
    simp only
    repeat' split
    all_goals simp only [List.cons_append, List.nil_append, List.append_assoc]
    all_goals intro hne
    all_goals first
      | exact absurd rfl hne
      | skip
    all_goals
      repeat first
        | exact phased_nil _
        | exact ih _ _ hne

theorem pollLoop_phases (maxAttempts : Nat) (env : PipelineEnv) (job : UploadJob) (c : CIDs)
    (proofSetID : Str) (args : List Str) (fuel : Nat) :
    ∀ (pollAttempt : Nat) (pollInterval : Int) (consecutiveErrors : Nat),
      Phased .confirming .confirming
        (pollLoop maxAttempts env job c proofSetID args fuel pollAttempt pollInterval
          consecutiveErrors).1 := by
  induction fuel with
  | zero => intro _ _ _; exact phased_nil _
  | succ fuel ih =>
    intro pollAttempt pollInterval consecutiveErrors
    unfold pollLoop
    simp only
    repeat' split
    all_goals simp only [List.cons_append, List.nil_append, List.append_assoc]
    all_goals
      repeat first
        | exact phased_nil _
        | exact ih _ _ _

theorem finishUpload_phases (maxAttempts : Nat) (env : PipelineEnv) (job : UploadJob) (c : CIDs)
    (proofSetDBID : Nat) (proofSetID : Str) (found : Option Str) (consecutiveErrors : Nat) :
    Valid .confirming
      (finishUpload maxAttempts env job c proofSetDBID proofSetID found consecutiveErrors) := by
  unfold finishUpload
  simp only
  repeat' split
  all_goals simp only [List.cons_append, List.nil_append, List.append_assoc]
  all_goals
    repeat first
      | exact valid_nil _

theorem confirmRoot_phases (maxAttempts : Nat) (env : PipelineEnv) (job : UploadJob) (c : CIDs)
    (proofSetDBID : Nat) (proofSetID : Str) :
    Valid .binding (confirmRoot maxAttempts env job c proofSetDBID proofSetID) := by
  unfold confirmRoot
  simp only [List.cons_append, List.nil_append, List.append_assoc]
  refine valid_step (by rfl) (by rfl) ?_
  exact valid_append (pollLoop_phases _ _ _ _ _ _ _ _ _ _) (finishUpload_phases _ _ _ _ _ _ _ _)

theorem bindAndConfirm_phases (env : PipelineEnv) (job : UploadJob) (c : CIDs) :
    Valid .publishing (bindAndConfirm env job c) := by
  unfold bindAndConfirm
  simp only [List.cons_append, List.nil_append, List.append_assoc]
  refine valid_step (by rfl) (by rfl) ?_
  refine valid_skip (by rfl) ?_
  refine valid_skip (by rfl) ?_
  split
  · exact valid_step (by rfl) (by rfl) (valid_nil _)
  · exact valid_step (by rfl) (by rfl) (valid_nil _)
  · split
    · exact valid_step (by rfl) (by rfl) (valid_nil _)
    · rename_i dbid pid _ _
      try simp only [List.cons_append, List.nil_append, List.append_assoc]
      refine valid_step (by rfl) (by rfl) ?_
      have hloop := And.intro
        (addRootsLoop_valid env job c pid
          ["add-roots".toList, "--service-url".toList, env.ServiceURL,
            "--service-name".toList, env.ServiceName, "--proof-set-id".toList, pid,
            "--root".toList, c.compoundCID] maxRetries 1 (10 * second))
        (addRootsLoop_phased env job c pid
          ["add-roots".toList, "--service-url".toList, env.ServiceURL,
            "--service-name".toList, env.ServiceName, "--proof-set-id".toList, pid,
            "--root".toList, c.compoundCID] maxRetries 1 (10 * second))
      split
      · rename_i hexit
        simpa using hloop.1
      · rename_i hexit
        exact valid_append (hloop.2 (by rw [hexit]; exact fun e => LoopExit.noConfusion e))
          (valid_step (by rfl) (by rfl) (valid_nil _))
      · rename_i hexit
        exact valid_append (hloop.2 (by rw [hexit]; exact fun e => LoopExit.noConfusion e))
          (confirmRoot_phases _ _ _ _ _ _)

theorem processUploadAfterUpload_phases (env : PipelineEnv) (job : UploadJob)
    (outputStr : Str) : Valid .publishing (processUploadAfterUpload env job outputStr) := by
  unfold processUploadAfterUpload
  split
  · exact valid_step (by rfl) (by rfl) (valid_nil _)
  · exact bindAndConfirm_phases _ _ _
  · exact bindAndConfirm_phases _ _ _

theorem tickBody_phases (job : UploadJob) (start i cp : Int) :
    Phased .preparing .preparing (tickBody job start i "preparing".toList cp).1 := by
  unfold tickBody
  repeat' split
  all_goals first
    | exact phased_nil _

theorem prepareTicker_phases (job : UploadJob) (start : Int) (ticks : Nat) :
    ∀ (i cp : Int),
      Phased .preparing .preparing (prepareTicker job start "preparing".toList ticks i cp).1 := by
  induction ticks with
  | zero => intro i cp; exact phased_nil _
  | succ ticks ih =>
    intro i cp
    unfold prepareTicker
    split
    · exact phased_append (tickBody_phases job start i cp) (ih _ _)
    · exact phased_nil _

theorem preparePiece_phases (env : PipelineEnv) (h : HeadEnv) (job : UploadJob)
    (currentProgress : Int) (hl : h.lateTick = false) (p : Phase)
    (hp : p = .uploading ∨ p = .preparing) :
    Valid p (preparePiece env h job currentProgress) := by
  unfold preparePiece
  simp only [lateIteration_off _ _ _ _ _ _ hl]
  have hstart : nextPhase p "preparing".toList = some .preparing := by
    rcases hp with rfl | rfl <;> rfl
  split
  · simp only [List.cons_append, List.nil_append, List.append_assoc, List.append_nil]
    refine valid_step (by rfl) hstart ?_
    refine valid_append (prepareTicker_phases _ _ _ _ _) ?_
    split
    · exact valid_step (by rfl) (by rfl) (valid_nil _)
    · exact valid_step (by rfl) (by rfl) (valid_nil _)
  · simp only [List.cons_append, List.nil_append, List.append_assoc, List.append_nil]
    refine valid_step (by rfl) hstart ?_
    refine valid_append (prepareTicker_phases _ _ _ _ _) ?_
    refine valid_step (by rfl) (by rfl) ?_
    refine valid_skip (by rfl) ?_
    refine valid_step (by rfl) (by rfl) ?_
    split
    · exact valid_step (by rfl) (by rfl) (valid_nil _)
    · exact processUploadAfterUpload_phases _ _ _

theorem createServiceSecret_phases (h : HeadEnv) (job : UploadJob) :
    ((createServiceSecret h job 0).2 = none → Valid .uploading (createServiceSecret h job 0).1) ∧
    ((createServiceSecret h job 0).2 ≠ none →
      ∃ q, (q = .uploading ∨ q = .preparing) ∧
        Phased .uploading q (createServiceSecret h job 0).1) := by
  unfold createServiceSecret
  repeat' split
  · exact ⟨fun e => by simp at e, fun _ => ⟨.uploading, Or.inl rfl, phased_nil _⟩⟩
  · refine ⟨fun _ => ?_, fun e => absurd rfl e⟩
    exact valid_step (by rfl) (by rfl) (valid_step (by rfl) (by rfl) (valid_nil _))
  · exact ⟨fun e => by simp at e,
      fun _ => ⟨.preparing, Or.inr rfl, phased_step (by rfl) (by rfl) (phased_nil _)⟩⟩

theorem processUpload_phases (env : PipelineEnv) (h : HeadEnv) (job : UploadJob)
    (prev : UploadProgress) (hl : h.lateTick = false) :
    Valid .uploading (processUpload env h job prev) := by
  unfold processUpload
  split
  · exact valid_step (by rfl) (by rfl) (valid_nil _)
  split
  · exact valid_step (by rfl) (by rfl) (valid_nil _)
  simp only
  obtain ⟨hnone, hsome⟩ := createServiceSecret_phases h job
  split
  · rename_i hsec
    exact hnone hsec
  · rename_i cp hcp
    obtain ⟨q, hq, hph⟩ := hsome (by rw [hcp]; exact fun e => Option.noConfusion e)
    have herr : nextPhase q "error".toList = some .terminal := by
      rcases hq with rfl | rfl <;> rfl
    split
    · rename_i failure hf
      refine valid_append hph ?_
      have hs := stageFile_error h job failure hf
      refine valid_step (s := failure.Status) (by rfl) (by rw [hs]; exact herr) (valid_nil _)
    · split
      · exact valid_append hph (valid_step (by rfl) herr (valid_nil _))
      · exact valid_append hph (preparePiece_phases env h job cp hl q hq)

/-- In a direct upload in which the progress goroutine makes no write after
`prepareDone` is closed, every registry write keeps the job in its phase or moves it to
the next one, and nothing is written after `complete`, `error` or `pending`. -/
theorem UploadFile_phases (env : PipelineEnv) (h : HeadEnv) (job : UploadJob) (pdptoolPath : Str)
    (pdptoolExists : Bool) (hl : h.lateTick = false) :
    ∃ q, runPhases .uploading (stages (UploadFile env h job pdptoolPath pdptoolExists)) =
      some q := by
  show Valid .uploading (UploadFile env h job pdptoolPath pdptoolExists)
  unfold UploadFile
  simp only
  split
  · exact valid_step (by rfl) (by rfl) (valid_step (by rfl) (by rfl) (valid_nil _))
  · exact valid_step (by rfl) (by rfl) (processUpload_phases env h job _ hl)

/-! ## The base identifier -/

theorem notColon_colon : notColon ':' = false := by decide

theorem notColon_of_ne (c : Char) (h : ¬ c = ':') : notColon c = true := by
  simp [notColon, h]

theorem splitColons_head (s : Str) : ∃ ls, splitColons s = s.takeWhile notColon :: ls := by
  induction s with
  | nil => exact ⟨[], rfl⟩
  | cons c cs ih =>
    obtain ⟨ls, hls⟩ := ih
    unfold splitColons
    by_cases hc : c = ':'
    · subst hc
      exact ⟨splitColons cs, by simp [List.takeWhile, notColon_colon]⟩
    · exact ⟨ls, by simp [hc, hls, List.takeWhile, notColon_of_ne c hc]⟩

theorem processCid_eq_takeWhile (s : Str) : processCid s = s.takeWhile notColon := by
  obtain ⟨ls, hls⟩ := splitColons_head s
  simp [processCid, hls]

theorem take_Index_colon (s : Str) :
    (match Index s [':'] with
      | some idx => s.take idx
      | none => s) = s.takeWhile notColon := by
  induction s with
  | nil => simp [Index, hasPrefix]
  | cons c cs ih =>
    by_cases hc : c = ':'
    · subst hc
      simp [Index, hasPrefix, List.takeWhile, notColon_colon]
    · have hp : hasPrefix (c :: cs) [':'] = false := by simp [hasPrefix, hc]
      simp only [Index, hp, Bool.false_eq_true, if_false]
      cases hi : Index cs [':'] with
      | none =>
        rw [hi] at ih
        simp only at ih
        simp [List.takeWhile, notColon_of_ne c hc, ← ih]
      | some idx =>
        rw [hi] at ih
        simp only at ih
        simp [List.takeWhile, notColon_of_ne c hc, ← ih]

theorem takeWhile_ident (g rest : Str) (hg : IsIdent g)
    (hrest : rest = [] ∨ ∃ r, rest = ':' :: r) :
    (g ++ rest).takeWhile notColon = g := by
  have hall : ∀ c ∈ g, notColon c = true := by
    obtain ⟨body, rfl, _, hb⟩ := hg
    intro c hc
    rw [List.mem_append] at hc
    rcases hc with hc | hc
    · have : ∀ d ∈ bagaPrefix, notColon d = true := by decide
      exact this c hc
    · have h1 := hb c hc
      by_cases e : c = ':'
      · rw [e, isAlnum_colon] at h1
        cases h1
      · exact notColon_of_ne c e
  rcases hrest with rfl | ⟨r, rfl⟩
  · rw [List.append_nil]
    exact List.takeWhile_eq_self_iff.mpr hall
  · rw [List.takeWhile_append_of_pos hall]
    simp [List.takeWhile, notColon_colon]

theorem cidRegexMatch_base (s g1 g2 : Str) (h : cidRegexMatch s = some (g1, g2)) :
    g1 = s.takeWhile notColon ∧ g1 ≠ [] := by
  unfold cidRegexMatch at h
  cases hm : matchIdent s with
  | none => simp [hm] at h
  | some p =>
    obtain ⟨g, rest⟩ := p
    obtain ⟨hg, hs, _⟩ := matchIdent_elim s g rest hm
    simp only [hm] at h
    cases rest with
    | nil =>
      simp only [Option.some.injEq, Prod.mk.injEq] at h
      obtain ⟨rfl, _⟩ := h
      subst hs
      exact ⟨(takeWhile_ident g [] hg (Or.inl rfl)).symm, IsIdent_ne_nil g hg⟩
    | cons c rest2 =>
      simp only at h
      by_cases hc : c = ':'
      · subst hc
        simp only [if_true] at h
        have hg1 : g = g1 := by
          repeat' split at h
          all_goals first
            | (simp only [Option.some.injEq, Prod.mk.injEq] at h; exact h.1)
            | (exfalso; simp at h)
        subst hg1
        subst hs
        exact ⟨(takeWhile_ident g _ hg (Or.inr ⟨rest2, rfl⟩)).symm, IsIdent_ne_nil g hg⟩
      · simp [hc] at h

theorem scanCIDLines_base (lines : List Str) (h : (scanCIDLines lines).compoundCID ≠ []) :
    (scanCIDLines lines).baseCID = (scanCIDLines lines).compoundCID.takeWhile notColon ∧
      (scanCIDLines lines).baseCID ≠ [] := by
  induction lines with
  | nil => exact absurd rfl h
  | cons l rest ih =>
    unfold scanCIDLines at h ⊢
    simp only at h ⊢
    cases hm : cidRegexMatch (TrimSpace l) with
    | none =>
      simp only [hm] at h ⊢
      exact ih h
    | some p =>
      obtain ⟨g1, g2⟩ := p
      simp only [hm]
      exact cidRegexMatch_base _ _ _ hm

theorem extractCID_base (outputStr : Str) (c : CIDs) (h : (extractCID outputStr).cids = some c) :
    c.compoundCID ≠ [] ∧ c.baseCID = c.compoundCID.takeWhile notColon ∧
      (extractCID outputStr = .matched c → c.baseCID ≠ []) := by
  unfold extractCID at h ⊢
  simp only at h ⊢
  by_cases hc : (scanCIDLines (splitLines outputStr).reverse).compoundCID = []
  · simp only [hc, if_true] at h ⊢
    by_cases hl : lastNonEmpty (splitLines outputStr).reverse = []
    · simp [hl, CIDExtraction.cids] at h
    · simp only [hl, ne_eq, not_false_eq_true, if_true, CIDExtraction.cids,
        Option.some.injEq] at h ⊢
      subst h
      refine ⟨hl, take_Index_colon _, ?_⟩
      intro e
      cases e
  · simp only [hc, if_false, CIDExtraction.cids, Option.some.injEq] at h ⊢
    subst h
    have hb := scanCIDLines_base _ hc
    exact ⟨hc, hb.1, fun _ => hb.2⟩

/-- C27 (as stated) fails for the fallback: when the last non-blank line of the upload
output is `:x`, the extraction yields the compound identifier `:x` with an empty base
identifier and the pipeline goes on to the binding stage; in a listing the empty target
then equals the empty value of a `Root CID:` line. -/
theorem extractCID_empty_base :
    extractCID ":x".toList = .fallback ⟨":x".toList, [], []⟩ ∧
    ((statuses (processUploadAfterUpload demoEnv demoJob ":x".toList)).head?.map
      (fun p => p.Status)) = some "adding_root".toList ∧
    extractRootID "Root ID: 4\nRoot CID:\n".toList [] = some "4".toList := by
  decide

/-- C27 (as amended): whenever CID extraction yields identifiers, by a grammar match or by
the fallback, the compound identifier is not empty and the base identifier is a prefix
of it; after a grammar match the base identifier is not empty; in general the base
identifier is empty exactly when the compound identifier starts with a colon. -/
theorem extractCID_ids (outputStr : Str) (c : CIDs)
    (h : (extractCID outputStr).cids = some c) :
    c.compoundCID ≠ [] ∧ c.baseCID <+: c.compoundCID ∧
      (extractCID outputStr = .matched c → c.baseCID ≠ []) ∧
      (c.baseCID = [] ↔ ∃ r, c.compoundCID = ':' :: r) := by
  obtain ⟨hne, hb, hm⟩ := extractCID_base outputStr c h
  refine ⟨hne, ?_, hm, ?_⟩
  · rw [hb]
    exact List.takeWhile_prefix _
  · rw [hb]
    cases hc : c.compoundCID with
    | nil => exact absurd hc hne
    | cons d r =>
      by_cases hd : d = ':'
      · subst hd
        simp [List.takeWhile, notColon_colon]
      · simp [List.takeWhile, notColon_of_ne d hd, hd]

/-- Witness for C27: the output line `bagaAAA:bagaBBB` gives the compound identifier
`bagaAAA:bagaBBB` with the base identifier `bagaAAA`. -/
theorem extractCID_ids_witness :
    (extractCID "bagaAAA:bagaBBB\n".toList).cids =
        some ⟨"bagaAAA:bagaBBB".toList, "bagaAAA".toList, "bagaBBB".toList⟩ ∧
      "bagaAAA".toList <+: "bagaAAA:bagaBBB".toList :=
  ⟨by decide,
   (extractCID_ids "bagaAAA:bagaBBB\n".toList
      ⟨"bagaAAA:bagaBBB".toList, "bagaAAA".toList, "bagaBBB".toList⟩ (by decide)).2.1⟩

/-- C28: for every compound identifier of the grammar
`^(baga[a-zA-Z0-9]+)(:(baga[a-zA-Z0-9]+))?$` the identifier `DownloadFile` passes to
the tool, the part before the first colon, is the first group of `cidRegex`, which is
the base identifier the upload pipeline keeps for that compound identifier. -/
theorem processCid_eq_baseCID :
    (∀ s, CIDGrammar s →
      ∃ g1 g2, cidRegexMatch s = some (g1, g2) ∧ processCid s = g1) ∧
    (∀ outputStr c, extractCID outputStr = .matched c →
      processCid c.compoundCID = c.baseCID) := by
  constructor
  · intro s hs
    have hm : ∃ g1 g2, cidRegexMatch s = some (g1, g2) := by
      rcases hs with hi | ⟨a, b, rfl, ha, hb⟩
      · exact ⟨_, _, cidRegexMatch_ident s hi⟩
      · exact ⟨_, _, cidRegexMatch_pair a b ha hb⟩
    obtain ⟨g1, g2, hg⟩ := hm
    refine ⟨g1, g2, hg, ?_⟩
    rw [processCid_eq_takeWhile]
    exact (cidRegexMatch_base s g1 g2 hg).1.symm
  · intro outputStr c h
    have hc : (extractCID outputStr).cids = some c := by rw [h]; rfl
    rw [processCid_eq_takeWhile]
    exact (extractCID_base outputStr c hc).2.1.symm

/-- Witness for C28: for `bagaAAA:bagaBBB`, a compound identifier of the grammar, both
sides are `bagaAAA`. -/
theorem processCid_eq_baseCID_witness :
    ∃ g1 g2, cidRegexMatch "bagaAAA:bagaBBB".toList = some (g1, g2) ∧
      processCid "bagaAAA:bagaBBB".toList = g1 :=
  processCid_eq_baseCID.1 "bagaAAA:bagaBBB".toList
    (Or.inr ⟨"bagaAAA".toList, "bagaBBB".toList, rfl,
      ⟨"AAA".toList, rfl, by decide, by decide⟩, ⟨"BBB".toList, rfl, by decide, by decide⟩⟩)

/-! ## Sleeps of the binding loop -/

theorem sleeps_append (a b : List Event) : sleeps (a ++ b) = sleeps a ++ sleeps b := by
  simp [sleeps, List.filterMap_append]

theorem totalSleep_append (a b : List Event) :
    totalSleep (a ++ b) = totalSleep a + totalSleep b := by
  simp [totalSleep, sleeps_append]

theorem retryDelay_bounds (r : Nat) :
    10 * second ≤ wrap64 (10 * second + ((r : Int) % Int.tdiv (10 * second) 2)) ∧
    wrap64 (10 * second + ((r : Int) % Int.tdiv (10 * second) 2)) <
      10 * second + Int.tdiv (10 * second) 2 := by
  have ht : Int.tdiv (10 * second) 2 = 5000000000 := by decide
  have hs : (10 : Int) * second = 10000000000 := by decide
  rw [ht, hs]
  have h1 : (0 : Int) ≤ (r : Int) % 5000000000 := Int.emod_nonneg _ (by decide)
  have h2 : (r : Int) % 5000000000 < 5000000000 := Int.emod_lt_of_pos _ (by decide)
  rw [wrap64_id _ (by omega) (by omega)]
  omega

theorem totalSleep_cons (e : Event) (t : List Event) :
    totalSleep (e :: t) = totalSleep [e] + totalSleep t :=
  totalSleep_append [e] t

theorem calm_nil (lo hi : Int) : Calm lo hi [] := by
  simp [Calm, sleeps]

theorem calm_append {lo hi : Int} {a b : List Event} (ha : Calm lo hi a) (hb : Calm lo hi b) :
    Calm lo hi (a ++ b) := by
  refine ⟨?_, ?_⟩
  · intro h
    rcases List.mem_append.mp h with h | h
    · exact ha.1 h
    · exact hb.1 h
  · intro d hd
    rw [sleeps_append, List.mem_append] at hd
    rcases hd with hd | hd
    · exact ha.2 d hd
    · exact hb.2 d hd

theorem calm_skip {lo hi : Int} {e : Event} {t : List Event} (he : sleeps [e] = [])
    (hp : e.isPanic = false) (h : Calm lo hi t) : Calm lo hi (e :: t) := by
  have h1 : Calm lo hi [e] := by
    refine ⟨?_, ?_⟩
    · intro hm
      rw [List.mem_singleton] at hm
      rw [← hm] at hp
      cases hp
    · rw [he]
      intro d hd
      cases hd
  exact calm_append h1 h

theorem calm_sleep {lo hi d : Int} {t : List Event} (h1 : lo ≤ d) (h2 : d < hi)
    (h : Calm lo hi t) : Calm lo hi (Event.sleep d :: t) := by
  have h0 : Calm lo hi [Event.sleep d] := by
    refine ⟨by simp, ?_⟩
    intro x hx
    simp only [sleeps, List.filterMap_cons, List.filterMap_nil, List.mem_singleton] at hx
    subst hx
    exact ⟨h1, h2⟩
  exact calm_append h0 h

theorem addRootsLoop_calm (env : PipelineEnv) (job : UploadJob) (c : CIDs) (proofSetID : Str)
    (args : List Str) (fuel : Nat) :
    ∀ attempt : Nat,
      Calm (10 * second) (10 * second + Int.tdiv (10 * second) 2)
        (addRootsLoop env job c proofSetID args fuel attempt (10 * second)).1 := by
  have hb : (10 : Int) * second < 10 * second + Int.tdiv (10 * second) 2 := by decide
  induction fuel with
  | zero => intro attempt; exact calm_nil _ _
  | succ fuel ih =>
    intro attempt
    unfold addRootsLoop
    simp only [nextBackoff_ten]
    repeat' split
    all_goals simp only [List.cons_append, List.nil_append, List.append_assoc]
    all_goals first
      | (exfalso; exact tdiv_ten (by assumption))
      | skip
    all_goals
      have hr := retryDelay_bounds (env.rand attempt)
      generalize wrap64 (10 * second + ((env.rand attempt : Int) % Int.tdiv (10 * second) 2)) = d
        at hr ⊢
      repeat first
        | exact calm_nil _ _
        | exact ih _
        | refine calm_sleep hr.1 hr.2 ?_
        | refine calm_sleep (le_refl _) hb ?_
        | refine calm_skip rfl rfl ?_

theorem totalSleep_sleep (d : Int) (t : List Event) :
    totalSleep (Event.sleep d :: t) = d + totalSleep t := by
  simp [totalSleep, sleeps]

theorem totalSleep_status (job : UploadJob) (p : UploadProgress) (t : List Event) :
    totalSleep (updateStatus job p :: t) = totalSleep t := by
  simp [totalSleep, sleeps, updateStatus]

theorem totalSleep_addRoots (a : List Str) (t : List Event) :
    totalSleep (Event.addRoots a :: t) = totalSleep t := by
  simp [totalSleep, sleeps]

theorem totalSleep_panic (t : List Event) : totalSleep (Event.panic :: t) = totalSleep t := by
  simp [totalSleep, sleeps]

theorem totalSleep_nil : totalSleep [] = 0 := rfl

theorem totalSleep_le (env : PipelineEnv) (job : UploadJob) (c : CIDs) (proofSetID : Str)
    (args : List Str) (fuel : Nat) :
    ∀ attempt : Nat,
      totalSleep (addRootsLoop env job c proofSetID args fuel attempt (10 * second)).1 ≤
        (if 1 < attempt then 10 * second else 0) +
          ((maxRetries - attempt : Nat) : Int) * (25 * second) := by
  have hs : second = 1000000000 := rfl
  have hm : maxRetries = 100 := rfl
  have ht : Int.tdiv (10 * second) 2 = 5000000000 := by decide
  induction fuel with
  | zero =>
    intro attempt
    simp only [addRootsLoop, totalSleep_nil, hs, hm]
    split <;> omega
  | succ fuel ih =>
    intro attempt
    have hnext := ih (attempt + 1)
    have hr := retryDelay_bounds (env.rand attempt)
    unfold addRootsLoop
    simp only [nextBackoff_ten]
    generalize wrap64 (10 * second + ((env.rand attempt : Int) % Int.tdiv (10 * second) 2)) = d
      at hr ⊢
    repeat' split
    all_goals simp only [List.cons_append, List.nil_append, List.append_assoc,
      totalSleep_sleep, totalSleep_status, totalSleep_addRoots, totalSleep_panic, totalSleep_nil]
    all_goals
      generalize totalSleep
        (addRootsLoop env job c proofSetID args fuel (attempt + 1) (10 * second)).1 = rest
        at hnext ⊢
      simp only [hs, hm, ht, Bool.and_eq_true, decide_eq_true_eq] at *
      split_ifs at hnext ⊢ <;> omega

theorem totalSleep_ge (env : PipelineEnv) (job : UploadJob) (c : CIDs) (proofSetID : Str)
    (args : List Str)
    (hfail : ∀ j, (env.addRoots j).failed = true ∧ (env.addRoots j).timedOut = false)
    (fuel : Nat) :
    ∀ attempt : Nat, 1 ≤ attempt → maxRetries + 1 ≤ fuel + attempt →
      (if 1 < attempt ∧ attempt ≤ maxRetries then 10 * second else 0) +
          ((maxRetries - attempt : Nat) : Int) * (20 * second) ≤
        totalSleep (addRootsLoop env job c proofSetID args fuel attempt (10 * second)).1 := by
  have hs : second = 1000000000 := rfl
  have hm : maxRetries = 100 := rfl
  have ht : Int.tdiv (10 * second) 2 = 5000000000 := by decide
  induction fuel with
  | zero =>
    intro attempt h1 hfuel
    simp only [addRootsLoop, totalSleep_nil, hs, hm] at *
    split_ifs <;> omega
  | succ fuel ih =>
    intro attempt h1 hfuel
    have hnext := ih (attempt + 1) (by omega) (by omega)
    have hr := retryDelay_bounds (env.rand attempt)
    unfold addRootsLoop
    simp only [nextBackoff_ten, (hfail attempt).1, (hfail attempt).2, if_true,
      Bool.false_eq_true, if_false, shouldRetry_true, Bool.true_and]
    generalize wrap64 (10 * second + ((env.rand attempt : Int) % Int.tdiv (10 * second) 2)) = d
      at hr ⊢
    repeat' split
    all_goals simp only [List.cons_append, List.nil_append, List.append_assoc,
      totalSleep_sleep, totalSleep_status, totalSleep_addRoots, totalSleep_panic, totalSleep_nil]
    all_goals
      generalize totalSleep
        (addRootsLoop env job c proofSetID args fuel (attempt + 1) (10 * second)).1 = rest
        at hnext ⊢
      simp only [hs, hm, ht, Bool.and_eq_true, decide_eq_true_eq] at *
      split_ifs at hnext ⊢ <;> omega

/-- C29: in the binding-retry loop as `processUpload` runs it, from a backoff of 10 s,
the backoff stays at 10 s, which is `maxBackoff` and positive; the bound `backoff/2` of
the jitter is positive, so no attempt panics; and every sleep of the loop, the delay
before a retry included, lasts at least `backoff` and less than
`backoff + backoff/2`. -/
theorem backoff_safe (env : PipelineEnv) (job : UploadJob) (c : CIDs) (proofSetID : Str)
    (args : List Str) (fuel attempt : Nat) :
    nextBackoff (10 * second) = 10 * second ∧ 10 * second ≤ maxBackoff ∧
    0 < Int.tdiv (10 * second) 2 ∧
    Event.panic ∉ (addRootsLoop env job c proofSetID args fuel attempt (10 * second)).1 ∧
    ∀ d ∈ sleeps (addRootsLoop env job c proofSetID args fuel attempt (10 * second)).1,
      10 * second ≤ d ∧ d < 10 * second + Int.tdiv (10 * second) 2 :=
  ⟨nextBackoff_ten, by decide, by decide,
    (addRootsLoop_calm env job c proofSetID args fuel attempt).1,
    (addRootsLoop_calm env job c proofSetID args fuel attempt).2⟩

/-- C23 (as stated) fails: when every `add-roots` attempt fails, the loop of
`processUpload` sleeps for more than 100 × 10 s. -/
theorem binding_sleep_above_ceiling :
    (∀ j, (failingBindEnv.addRoots j).failed = true) ∧
    100 * (10 * second) <
      totalSleep (addRootsLoop failingBindEnv demoJob demoCIDs "12".toList demoAddRootsArgs
        maxRetries 1 (10 * second)).1 := by
  refine ⟨fun _ => rfl, ?_⟩
  have h := totalSleep_ge failingBindEnv demoJob demoCIDs "12".toList demoAddRootsArgs
    (fun _ => ⟨rfl, rfl⟩) maxRetries 1 (le_refl _) (by decide)
  have hs : second = 1000000000 := rfl
  have hm : maxRetries = 100 := rfl
  generalize totalSleep (addRootsLoop failingBindEnv demoJob demoCIDs "12".toList
    demoAddRootsArgs maxRetries 1 (10 * second)).1 = total at h ⊢
  simp only [hs, hm] at h ⊢
  split_ifs at h <;> omega

/-- C23 (as amended): the time the binding-retry loop of `processUpload` spends sleeping
is at most 99 × 25 s, whatever the tool and the random source do: each of the at most
99 retries is preceded by a delay of less than 15 s and a sleep of 10 s. When every
attempt fails without a time-out the loop sleeps at least 99 × 20 s. -/
theorem binding_sleep_bound (env : PipelineEnv) (job : UploadJob) (c : CIDs)
    (proofSetID : Str) (args : List Str) :
    totalSleep (addRootsLoop env job c proofSetID args maxRetries 1 (10 * second)).1 ≤
        99 * (25 * second) ∧
    ((∀ j, (env.addRoots j).failed = true ∧ (env.addRoots j).timedOut = false) →
      99 * (20 * second) ≤
        totalSleep (addRootsLoop env job c proofSetID args maxRetries 1 (10 * second)).1) := by
  have hs : second = 1000000000 := rfl
  have hm : maxRetries = 100 := rfl
  constructor
  · have h := totalSleep_le env job c proofSetID args maxRetries 1
    generalize totalSleep (addRootsLoop env job c proofSetID args maxRetries 1
      (10 * second)).1 = total at h ⊢
    simp only [hs, hm] at h ⊢
    split_ifs at h <;> omega
  · intro hfail
    have h := totalSleep_ge env job c proofSetID args hfail maxRetries 1 (le_refl _) (by decide)
    generalize totalSleep (addRootsLoop env job c proofSetID args maxRetries 1
      (10 * second)).1 = total at h ⊢
    simp only [hs, hm] at h ⊢
    split_ifs at h <;> omega

/-- Witness for C23: with `add-roots` failing on every attempt the loop sleeps between
99 × 20 s and 99 × 25 s. -/
theorem binding_sleep_bound_witness :
    99 * (20 * second) ≤
        totalSleep (addRootsLoop failingBindEnv demoJob demoCIDs "12".toList demoAddRootsArgs
          maxRetries 1 (10 * second)).1 ∧
      totalSleep (addRootsLoop failingBindEnv demoJob demoCIDs "12".toList demoAddRootsArgs
          maxRetries 1 (10 * second)).1 ≤ 99 * (25 * second) :=
  ⟨(binding_sleep_bound failingBindEnv demoJob demoCIDs "12".toList demoAddRootsArgs).2
      (fun _ => ⟨rfl, rfl⟩),
   (binding_sleep_bound failingBindEnv demoJob demoCIDs "12".toList demoAddRootsArgs).1⟩

/-! ## Sleeps of the polling loop -/

theorem pollLoop_calm (maxAttempts : Nat) (env : PipelineEnv) (job : UploadJob) (c : CIDs)
    (proofSetID : Str) (args : List Str) (fuel : Nat) :
    ∀ (pollAttempt consecutiveErrors : Nat),
      Calm (10 * second) (10 * second + 1)
        (pollLoop maxAttempts env job c proofSetID args fuel pollAttempt (10 * second)
          consecutiveErrors).1 := by
  have hlt : ¬ (10 * second < maxPollInterval) := by decide
  have hb : (10 : Int) * second < 10 * second + 1 := by decide
  induction fuel with
  | zero => intro _ _; exact calm_nil _ _
  | succ fuel ih =>
    intro pollAttempt consecutiveErrors
    unfold pollLoop
    simp only [hlt, if_false, ite_self]
    repeat' split
    all_goals simp only [List.cons_append, List.nil_append, List.append_assoc]
    all_goals
      repeat first
        | exact calm_nil _ _
        | exact ih _ _
        | refine calm_sleep (le_refl _) hb ?_
        | refine calm_skip rfl rfl ?_

theorem sleeps_cons_sleep (d : Int) (t : List Event) :
    sleeps (Event.sleep d :: t) = d :: sleeps t := rfl

theorem sleeps_cons_status (job : UploadJob) (p : UploadProgress) (t : List Event) :
    sleeps (updateStatus job p :: t) = sleeps t := rfl

theorem sleeps_cons_getProofSet (a : List Str) (t : List Event) :
    sleeps (Event.getProofSet a :: t) = sleeps t := rfl

theorem countGetProofSet_cons_sleep (d : Int) (t : List Event) :
    countGetProofSet (Event.sleep d :: t) = countGetProofSet t := by
  simp [countGetProofSet, Event.isGetProofSet]

theorem countGetProofSet_cons_status (job : UploadJob) (p : UploadProgress) (t : List Event) :
    countGetProofSet (updateStatus job p :: t) = countGetProofSet t := by
  simp [countGetProofSet, Event.isGetProofSet, updateStatus]

theorem countGetProofSet_cons_getProofSet (a : List Str) (t : List Event) :
    countGetProofSet (Event.getProofSet a :: t) = countGetProofSet t + 1 := by
  simp [countGetProofSet, Event.isGetProofSet]

theorem pollLoop_paced (M : Nat) (env : PipelineEnv) (job : UploadJob) (c : CIDs)
    (ps : Str) (args : List Str) (fuel : Nat) :
    ∀ (a ce : Nat),
      countGetProofSet (pollLoop M env job c ps args fuel a (10 * second) ce).1 ≤
        (sleeps (pollLoop M env job c ps args fuel a (10 * second) ce).1).length + 1 := by
  have hlt : ¬ (10 * second < maxPollInterval) := by decide
  induction fuel with
  | zero => intro a ce; simp [pollLoop, countGetProofSet, sleeps]
  | succ n ih =>
    intro a ce
    have h1 := ih (a + 1) (ce + 1)
    have h0 := ih (a + 1) 0
    unfold pollLoop
    simp only [hlt, if_false, ite_self]
    generalize pollLoop M env job c ps args n (a + 1) (10 * second) (ce + 1) = r1 at h1 ⊢
    generalize pollLoop M env job c ps args n (a + 1) (10 * second) 0 = r0 at h0 ⊢
    repeat' split
    all_goals simp only [List.cons_append, List.nil_append, List.append_assoc,
      sleeps_cons_sleep, sleeps_cons_status, sleeps_cons_getProofSet,
      countGetProofSet_cons_sleep, countGetProofSet_cons_status,
      countGetProofSet_cons_getProofSet, List.length_cons]
    all_goals first
      | omega
      | simp [countGetProofSet, sleeps]

theorem pollLoop_all_fail_sleeps (M : Nat) (env : PipelineEnv) (job : UploadJob) (c : CIDs)
    (ps : Str) (args : List Str) (hfail : ∀ k, (env.getProofSet k).failed = true)
    (fuel : Nat) :
    ∀ (a ce : Nat), a + fuel = M →
      (sleeps (pollLoop M env job c ps args fuel a (10 * second) ce).1).length +
        (if a = 0 ∧ 0 < fuel then 1 else 0) = 2 * fuel := by
  have hlt : ¬ (10 * second < maxPollInterval) := by decide
  induction fuel with
  | zero => intro a ce _; simp [pollLoop, sleeps]
  | succ n ih =>
    intro a ce hsum
    have h1 := ih (a + 1) (ce + 1) (by omega)
    have hltM : a < M := by omega
    unfold pollLoop
    simp only [hlt, if_false, ite_self, hltM, if_true, hfail (a + 1)]
    generalize pollLoop M env job c ps args n (a + 1) (10 * second) (ce + 1) = r1 at h1 ⊢
    repeat' split
    all_goals simp only [List.cons_append, List.nil_append, List.append_assoc,
      sleeps_cons_sleep, sleeps_cons_status, sleeps_cons_getProofSet, List.length_cons]
    all_goals
      simp only [Nat.add_eq_zero, one_ne_zero, and_false, false_and, if_false] at h1
      omega

/-- C22 (as stated) fails: with a listing command that fails with `boom` on every call
the consecutive-error count passes the threshold of 10 and reaches 100, and the loop
sleeps 199 times, 10 s each time: no sleep lasts the doubled 20 s. -/
theorem poll_interval_never_doubles :
    (∀ k, (failingPollEnv.getProofSet k).failed = true) ∧
    maxConsecutiveErrors = 10 ∧
    (pollResult maxPollAttempts failingPollEnv demoJob demoCIDs "12".toList).2.2 = 100 ∧
    (sleeps (pollResult maxPollAttempts failingPollEnv demoJob demoCIDs
      "12".toList).1).length = 199 ∧
    (∀ d ∈ sleeps (pollResult maxPollAttempts failingPollEnv demoJob demoCIDs "12".toList).1,
      d = 10 * second) ∧
    2 * (10 * second) ∉
      sleeps (pollResult maxPollAttempts failingPollEnv demoJob demoCIDs "12".toList).1 := by
  have hfail : ∀ k, (failingPollEnv.getProofSet k).failed = true := fun _ => rfl
  have hall : ∀ d ∈ sleeps (pollResult maxPollAttempts failingPollEnv demoJob demoCIDs
      "12".toList).1, d = 10 * second := by
    intro d hd
    have h := (pollLoop_calm maxPollAttempts failingPollEnv demoJob demoCIDs "12".toList
      ["get-proof-set".toList, "--service-url".toList, failingPollEnv.ServiceURL,
       "--service-name".toList, failingPollEnv.ServiceName, "12".toList]
      maxPollAttempts 0 0).2 d hd
    omega
  refine ⟨hfail, rfl, ?_, ?_, hall, ?_⟩
  · have h := (pollLoop_all_fail maxPollAttempts failingPollEnv demoJob demoCIDs "12".toList
      ["get-proof-set".toList, "--service-url".toList, failingPollEnv.ServiceURL,
       "--service-name".toList, failingPollEnv.ServiceName, "12".toList] hfail
      maxPollAttempts 0 (10 * second) 0 (by omega)).2.2
    have hm : maxPollAttempts = 100 := rfl
    show (pollLoop _ _ _ _ _ _ _ _ _ _).2.2 = 100
    rw [h, hm]
  · have h := pollLoop_all_fail_sleeps maxPollAttempts failingPollEnv demoJob demoCIDs
      "12".toList
      ["get-proof-set".toList, "--service-url".toList, failingPollEnv.ServiceURL,
       "--service-name".toList, failingPollEnv.ServiceName, "12".toList] hfail
      maxPollAttempts 0 0 (by omega)
    have hm : maxPollAttempts = 100 := rfl
    simp only [hm, true_and, Nat.zero_lt_succ, if_true, Nat.lt_add_one] at h
    show (sleeps (pollLoop _ _ _ _ _ _ _ _ _ _).1).length = 199
    simp only [hm]
    omega
  · intro hmem
    have h := hall _ hmem
    have hs : second = 1000000000 := rfl
    rw [hs] at h
    omega

/-- C22 (as amended): in the confirmation polling loop as `processUpload` runs it, from
an interval of 10 s, which is `maxPollInterval`, the guard `pollInterval <
maxPollInterval` of both increases is false, doubling with the cap leaves the interval
at 10 s, and every sleep of every run lasts exactly 10 s: the interval never exceeds
`maxPollInterval`, never doubles, and after a listing that shows record ids but not the
target it is the initial value. The loop does sleep between its attempts: the number of
listing calls is at most the number of sleeps plus one. -/
theorem poll_interval_rule (maxAttempts : Nat) (env : PipelineEnv) (job : UploadJob) (c : CIDs)
    (proofSetID : Str) (args : List Str) (fuel pollAttempt consecutiveErrors : Nat) :
    maxPollInterval = 10 * second ∧
    ¬ (10 * second < maxPollInterval) ∧
    min (wrap64 (10 * second * 2)) maxPollInterval = 10 * second ∧
    (∀ d ∈ sleeps (pollLoop maxAttempts env job c proofSetID args fuel pollAttempt
        (10 * second) consecutiveErrors).1,
      d = 10 * second ∧ d ≤ maxPollInterval) ∧
    countGetProofSet (pollLoop maxAttempts env job c proofSetID args fuel pollAttempt
        (10 * second) consecutiveErrors).1 ≤
      (sleeps (pollLoop maxAttempts env job c proofSetID args fuel pollAttempt
        (10 * second) consecutiveErrors).1).length + 1 := by
  refine ⟨rfl, by decide, by decide, ?_, pollLoop_paced _ _ _ _ _ _ _ _ _⟩
  intro d hd
  have h := (pollLoop_calm maxAttempts env job c proofSetID args fuel pollAttempt
    consecutiveErrors).2 d hd
  have hm : maxPollInterval = 10 * second := rfl
  rw [hm]
  constructor <;> omega

/-! ## Signature check -/

/-- C30 fails for short signatures: when the signature text decodes to fewer than 65
bytes, `VerifySignature` indexes `signatureBytes[64]` out of range and panics; it
returns neither a boolean nor an error. -/
theorem VerifySignature_short_panics (k : CryptoEnv) (address message signature : Str)
    (b : Bytes) (hd : hexutilDecode signature = some b) (hlen : b.length < 65) :
    VerifySignature k address message signature = .panic := by
  unfold VerifySignature
  simp only [hd]
  have : b.get? 64 = none := List.get?_eq_none.mpr (by omega)
  rw [this]

/-- Witness for C30: the signature `0x00` is valid hexadecimal for one byte, and the
call panics. -/
theorem VerifySignature_short_panics_witness :
    hexutilDecode "0x00".toList = some [0] ∧
      VerifySignature demoCrypto "0xabc".toList "hello".toList "0x00".toList = .panic :=
  ⟨by decide,
   VerifySignature_short_panics demoCrypto "0xabc".toList "hello".toList "0x00".toList [0]
     (by decide) (by decide)⟩

/-! ## Concurrent chunk requests -/

theorem UploadChunk_eq_steps (sv : Server) (inp : ChunkInput) :
    (∀ r, UploadChunkCheck sv inp = .finished r → UploadChunk sv inp = (r, sv)) ∧
    (∀ chunkIndex, UploadChunkCheck sv inp = .checked chunkIndex →
      UploadChunkStore sv inp chunkIndex = some (UploadChunk sv inp)) := by
  unfold UploadChunkCheck UploadChunk UploadChunkStore
  constructor
  · intro r h
    repeat' split at h
    all_goals first
      | (simp only [ChunkRun.finished.injEq] at h; subst h; simp_all)
      | (exfalso; simp at h)
  · intro idx h
    repeat' split at h
    all_goals first
      | (exfalso; simp at h; done)
      | skip
    simp only [ChunkRun.checked.injEq] at h
    subst h
    simp only [*, if_false, if_true]

/-- C25 fails when the two requests interleave: with both requests past the test
`chunkExists` before either stores its chunk, two requests for chunk 1 of the upload
`u1` are both answered `received` and the uploaded count goes from 0 to 2 with the one
index 1 recorded; served one after the other the count is 1. For an upload of two
chunks the record then reads `allChunksReceived` and the completion request is
accepted although chunk 0 was never sent. -/
theorem concurrent_same_index :
    (runTwo (demoChunk "1" [2]) (demoChunk "1" [2]) [true, true, false, false]
        demoServer .start .start).map
      (fun p => (mapGet p.1.chunkedUploads "u1".toList, p.2)) =
      some (some demoInfoAfterChunk, .finished (.received 1 1 3 false),
        .finished (.alreadyReceived 1 1 3)) ∧
    (runTwo (demoChunk "1" [2]) (demoChunk "1" [2]) [true, false, true, false]
        demoServer .start .start).map
      (fun p => (mapGet p.1.chunkedUploads "u1".toList, p.2)) =
      some (some { demoInfoAfterChunk with UploadedChunks := 2 },
        .finished (.received 1 1 3 false), .finished (.received 1 2 3 false)) ∧
    (runTwo (demoChunk "1" [2]) (demoChunk "1" [2]) [true, false, true, false]
        pairServer .start .start).map
      (fun p => (mapGet p.1.chunkedUploads "u1".toList,
        (CompleteChunkedUpload p.1 demoComplete).1)) =
      some (some pairInfoRaced, .ok "u1".toList "j1".toList) := by
  decide

/-! ## Cleanup after a chunked upload -/

theorem sweepTicks_some (registry : Nat → Option Str) (ticks : Nat) :
    ∀ (k0 k : Nat), sweepTicks registry ticks k0 = some k ↔
      k0 ≤ k ∧ k < k0 + ticks ∧ tickStops (registry k) = true ∧
        ∀ j, k0 ≤ j → j < k → tickStops (registry j) = false := by
  induction ticks with
  | zero =>
    intro k0 k
    simp only [sweepTicks, add_zero]
    constructor
    · intro h; cases h
    · intro h; omega
  | succ n ih =>
    intro k0 k
    unfold sweepTicks
    by_cases hs : tickStops (registry k0) = true
    · simp only [hs, if_true, Option.some.injEq]
      constructor
      · intro h
        subst h
        exact ⟨le_refl _, by omega, hs, fun j h1 h2 => by omega⟩
      · intro h
        by_contra hne
        have := h.2.2.2 k0 (le_refl _) (by omega)
        rw [hs] at this
        cases this
    · simp only [hs, Bool.false_eq_true, if_false]
      rw [ih (k0 + 1) k]
      have hf : tickStops (registry k0) = false := by simpa using hs
      constructor
      · intro h
        refine ⟨by omega, by omega, h.2.2.1, ?_⟩
        intro j h1 h2
        by_cases e : j = k0
        · rw [e]; exact hf
        · exact h.2.2.2 j (by omega) h2
      · intro h
        have hne : k ≠ k0 := by
          intro e
          rw [e, hf] at h
          exact Bool.noConfusion h.2.2.1
        exact ⟨by omega, by omega, h.2.2.1, fun j h1 h2 => h.2.2.2 j (by omega) h2⟩

theorem mapGet_mapDelete {β : Type} (m : List (Str × β)) (k : Str) :
    mapGet (mapDelete m k) k = none := by
  induction m with
  | nil => rfl
  | cons p rest ih =>
    obtain ⟨a, b⟩ := p
    by_cases h : a = k
    · simpa [mapDelete, List.filter, h] using ih
    · simpa [mapDelete, List.filter, h, mapGet] using ih

theorem mapGet_filter_none {β : Type} (q : Str × β → Bool) (k : Str)
    (h : ∀ v, q (k, v) = false) :
    ∀ m : List (Str × β), mapGet (m.filter q) k = none := by
  intro m
  induction m with
  | nil => rfl
  | cons p rest ih =>
    obtain ⟨a, b⟩ := p
    by_cases e : q (a, b) = true
    · have hne : a ≠ k := by
        intro hk
        rw [hk, h b] at e
        exact Bool.noConfusion e
      rw [List.filter_cons_of_pos e]
      simp only [mapGet, hne, if_false]
      exact ih
    · rw [List.filter_cons_of_neg e]
      exact ih

theorem FileSys.stat_removeAll_dir (fs : FileSys) (dir : Str) :
    (fs.removeAll dir).stat dir = false := by
  unfold FileSys.stat FileSys.read FileSys.removeAll
  simp only
  rw [mapGet_filter_none _ _ (by intro v; simp)]
  simp [List.mem_filter]

theorem FileSys.stat_removeAll_under (fs : FileSys) (dir name : Str) :
    (fs.removeAll dir).stat (dir ++ '/' :: name) = false := by
  have hp : hasPrefix (dir ++ '/' :: name) (dir ++ ['/']) = true := by
    have : dir ++ '/' :: name = (dir ++ ['/']) ++ name := by
      simp
    rw [this]
    exact hasPrefix_append _ _
  unfold FileSys.stat FileSys.read FileSys.removeAll
  simp only
  rw [mapGet_filter_none _ _ (by intro v; simp [hp])]
  simp [List.mem_filter, hp]

theorem sweepChecks_pending (ticks : Nat) :
    ∀ k, sweepTicks pendingRegistry ticks k = none ∧
      sweepChecks pendingRegistry ticks k = ticks := by
  induction ticks with
  | zero => intro k; exact ⟨rfl, rfl⟩
  | succ n ih =>
    intro k
    have h : tickStops (pendingRegistry k) = false := rfl
    unfold sweepTicks sweepChecks
    simp only [h, Bool.false_eq_true, if_false]
    exact ⟨(ih (k + 1)).1, by rw [(ih (k + 1)).2]; omega⟩

/-- C24, counterexample: a job that stays in the stage `pending` is not cleaned up: the
sweep passes every check without running the cleanup, and the number of checks it has
made grows with the number of ticks without any maximum. -/
theorem sweep_pending_unbounded :
    (∀ k, pendingRegistry k = some "pending".toList) ∧
    (∀ ticks, cleanupSweep pendingRegistry ticks = none) ∧
    (∀ ticks, cleanupChecks pendingRegistry ticks = ticks + 1) ∧
    (∀ k, checkStops pendingRegistry k = false) := by
  have h0 : firstCheckStops (pendingRegistry 0) = false := by decide
  refine ⟨fun _ => rfl, ?_, ?_, ?_⟩
  · intro ticks
    unfold cleanupSweep
    simp only [h0, Bool.false_eq_true, if_false]
    exact (sweepChecks_pending ticks 1).1
  · intro ticks
    unfold cleanupChecks
    simp only [h0, Bool.false_eq_true, if_false]
    rw [(sweepChecks_pending ticks 1).2]
    omega
  · intro k
    unfold checkStops
    split
    · exact h0
    · rfl

/-- C24, amended: the sweep checks the job 5 s after the pipeline returned and then
every 10 s, and the cleanup runs at check `k` exactly when `k` is the first check that
finds the job in the stage `complete` or `error`, or, from the second check on, not
registered any more; a check that finds any other stage, `pending` included, leads to
the next check, and no number of checks ends the sweep. The cleanup removes the staging
directory with everything in it, the stored file path of the job and the upload record,
and leaves the registry of jobs as it is. -/
theorem cleanup_sweep_first_terminal (registry : Nat → Option Str) (ticks k : Nat)
    (sv : Server) (uploadInfo : ChunkedUploadInfo) (jobID name : Str) :
    (cleanupSweep registry ticks = some k ↔
      k ≤ ticks ∧ checkStops registry k = true ∧
        ∀ j, j < k → checkStops registry j = false) ∧
    (checkStops registry k = true ↔
      registry k = some "complete".toList ∨ registry k = some "error".toList ∨
        (0 < k ∧ registry k = none)) ∧
    checkTime 0 = 5 * second ∧ checkTime (k + 1) - checkTime k = 10 * second ∧
    mapGet (cleanupUpload sv uploadInfo jobID).chunkedUploads uploadInfo.ID = none ∧
    mapGet (cleanupUpload sv uploadInfo jobID).filePaths jobID = none ∧
    (cleanupUpload sv uploadInfo jobID).fs.stat uploadInfo.TempDir = false ∧
    (cleanupUpload sv uploadInfo jobID).fs.stat
      (uploadInfo.TempDir ++ '/' :: name) = false ∧
    (cleanupUpload sv uploadInfo jobID).uploadJobs = sv.uploadJobs := by
  refine ⟨?_, ?_, ?_, ?_, mapGet_mapDelete _ _, mapGet_mapDelete _ _,
    FileSys.stat_removeAll_dir _ _, FileSys.stat_removeAll_under _ _ _, rfl⟩
  · unfold cleanupSweep
    by_cases h0 : firstCheckStops (registry 0) = true
    · simp only [h0, if_true, Option.some.injEq]
      constructor
      · intro h
        subst h
        exact ⟨Nat.zero_le _, by simp [checkStops, h0], fun j hj => by omega⟩
      · intro h
        by_contra hne
        have := h.2.2 0 (by omega)
        simp [checkStops, h0] at this
    · simp only [h0, Bool.false_eq_true, if_false]
      rw [sweepTicks_some]
      have hf : firstCheckStops (registry 0) = false := by simpa using h0
      constructor
      · intro h
        have hk : k ≠ 0 := by omega
        refine ⟨by omega, by simp [checkStops, hk, h.2.2.1], ?_⟩
        intro j hj
        by_cases e : j = 0
        · simp [checkStops, e, hf]
        · have := h.2.2.2 j (by omega) hj
          simp [checkStops, e, this]
      · intro h
        have hk : k ≠ 0 := by
          intro e
          have := h.2.1
          simp [checkStops, e, hf] at this
        refine ⟨by omega, by omega, by simpa [checkStops, hk] using h.2.1, ?_⟩
        intro j h1 hj
        have hj0 : j ≠ 0 := by omega
        simpa [checkStops, hj0] using h.2.2 j hj
  · unfold checkStops
    by_cases hk : k = 0
    · subst hk
      cases h : registry 0 <;> simp [firstCheckStops, h]
    · have : 0 < k := by omega
      cases h : registry k <;> simp [hk, tickStops, h, this]
  · simp [checkTime]
  · simp only [checkTime]
    push_cast
    ring

/-- C24, witness: a job that is `finalizing` at the first three checks and `complete`
from then on is cleaned up at check number 3. -/
theorem cleanup_sweep_first_terminal_witness :
    cleanupSweep demoRegistry 10 = some 3 ∧
    (checkStops demoRegistry 3 = true ∧ ∀ j, j < 3 → checkStops demoRegistry j = false) :=
  ⟨by decide,
   ((cleanup_sweep_first_terminal demoRegistry 10 3 {} demoInfo "j1".toList
      "chunk_0".toList).1.mp (by decide)).2⟩

/-! ## Persistence of the piece record -/

theorem plain_nil : Plain [] := by
  intro e he
  cases he

theorem plain_append {a b : List Event} (ha : Plain a) (hb : Plain b) : Plain (a ++ b) := by
  intro e he
  rcases List.mem_append.mp he with h | h
  · exact ha e h
  · exact hb e h

theorem plain_cons {e : Event} {t : List Event} (he : e.plain = true) (h : Plain t) :
    Plain (e :: t) := by
  intro x hx
  rcases List.mem_cons.mp hx with h1 | h1
  · rw [h1]; exact he
  · exact h x h1

theorem mem_statuses (p : UploadProgress) (t : List Event) :
    p ∈ statuses t ↔ Event.status p ∈ t := by
  unfold statuses
  rw [List.mem_filterMap]
  constructor
  · rintro ⟨e, he, hp⟩
    cases e <;> simp at hp
    subst hp
    exact he
  · intro h
    exact ⟨_, h, rfl⟩

theorem pollLoop_plain (M : Nat) (env : PipelineEnv) (job : UploadJob) (c : CIDs)
    (ps : Str) (args : List Str) (fuel : Nat) :
    ∀ (a : Nat) (interval : Int) (ce : Nat),
      Plain (pollLoop M env job c ps args fuel a interval ce).1 := by
  induction fuel with
  | zero => intro a interval ce; exact plain_nil
  | succ n ih =>
    intro a interval ce
    unfold pollLoop
    simp only
    repeat' split
    all_goals simp only [List.cons_append, List.nil_append, List.append_assoc]
    all_goals
      repeat first
        | exact plain_nil
        | exact ih _ _ _
        | refine plain_cons (by rfl) ?_

theorem addRootsLoop_plain (env : PipelineEnv) (job : UploadJob) (c : CIDs) (ps : Str)
    (args : List Str) (fuel : Nat) :
    ∀ (attempt : Nat) (backoff : Int),
      Plain (addRootsLoop env job c ps args fuel attempt backoff).1 := by
  induction fuel with
  | zero => intro attempt backoff; exact plain_nil
  | succ n ih =>
    intro attempt backoff
    unfold addRootsLoop
    simp only
    repeat' split
    all_goals simp only [List.cons_append, List.nil_append, List.append_assoc]
    all_goals
      repeat first
        | exact plain_nil
        | exact ih _ _
        | refine plain_cons (by rfl) ?_

theorem pollLoop_found (M : Nat) (env : PipelineEnv) (job : UploadJob) (c : CIDs)
    (ps : Str) (args : List Str) (id : Str) (fuel : Nat) :
    ∀ (a : Nat) (interval : Int) (ce : Nat),
      (pollLoop M env job c ps args fuel a interval ce).2.1 = some id →
      ∃ k, extractRootID (env.getProofSet k).stdout c.baseCID = some id := by
  induction fuel with
  | zero => intro a interval ce h; cases h
  | succ n ih =>
    intro a interval ce
    unfold pollLoop
    simp only
    repeat' split
    all_goals first
      | exact ih _ _ _
      | (intro h; cases h; done)
      | (intro h
         simp only [Option.some.injEq] at h
         subst h
         exact ⟨_, by assumption⟩)

theorem extractRootID_atoi (output target id : Str)
    (h : extractRootID output target = some id) : (Atoi id).isSome = true := by
  obtain ⟨i, _, _, hor⟩ := scanRootLines_sound target (splitLines output) [] id h
  rcases hor with ⟨j, _, _, ha, _⟩ | ⟨_, hne, _⟩
  · exact ha
  · exact absurd rfl hne

theorem endsPersisting_base (env : PipelineEnv) (job : UploadJob) (c : CIDs) (dbID : Nat)
    (rootID : Str) (p : UploadProgress) (h : Closes env p) :
    EndsPersisting env job c dbID rootID p
      [.createPiece (pieceRecord env job c dbID rootID), .status p] :=
  ⟨[], plain_nil, rfl, h⟩

theorem endsPersisting_append {env : PipelineEnv} {job : UploadJob} {c : CIDs} {dbID : Nat}
    {rootID : Str} {p : UploadProgress} {a t : List Event} (ha : Plain a)
    (h : EndsPersisting env job c dbID rootID p t) :
    EndsPersisting env job c dbID rootID p (a ++ t) := by
  obtain ⟨pre, hpre, ht, hc⟩ := h
  exact ⟨a ++ pre, plain_append ha hpre, by rw [ht, List.append_assoc], hc⟩

theorem endsPersisting_cons {env : PipelineEnv} {job : UploadJob} {c : CIDs} {dbID : Nat}
    {rootID : Str} {p : UploadProgress} {e : Event} {t : List Event} (he : e.plain = true)
    (h : EndsPersisting env job c dbID rootID p t) :
    EndsPersisting env job c dbID rootID p (e :: t) :=
  endsPersisting_append (a := [e]) (plain_cons he plain_nil) h

theorem outcome_append {env : PipelineEnv} {job : UploadJob} {out : Str} {a t : List Event}
    (ha : Plain a) (h : Outcome env job out t) : Outcome env job out (a ++ t) := by
  rcases h with h | ⟨c, dbID, ps, p, hc, hps, h⟩
  · exact Or.inl (plain_append ha h)
  · exact Or.inr ⟨c, dbID, ps, p, hc, hps, endsPersisting_append ha h⟩

theorem outcome_cons {env : PipelineEnv} {job : UploadJob} {out : Str} {e : Event}
    {t : List Event} (he : e.plain = true) (h : Outcome env job out t) :
    Outcome env job out (e :: t) :=
  outcome_append (a := [e]) (plain_cons he plain_nil) h

theorem finishUpload_cases (M : Nat) (env : PipelineEnv) (job : UploadJob) (c : CIDs)
    (dbID : Nat) (ps : Str) (found : Option Str) (ce : Nat) :
    Plain (finishUpload M env job c dbID ps found ce) ∨
    ∃ p, EndsPersisting env job c dbID (found.getD "1".toList) p
      (finishUpload M env job c dbID ps found ce) := by
  unfold finishUpload
  simp only
  split
  · exact Or.inl (plain_cons (by rfl) plain_nil)
  · right
    cases hce : env.createPieceError with
    | none =>
      refine ⟨{ Status := "complete".toList
                Progress := 100
                Message := "Upload completed successfully".toList
                CID := c.compoundCID
                Filename := job.Filename
                ProofSetID := ps
                JobID := job.jobID }, ?_⟩
      split
      all_goals simp only [List.cons_append, List.nil_append, List.append_assoc]
      all_goals
        repeat first
          | exact endsPersisting_base _ _ _ _ _ _ (Or.inl ⟨hce, rfl, rfl⟩)
          | refine endsPersisting_cons (by rfl) ?_
    | some err =>
      refine ⟨{ Status := "error".toList
                Error := "Failed to save piece information to database".toList
                Message := err
                CID := c.compoundCID
                ProofSetID := ps
                JobID := job.jobID }, ?_⟩
      split
      all_goals simp only [List.cons_append, List.nil_append, List.append_assoc]
      all_goals
        repeat first
          | exact endsPersisting_base _ _ _ _ _ _ (Or.inr ⟨hce, rfl, rfl⟩)
          | refine endsPersisting_cons (by rfl) ?_

theorem bindAndConfirm_outcome (env : PipelineEnv) (job : UploadJob) (c : CIDs) :
    Plain (bindAndConfirm env job c) ∨
    ∃ dbID ps p, env.proofSet = .found dbID ps ∧
      EndsPersisting env job c dbID
        ((pollResult maxPollAttempts env job c ps).2.1.getD "1".toList) p
        (bindAndConfirm env job c) := by
  unfold bindAndConfirm
  cases hps : env.proofSet with
  | dbError e =>
    left
    simp only [List.cons_append, List.nil_append]
    repeat first
      | exact plain_nil
      | refine plain_cons (by rfl) ?_
  | notFound =>
    left
    simp only [List.cons_append, List.nil_append]
    repeat first
      | exact plain_nil
      | refine plain_cons (by rfl) ?_
  | found dbID ps =>
    simp only
    split
    · left
      simp only [List.cons_append, List.nil_append]
      repeat first
        | exact plain_nil
        | refine plain_cons (by rfl) ?_
    · have hb := addRootsLoop_plain env job c ps
        ["add-roots".toList, "--service-url".toList, env.ServiceURL,
         "--service-name".toList, env.ServiceName, "--proof-set-id".toList, ps,
         "--root".toList, c.compoundCID] maxRetries 1 (10 * second)
      generalize addRootsLoop env job c ps
        ["add-roots".toList, "--service-url".toList, env.ServiceURL,
         "--service-name".toList, env.ServiceName, "--proof-set-id".toList, ps,
         "--root".toList, c.compoundCID] maxRetries 1 (10 * second) = binding at hb ⊢
      obtain ⟨events, exit⟩ := binding
      simp only at hb ⊢
      cases exit with
      | returned =>
        left
        simp only [List.cons_append, List.nil_append, List.append_nil]
        repeat first
          | exact hb
          | refine plain_cons (by rfl) ?_
      | exhausted =>
        left
        simp only [List.cons_append, List.nil_append, List.append_assoc]
        repeat first
          | exact plain_append hb (plain_cons (by rfl) plain_nil)
          | refine plain_cons (by rfl) ?_
      | success =>
        simp only [confirmRoot_eq, List.cons_append, List.nil_append, List.append_assoc]
        have hp := pollLoop_plain maxPollAttempts env job c ps
          ["get-proof-set".toList, "--service-url".toList, env.ServiceURL,
           "--service-name".toList, env.ServiceName, ps] maxPollAttempts 0 (10 * second) 0
        rcases finishUpload_cases maxPollAttempts env job c dbID ps
          (pollResult maxPollAttempts env job c ps).2.1
          (pollResult maxPollAttempts env job c ps).2.2 with hf | ⟨p, hf⟩
        · left
          repeat first
            | exact plain_append hb
                (plain_cons (by rfl) (plain_append hp hf))
            | refine plain_cons (by rfl) ?_
        · right
          refine ⟨dbID, ps, p, rfl, ?_⟩
          repeat first
            | exact endsPersisting_append hb
                (endsPersisting_cons (by rfl) (endsPersisting_append hp hf))
            | refine endsPersisting_cons (by rfl) ?_

theorem processUploadAfterUpload_outcome (env : PipelineEnv) (job : UploadJob) (out : Str) :
    Outcome env job out (processUploadAfterUpload env job out) := by
  unfold processUploadAfterUpload
  cases h : extractCID out with
  | failed => exact Or.inl (plain_cons (by rfl) plain_nil)
  | matched c =>
    rcases bindAndConfirm_outcome env job c with hb | ⟨dbID, ps, p, hps, hb⟩
    · exact Or.inl hb
    · exact Or.inr ⟨c, dbID, ps, p, by rw [h]; rfl, hps, hb⟩
  | fallback c =>
    rcases bindAndConfirm_outcome env job c with hb | ⟨dbID, ps, p, hps, hb⟩
    · exact Or.inl hb
    · exact Or.inr ⟨c, dbID, ps, p, by rw [h]; rfl, hps, hb⟩

theorem tickBody_plain (job : UploadJob) (start i cp : Int) (stage : Str)
    (hs : stage ≠ "complete".toList) : Plain (tickBody job start i stage cp).1 := by
  unfold tickBody
  repeat' split
  all_goals first
    | exact plain_nil
    | exact plain_cons
        (by
          show (decide (stage ≠ "complete".toList) && decide (([] : Str) ≠ persistenceError)) =
            true
          rw [decide_eq_true hs]
          rfl) plain_nil

theorem prepareTicker_plain (job : UploadJob) (start : Int) (stage : Str)
    (hs : stage ≠ "complete".toList) (ticks : Nat) :
    ∀ (i cp : Int), Plain (prepareTicker job start stage ticks i cp).1 := by
  induction ticks with
  | zero => intro i cp; exact plain_nil
  | succ ticks ih =>
    intro i cp
    unfold prepareTicker
    split
    · exact plain_append (tickBody_plain job start i cp stage hs) (ih _ _)
    · exact plain_nil

theorem lateIteration_plain (h : HeadEnv) (job : UploadJob) (start i cp : Int) (stage : Str)
    (hs : stage ≠ "complete".toList) : Plain (lateIteration h job start i stage cp).1 := by
  unfold lateIteration
  split
  · exact tickBody_plain job start i cp stage hs
  · exact plain_nil

theorem createServiceSecret_plain (h : HeadEnv) (job : UploadJob) (cp : Int) :
    Plain (createServiceSecret h job cp).1 := by
  unfold createServiceSecret
  repeat' split
  all_goals simp only [List.cons_append, List.nil_append]
  all_goals
    repeat first
      | exact plain_nil
      | refine plain_cons (by rfl) ?_

theorem stageFile_plain (h : HeadEnv) (job : UploadJob) (failure : UploadProgress)
    (hf : stageFile h job = some failure) : (updateStatus job failure).plain = true := by
  unfold stageFile at hf
  repeat' split at hf
  all_goals first
    | (exfalso; exact Option.noConfusion hf)
    | (simp only [Option.some.injEq] at hf
       subst hf
       rfl)

theorem preparePiece_outcome (env : PipelineEnv) (h : HeadEnv) (job : UploadJob)
    (currentProgress : Int) :
    Outcome env job h.upload.stdout (preparePiece env h job currentProgress) := by
  have hprep : "preparing".toList ≠ "complete".toList := by decide
  have hupl : "uploading".toList ≠ "complete".toList := by decide
  unfold preparePiece
  simp only
  split
  · left
    simp only [List.cons_append, List.nil_append, List.append_assoc]
    refine plain_cons (by rfl) ?_
    refine plain_append (prepareTicker_plain _ _ _ hprep _ _ _) ?_
    refine plain_cons ?_ (lateIteration_plain _ _ _ _ _ _ hprep)
    split <;> rfl
  · simp only [List.cons_append, List.nil_append, List.append_assoc]
    refine outcome_cons (by rfl) ?_
    refine outcome_append (prepareTicker_plain _ _ _ hprep _ _ _) ?_
    refine outcome_cons (by rfl) ?_
    refine outcome_append (lateIteration_plain _ _ _ _ _ _ hupl) ?_
    refine outcome_cons (by rfl) ?_
    refine outcome_cons (by rfl) ?_
    split
    · exact Or.inl (plain_cons (by rfl) plain_nil)
    · exact processUploadAfterUpload_outcome env job h.upload.stdout

theorem processUpload_outcome (env : PipelineEnv) (h : HeadEnv) (job : UploadJob)
    (prev : UploadProgress) :
    Outcome env job h.upload.stdout (processUpload env h job prev) := by
  unfold processUpload
  split
  · exact Or.inl (plain_cons (by rfl) plain_nil)
  split
  · exact Or.inl (plain_cons (by rfl) plain_nil)
  simp only
  have hsec := createServiceSecret_plain h job 0
  split
  · exact Or.inl hsec
  · split
    · rename_i failure hf
      exact Or.inl (plain_append hsec (plain_cons (stageFile_plain h job failure hf) plain_nil))
    · split
      · exact Or.inl (plain_append hsec (plain_cons (by rfl) plain_nil))
      · exact outcome_append hsec (preparePiece_outcome env h job _)

theorem plain_status (p : UploadProgress) (h : (Event.status p).plain = true) :
    p.Status ≠ "complete".toList ∧ p.Error ≠ persistenceError := by
  simpa [Event.plain] using h

theorem closes_iff (env : PipelineEnv) (p : UploadProgress) (h : Closes env p) :
    (p.Status = "complete".toList ↔ env.createPieceError = none) ∧
    (p.Error = persistenceError ↔ env.createPieceError = some p.Message) := by
  rcases h with ⟨h1, h2, h3⟩ | ⟨h1, h2, h3⟩
  · refine ⟨⟨fun _ => h1, fun _ => h2⟩, ⟨fun e => ?_, fun e => ?_⟩⟩
    · rw [h3] at e
      exact absurd e (by decide)
    · rw [h1] at e
      cases e
  · refine ⟨⟨fun e => ?_, fun e => ?_⟩, ⟨fun _ => h1, fun _ => h3⟩⟩
    · rw [h2] at e
      exact absurd e (by decide)
    · rw [h1] at e
      cases e

/-- C21: in every run of `processUpload`, a registry write with the stage `complete` or
with the error text of a failed creation of the piece record occurs only as the last
event of the run, directly after the creation of the piece record with the compound
identifier extracted from the upload output, the proof set row of the user and the
record id the polling loop found (`1` when it found none); nothing before is such a
write or a creation. The stage of that write is `complete` exactly when the creation
succeeded, and it carries the error text of a failed creation, with the error of the
database as message, exactly when the creation failed. Whenever a run creates the piece
record, its last registry write is this closing write. So the error text of a failed
creation occurs in no write of a run that fails before the creation. -/
theorem complete_only_after_persistence (env : PipelineEnv) (h : HeadEnv) (job : UploadJob)
    (prev : UploadProgress) :
    (∀ p ∈ statuses (processUpload env h job prev),
      p.Status = "complete".toList ∨ p.Error = persistenceError →
      ∃ c proofSetDBID proofSetID,
        (extractCID h.upload.stdout).cids = some c ∧
        env.proofSet = .found proofSetDBID proofSetID ∧
        EndsPersisting env job c proofSetDBID
          ((pollResult maxPollAttempts env job c proofSetID).2.1.getD "1".toList) p
          (processUpload env h job prev) ∧
        (p.Status = "complete".toList ↔ env.createPieceError = none) ∧
        (p.Error = persistenceError ↔ env.createPieceError = some p.Message)) ∧
    (∀ piece, Event.createPiece piece ∈ processUpload env h job prev →
      ∃ p, (statuses (processUpload env h job prev)).getLast? = some p ∧ Closes env p ∧
        (env.createPieceError = none → p.Status = "complete".toList) ∧
        (∀ err, env.createPieceError = some err →
          p.Status = "error".toList ∧ p.Error = persistenceError ∧ p.Message = err)) := by
  have ho := processUpload_outcome env h job prev
  generalize processUpload env h job prev = t at ho ⊢
  constructor
  · intro p hp hcond
    rw [mem_statuses] at hp
    rcases ho with hpl | ⟨c, dbID, ps, p2, hc, hps, hend⟩
    · have := plain_status p (hpl _ hp)
      rcases hcond with e | e
      · exact absurd e this.1
      · exact absurd e this.2
    · obtain ⟨pre, hpre, ht, hcl⟩ := hend
      have hp2 : p = p2 := by
        rw [ht] at hp
        rcases List.mem_append.mp hp with hm | hm
        · have := plain_status p (hpre _ hm)
          rcases hcond with e | e
          · exact absurd e this.1
          · exact absurd e this.2
        · simpa using hm
      subst hp2
      exact ⟨c, dbID, ps, hc, hps, ⟨pre, hpre, ht, hcl⟩, closes_iff env p hcl⟩
  · intro piece hp
    rcases ho with hpl | ⟨c, dbID, ps, p2, hc, hps, hend⟩
    · have := hpl _ hp
      cases this
    · obtain ⟨pre, hpre, ht, hcl⟩ := hend
      refine ⟨p2, ?_, hcl, ?_, ?_⟩
      · rw [ht, statuses_append]
        simp [statuses]
      · intro hn
        exact (closes_iff env p2 hcl).1.mpr hn
      · intro err herr
        rcases hcl with ⟨h1, _, _⟩ | ⟨h1, h2, h3⟩
        · rw [h1] at herr
          cases herr
        · rw [h1] at herr
          exact ⟨h2, h3, Option.some.inj herr⟩

/-- C21, witness: the run of `demoEnv`, `demoHead` and `demoJob` writes `complete`
after it created the piece record, and the same run with a database that refuses the
record ends in `error` with the error text of a failed creation. -/
theorem complete_only_after_persistence_witness :
    demoCompleteRecord ∈ statuses (processUpload demoEnv demoHead demoJob {}) ∧
    (∃ c proofSetDBID proofSetID,
      (extractCID demoHead.upload.stdout).cids = some c ∧
      demoEnv.proofSet = .found proofSetDBID proofSetID ∧
      EndsPersisting demoEnv demoJob c proofSetDBID
        ((pollResult maxPollAttempts demoEnv demoJob c proofSetID).2.1.getD "1".toList)
        demoCompleteRecord (processUpload demoEnv demoHead demoJob {}) ∧
      (demoCompleteRecord.Status = "complete".toList ↔ demoEnv.createPieceError = none) ∧
      (demoCompleteRecord.Error = persistenceError ↔
        demoEnv.createPieceError = some demoCompleteRecord.Message)) ∧
    Event.createPiece demoPiece ∈ processUpload failingCreateEnv demoHead demoJob {} ∧
    (∃ p, (statuses (processUpload failingCreateEnv demoHead demoJob {})).getLast? = some p ∧
      Closes failingCreateEnv p ∧
      (failingCreateEnv.createPieceError = none → p.Status = "complete".toList) ∧
      (∀ err, failingCreateEnv.createPieceError = some err →
        p.Status = "error".toList ∧ p.Error = persistenceError ∧ p.Message = err)) :=
  ⟨by decide,
   (complete_only_after_persistence demoEnv demoHead demoJob {}).1 demoCompleteRecord
     (by decide) (Or.inl rfl),
   by decide,
   (complete_only_after_persistence failingCreateEnv demoHead demoJob {}).2 demoPiece
     (by decide)⟩

/-- C26: every piece record a run of `processUpload` creates has a Root ID that
`strconv.Atoi` accepts, so the tests of `RemoveRoot` on the stored Root ID pass; the id
is the fallback `1` or the id the extraction read from a listing of the proof set for
the base identifier of the upload, which it takes only from a `Root ID:` line whose
value `strconv.Atoi` accepts. -/
theorem persisted_root_id_parses (env : PipelineEnv) (h : HeadEnv) (job : UploadJob)
    (prev : UploadProgress) (piece : Piece)
    (hp : Event.createPiece piece ∈ processUpload env h job prev) :
    (Atoi piece.RootID).isSome = true ∧
    checkStoredRootID (some piece.RootID) = .ok ∧
    (piece.RootID = "1".toList ∨
      ∃ c k, (extractCID h.upload.stdout).cids = some c ∧
        extractRootID (env.getProofSet k).stdout c.baseCID = some piece.RootID) := by
  have ho := processUpload_outcome env h job prev
  generalize processUpload env h job prev = t at ho hp
  rcases ho with hpl | ⟨c, dbID, ps, p2, hc, hps, pre, hpre, ht, hcl⟩
  · have := hpl _ hp
    cases this
  · have hpiece : piece = pieceRecord env job c dbID
        ((pollResult maxPollAttempts env job c ps).2.1.getD "1".toList) := by
      rw [ht] at hp
      rcases List.mem_append.mp hp with hm | hm
      · have := hpre _ hm
        cases this
      · simpa using hm
    have key : (Atoi piece.RootID).isSome = true ∧
        (piece.RootID = "1".toList ∨
          ∃ c k, (extractCID h.upload.stdout).cids = some c ∧
            extractRootID (env.getProofSet k).stdout c.baseCID = some piece.RootID) := by
      rw [hpiece]
      simp only [pieceRecord]
      cases hf : (pollResult maxPollAttempts env job c ps).2.1 with
      | none => exact ⟨by decide, Or.inl rfl⟩
      | some id =>
        obtain ⟨k, hk⟩ := pollLoop_found _ _ _ _ _ _ id _ _ _ _ hf
        exact ⟨extractRootID_atoi _ _ _ hk, Or.inr ⟨c, k, hc, hk⟩⟩
    refine ⟨key.1, ?_, key.2⟩
    have hne := Atoi_isSome_ne_nil _ key.1
    simp [checkStoredRootID, hne, key.1]

/-- C26, witness: the run of `demoEnv`, `demoHead` and `demoJob` creates a piece record
with the Root ID `4`, which the tests of `RemoveRoot` accept. -/
theorem persisted_root_id_parses_witness :
    Event.createPiece demoPiece ∈ processUpload demoEnv demoHead demoJob {} ∧
    (Atoi demoPiece.RootID).isSome = true ∧
    checkStoredRootID (some demoPiece.RootID) = .ok :=
  ⟨by decide,
   (persisted_root_id_parses demoEnv demoHead demoJob {} demoPiece (by decide)).1,
   (persisted_root_id_parses demoEnv demoHead demoJob {} demoPiece (by decide)).2.1⟩

/-! ## Runs that reach the proof set query -/

theorem early_not_lookup (e : Event) (h : e.early = true) : e.isLookup = false := by
  cases e <;> first | rfl | cases h

theorem reaches_append {env : PipelineEnv} {job : UploadJob} {out : Str} {a t : List Event}
    (ha : ∀ e ∈ a, e.early = true) (h : Reaches env job out t) :
    Reaches env job out (a ++ t) := by
  rcases h with h | ⟨pre, c, hc, hpre, ht⟩
  · left
    intro e he
    rcases List.mem_append.mp he with h1 | h1
    · exact early_not_lookup e (ha e h1)
    · exact h e h1
  · right
    refine ⟨a ++ pre, c, hc, ?_, by rw [ht, List.append_assoc]⟩
    intro e he
    rcases List.mem_append.mp he with h1 | h1
    · exact ha e h1
    · exact hpre e h1

theorem reaches_cons {env : PipelineEnv} {job : UploadJob} {out : Str} {e : Event}
    {t : List Event} (he : e.early = true) (h : Reaches env job out t) :
    Reaches env job out (e :: t) :=
  reaches_append (a := [e]) (by intro x hx; rw [List.mem_singleton.mp hx]; exact he) h

theorem reaches_stop {env : PipelineEnv} {job : UploadJob} {out : Str} {a : List Event}
    (p : UploadProgress) (ha : ∀ e ∈ a, e.early = true) :
    Reaches env job out (a ++ [Event.status p]) := by
  left
  intro e he
  rcases List.mem_append.mp he with h1 | h1
  · exact early_not_lookup e (ha e h1)
  · rw [List.mem_singleton.mp h1]
    rfl

theorem early_nil : ∀ e ∈ ([] : List Event), e.early = true := by
  intro e he
  cases he

theorem early_cons {e : Event} {t : List Event} (he : e.early = true)
    (h : ∀ x ∈ t, x.early = true) : ∀ x ∈ e :: t, x.early = true := by
  intro x hx
  rcases List.mem_cons.mp hx with h1 | h1
  · rw [h1]; exact he
  · exact h x h1

theorem early_append {a b : List Event} (ha : ∀ x ∈ a, x.early = true)
    (hb : ∀ x ∈ b, x.early = true) : ∀ x ∈ a ++ b, x.early = true := by
  intro x hx
  rcases List.mem_append.mp hx with h1 | h1
  · exact ha x h1
  · exact hb x h1

theorem tickBody_early (job : UploadJob) (start i cp : Int) (stage : Str)
    (hs : stage ≠ "error".toList) (hp : stage ≠ "pending".toList) :
    ∀ e ∈ (tickBody job start i stage cp).1, e.early = true := by
  unfold tickBody
  repeat' split
  all_goals first
    | exact early_nil
    | exact early_cons
        (by
          show (decide (stage ≠ "error".toList) && decide (stage ≠ "pending".toList)) = true
          rw [decide_eq_true hs, decide_eq_true hp]
          rfl) early_nil

theorem prepareTicker_early (job : UploadJob) (start : Int) (stage : Str)
    (hs : stage ≠ "error".toList) (hp : stage ≠ "pending".toList) (ticks : Nat) :
    ∀ (i cp : Int), ∀ e ∈ (prepareTicker job start stage ticks i cp).1, e.early = true := by
  induction ticks with
  | zero => intro i cp; exact early_nil
  | succ ticks ih =>
    intro i cp
    unfold prepareTicker
    split
    · exact early_append (tickBody_early job start i cp stage hs hp) (ih _ _)
    · exact early_nil

theorem lateIteration_early (h : HeadEnv) (job : UploadJob) (start i cp : Int) (stage : Str)
    (hs : stage ≠ "error".toList) (hp : stage ≠ "pending".toList) :
    ∀ e ∈ (lateIteration h job start i stage cp).1, e.early = true := by
  unfold lateIteration
  split
  · exact tickBody_early job start i cp stage hs hp
  · exact early_nil

theorem processUploadAfterUpload_reaches (env : PipelineEnv) (job : UploadJob) (out : Str) :
    Reaches env job out (processUploadAfterUpload env job out) := by
  unfold processUploadAfterUpload
  cases h : extractCID out with
  | failed =>
    left
    intro e he
    rw [List.mem_singleton.mp he]
    rfl
  | matched c => exact Or.inr ⟨[], c, by rw [h]; rfl, early_nil, rfl⟩
  | fallback c => exact Or.inr ⟨[], c, by rw [h]; rfl, early_nil, rfl⟩

theorem preparePiece_reaches (env : PipelineEnv) (h : HeadEnv) (job : UploadJob)
    (currentProgress : Int) :
    Reaches env job h.upload.stdout (preparePiece env h job currentProgress) := by
  have hp1 : "preparing".toList ≠ "error".toList := by decide
  have hp2 : "preparing".toList ≠ "pending".toList := by decide
  have hu1 : "uploading".toList ≠ "error".toList := by decide
  have hu2 : "uploading".toList ≠ "pending".toList := by decide
  unfold preparePiece
  simp only
  split
  · left
    simp only [List.cons_append, List.nil_append, List.append_assoc]
    intro e he
    rcases List.mem_cons.mp he with h1 | h1
    · rw [h1]; rfl
    rcases List.mem_append.mp h1 with h2 | h2
    · exact early_not_lookup e (prepareTicker_early _ _ _ hp1 hp2 _ _ _ e h2)
    rcases List.mem_cons.mp h2 with h3 | h3
    · rw [h3]
      split <;> rfl
    · exact early_not_lookup e (lateIteration_early _ _ _ _ _ _ hp1 hp2 e h3)
  · simp only [List.cons_append, List.nil_append, List.append_assoc]
    refine reaches_cons (by rfl) ?_
    refine reaches_append (prepareTicker_early _ _ _ hp1 hp2 _ _ _) ?_
    refine reaches_cons (by rfl) ?_
    refine reaches_append (lateIteration_early _ _ _ _ _ _ hu1 hu2) ?_
    refine reaches_cons (by rfl) ?_
    refine reaches_cons (by rfl) ?_
    split
    · left
      intro e he
      rw [List.mem_singleton.mp he]
      rfl
    · exact processUploadAfterUpload_reaches env job h.upload.stdout

theorem createServiceSecret_cases (h : HeadEnv) (job : UploadJob) (cp : Int) :
    ((createServiceSecret h job cp).2 = none →
      ∀ e ∈ (createServiceSecret h job cp).1, e.isLookup = false) ∧
    ((createServiceSecret h job cp).2 ≠ none →
      ∀ e ∈ (createServiceSecret h job cp).1, e.early = true) := by
  unfold createServiceSecret
  repeat' split
  · exact ⟨fun e => by simp at e, fun _ => early_nil⟩
  · refine ⟨fun _ => ?_, fun e => absurd rfl e⟩
    intro e he
    simp only [List.cons_append, List.nil_append, List.mem_cons, List.mem_singleton,
      List.not_mem_nil, or_false] at he
    rcases he with rfl | rfl <;> rfl
  · exact ⟨fun e => by simp at e, fun _ => early_cons (by rfl) early_nil⟩

theorem processUpload_reaches (env : PipelineEnv) (h : HeadEnv) (job : UploadJob)
    (prev : UploadProgress) :
    Reaches env job h.upload.stdout (processUpload env h job prev) := by
  unfold processUpload
  split
  · left
    intro e he
    rw [List.mem_singleton.mp he]
    rfl
  split
  · left
    intro e he
    rw [List.mem_singleton.mp he]
    rfl
  simp only
  obtain ⟨hnone, hsome⟩ := createServiceSecret_cases h job 0
  split
  · rename_i hsec
    exact Or.inl (hnone hsec)
  · rename_i cp hcp
    have hearly := hsome (by rw [hcp]; exact fun e => Option.noConfusion e)
    split
    · exact reaches_stop _ hearly
    · split
      · exact reaches_stop _ hearly
      · exact reaches_append hearly (preparePiece_reaches env h job cp)

theorem bindAndConfirm_pending (env : PipelineEnv) (job : UploadJob) (c : CIDs) (dbID : Nat)
    (hps : env.proofSet = .found dbID []) :
    bindAndConfirm env job c =
      [updateStatus job
        { Status := "adding_root".toList
          Progress := 95
          Message := "Finding or creating a proof set for your file...".toList
          CID := c.compoundCID },
       .sleep (1 * second),
       .findProofSet job.userID,
       .status (pendingRecord job c)] := by
  simp [bindAndConfirm, hps, updateStatus, pendingRecord]

/-- C15 (as amended): in every run of `processUpload` that makes the proof set query,
with a proof set record whose remote identifier is empty, everything before the binding
stage is a sleep or a registry write with a stage other than `error` and `pending`; the
registry then receives `adding_root` with progress 95 and, after the query, `pending`,
which is the last thing the run does: the run ends in stage `pending`, no stage `error`
is written in the whole run, the `add-roots` command is never run, and nothing is
written after `pending`. The `pending` value carries progress 0, so the recorded
progress is not advanced by it or after it. -/
theorem pending_halts (env : PipelineEnv) (h : HeadEnv) (job : UploadJob)
    (prev : UploadProgress) (dbID : Nat)
    (hps : env.proofSet = .found dbID [])
    (hq : Event.findProofSet job.userID ∈ processUpload env h job prev) :
    ∃ pre c, (extractCID h.upload.stdout).cids = some c ∧
      processUpload env h job prev =
        pre ++
          [updateStatus job
            { Status := "adding_root".toList
              Progress := 95
              Message := "Finding or creating a proof set for your file...".toList
              CID := c.compoundCID },
           .sleep (1 * second),
           .findProofSet job.userID,
           .status (pendingRecord job c)] ∧
      (∀ e ∈ pre, e.early = true) ∧
      finalStage (processUpload env h job prev) = some "pending".toList ∧
      (∀ p ∈ statuses (processUpload env h job prev), p.Status ≠ "error".toList) ∧
      (∀ e ∈ processUpload env h job prev, e.isAddRoots = false) ∧
      (pendingRecord job c).Progress = 0 := by
  have hr := processUpload_reaches env h job prev
  generalize processUpload env h job prev = t at hr hq ⊢
  rcases hr with hno | ⟨pre, c, hc, hpre, ht⟩
  · have := hno _ hq
    cases this
  · rw [bindAndConfirm_pending env job c dbID hps] at ht
    refine ⟨pre, c, hc, ht, hpre, ?_, ?_, ?_, rfl⟩
    · rw [ht]
      apply finalStage_append
      simp [finalStage, statuses, updateStatus, pendingRecord]
    · intro p hp
      rw [mem_statuses, ht] at hp
      rcases List.mem_append.mp hp with h1 | h1
      · have h2 := hpre _ h1
        simp only [Event.early, Bool.and_eq_true, decide_eq_true_eq] at h2
        exact h2.1
      · have hne1 : "adding_root".toList ≠ "error".toList := by decide
        have hne2 : "pending".toList ≠ "error".toList := by decide
        simp only [updateStatus, List.mem_cons, Event.status.injEq, List.mem_singleton,
          List.not_mem_nil, or_false, false_or, reduceCtorEq] at h1
        rcases h1 with rfl | rfl
        · exact hne1
        · exact hne2
    · intro e he
      rw [ht] at he
      rcases List.mem_append.mp he with h1 | h1
      · have h2 := hpre _ h1
        cases e <;> first | rfl | cases h2
      · simp only [List.mem_cons, List.mem_singleton, List.not_mem_nil, or_false] at h1
        rcases h1 with rfl | rfl | rfl | rfl <;> rfl

/-- C15, witness: the run of `demoHead` and `demoJob` with a proof set record whose
remote identifier is empty makes the proof set query, ends in `pending`, writes no
`error` and never runs `add-roots`. -/
theorem pending_halts_witness :
    Event.findProofSet demoJob.userID ∈ processUpload pendingEnv demoHead demoJob {} ∧
    finalStage (processUpload pendingEnv demoHead demoJob {}) = some "pending".toList ∧
    (∀ p ∈ statuses (processUpload pendingEnv demoHead demoJob {}),
      p.Status ≠ "error".toList) ∧
    (∀ e ∈ processUpload pendingEnv demoHead demoJob {}, e.isAddRoots = false) :=
  match pending_halts pendingEnv demoHead demoJob {} 5 rfl (by decide) with
  | ⟨_, _, _, _, _, hfin, herr, hadd, _⟩ => ⟨by decide, hfin, herr, hadd⟩

/-- C15 (as stated) fails: with a proof set record whose remote identifier is empty the
registry holds progress 95 before the transition to `pending` and progress 0 after it;
and a run in which the `prepare-piece` command fails ends in `error`, not in `pending`,
with the same proof set record. -/
theorem pending_resets_progress :
    (statuses (processUploadAfterUpload pendingEnv demoJob "bagaAAA".toList)).map
        (fun p => (p.Status, p.Progress)) =
      [("adding_root".toList, 95), ("pending".toList, 0)] ∧
    (statuses (processUpload pendingEnv demoHead demoJob {})).map
        (fun p => (p.Status, p.Progress)) =
      [("preparing".toList, 5), ("uploading".toList, 30), ("uploading".toList, 30),
       ("adding_root".toList, 95), ("pending".toList, 0)] ∧
    pendingEnv.proofSet = .found 5 [] ∧
    finalStage (processUpload pendingEnv failingPrepare demoJob {}) =
      some "error".toList := by
  decide

/-! ## Paths of the chunk files -/

theorem digitChar_value (k : Nat) (hk : k < 10) :
    (Nat.digitChar k).toNat - '0'.toNat = k ∧ isDigit (Nat.digitChar k) = true ∧
      Nat.digitChar k ≠ '/' ∧ Nat.digitChar k ≠ '-' ∧ Nat.digitChar k ≠ '.' := by
  interval_cases k <;> decide

theorem digitsValue_append (a b : Str) :
    digitsValue (a ++ b) =
      b.foldl (fun n c => n * 10 + (c.toNat - '0'.toNat)) (digitsValue a) := by
  simp [digitsValue, List.foldl_append]

theorem toDigitsCore_spec (fuel : Nat) :
    ∀ (n : Nat) (ds : Str), n < fuel →
      ∃ pre, Nat.toDigitsCore 10 fuel n ds = pre ++ ds ∧ digitsValue pre = n ∧ pre ≠ [] ∧
        ∀ c ∈ pre, isDigit c = true ∧ c ≠ '/' ∧ c ≠ '-' ∧ c ≠ '.' := by
  induction fuel with
  | zero => intro n ds h; omega
  | succ fuel ih =>
    intro n ds hn
    have hd := digitChar_value (n % 10) (Nat.mod_lt _ (by decide))
    unfold Nat.toDigitsCore
    simp only
    split
    · rename_i h0
      refine ⟨[Nat.digitChar (n % 10)], rfl, ?_, by simp, ?_⟩
      · simp only [digitsValue, List.foldl_cons, List.foldl_nil, zero_mul, zero_add]
        rw [hd.1]
        omega
      · intro c hc
        rw [List.mem_singleton.mp hc]
        exact hd.2
    · rename_i h0
      obtain ⟨pre, hpre, hval, _, hall⟩ := ih (n / 10) (Nat.digitChar (n % 10) :: ds) (by omega)
      refine ⟨pre ++ [Nat.digitChar (n % 10)], by rw [hpre]; simp, ?_, by simp, ?_⟩
      · rw [digitsValue_append, hval]
        simp only [List.foldl_cons, List.foldl_nil]
        rw [hd.1]
        omega
      · intro c hc
        rcases List.mem_append.mp hc with h1 | h1
        · exact hall c h1
        · rw [List.mem_singleton.mp h1]
          exact hd.2

theorem toDigits_spec (n : Nat) :
    digitsValue (Nat.toDigits 10 n) = n ∧ Nat.toDigits 10 n ≠ [] ∧
      ∀ c ∈ Nat.toDigits 10 n, isDigit c = true ∧ c ≠ '/' ∧ c ≠ '-' ∧ c ≠ '.' := by
  obtain ⟨pre, hpre, hval, hne, hall⟩ := toDigitsCore_spec (n + 1) n [] (by omega)
  have e : Nat.toDigits 10 n = pre := by
    unfold Nat.toDigits
    rw [hpre]
    simp
  rw [e]
  exact ⟨hval, hne, hall⟩

theorem itoa_injective (i j : Int) (h : itoa i = itoa j) : i = j := by
  unfold itoa at h
  have hi := toDigits_spec i.toNat
  have hj := toDigits_spec j.toNat
  have hi2 := toDigits_spec i.natAbs
  have hj2 := toDigits_spec j.natAbs
  split at h <;> split at h
  · simp only [List.cons.injEq, true_and] at h
    have := congrArg digitsValue h
    rw [hi2.1, hj2.1] at this
    omega
  · exfalso
    have hm : '-' ∈ Nat.toDigits 10 j.toNat := by rw [← h]; simp
    exact (hj.2.2 _ hm).2.2.1 rfl
  · exfalso
    have hm : '-' ∈ Nat.toDigits 10 i.toNat := by rw [h]; simp
    exact (hi.2.2 _ hm).2.2.1 rfl
  · have := congrArg digitsValue h
    rw [hi.1, hj.1] at this
    omega

theorem pathElements_ne_nil (s : Str) : pathElements s ≠ [] := by
  cases s with
  | nil => simp [pathElements]
  | cons c cs =>
    unfold pathElements
    split
    · simp
    · split <;> simp

theorem pathElements_simple (name : Str) (h : '/' ∉ name) : pathElements name = [name] := by
  induction name with
  | nil => rfl
  | cons c cs ih =>
    have hc : c ≠ '/' := fun e => h (by rw [e]; simp)
    have hcs : '/' ∉ cs := fun e => h (List.mem_cons_of_mem _ e)
    unfold pathElements
    rw [if_neg hc, ih hcs]

theorem pathElements_append (t name : Str) (h : '/' ∉ name) :
    pathElements (t ++ '/' :: name) = pathElements t ++ [name] := by
  induction t with
  | nil =>
    show pathElements ('/' :: name) = _
    unfold pathElements
    rw [if_pos rfl, pathElements_simple name h]
    rfl
  | cons c cs ih =>
    show pathElements (c :: (cs ++ '/' :: name)) = pathElements (c :: cs) ++ [name]
    rw [pathElements, pathElements, ih]
    split
    · rfl
    · cases hp : pathElements cs with
      | nil => exact absurd hp (pathElements_ne_nil cs)
      | cons e es => rfl

theorem joinElements_append (xs : List Str) (name : Str) :
    joinElements (xs ++ [name]) =
      (if xs = [] then name else joinElements xs ++ '/' :: name) := by
  induction xs with
  | nil => rfl
  | cons e es ih =>
    cases es with
    | nil => rfl
    | cons e2 es2 =>
      show joinElements (e :: (e2 :: es2 ++ [name])) = _
      have : joinElements (e :: (e2 :: es2 ++ [name])) =
          e ++ '/' :: joinElements (e2 :: es2 ++ [name]) := rfl
      rw [this, ih]
      simp [joinElements]

/-- For a file name without a separator that is not empty, `.` or `..`, the joined
path is a prefix that depends only on the directory, followed by the name. -/
theorem filepathJoin_simple (t : Str) :
    ∃ P : Str, ∀ name : Str, name ≠ [] → '/' ∉ name → name ≠ ['.'] → name ≠ ['.', '.'] →
      filepathJoin t name = P ++ name := by
  cases t with
  | nil =>
    refine ⟨[], ?_⟩
    intro name hne hs h1 h2
    cases name with
    | nil => exact absurd rfl hne
    | cons c cs =>
      have hc : c ≠ '/' := fun e => hs (by rw [e]; simp)
      have hstep : cleanStep false [] (c :: cs) = [c :: cs] := by
        unfold cleanStep
        rw [if_neg (by
          intro e
          rcases e with e | e
          · exact hne e
          · exact h1 e), if_neg h2]
      simp only [filepathJoin, ne_eq, not_true_eq_false, if_false, reduceCtorEq,
        not_false_eq_true, if_true, filepathClean, pathElements_simple _ hs, hc,
        decide_False, List.foldl_cons, List.foldl_nil, hstep, Bool.false_eq_true,
        List.nil_append, List.reverse_cons, List.reverse_nil, joinElements]
  | cons c cs =>
    refine ⟨(if decide (c = '/') then ['/'] else []) ++
      (if ((pathElements (c :: cs)).foldl (cleanStep (decide (c = '/'))) []).reverse = [] then []
       else joinElements
        ((pathElements (c :: cs)).foldl (cleanStep (decide (c = '/'))) []).reverse ++ ['/']), ?_⟩
    intro name hne hs h1 h2
    have hstep : ∀ kept, cleanStep (decide (c = '/')) kept name = name :: kept := by
      intro kept
      unfold cleanStep
      simp [hne, h1, h2]
    have hjoin : filepathJoin (c :: cs) name = filepathClean (c :: (cs ++ '/' :: name)) := by
      simp [filepathJoin]
    rw [hjoin]
    unfold filepathClean
    simp only
    have hpe : pathElements (c :: (cs ++ '/' :: name)) = pathElements (c :: cs) ++ [name] :=
      pathElements_append (c :: cs) name hs
    rw [hpe, List.foldl_append]
    simp only [List.foldl_cons, List.foldl_nil, hstep, List.reverse_cons,
      joinElements_append]
    generalize ((pathElements (c :: cs)).foldl (cleanStep (decide (c = '/'))) []).reverse = ks
    have hout : ((if decide (c = '/') = true then ['/'] else []) ++
        (if ks = [] then name else joinElements ks ++ '/' :: name)) ≠ [] := by
      intro e
      have := (List.append_eq_nil.mp e).2
      split at this
      · exact hne this
      · simp at this
    rw [if_neg hout]
    by_cases hk : ks = [] <;> simp [hk]

theorem chunkName_simple (i : Int) :
    "chunk_".toList ++ itoa i ≠ [] ∧ '/' ∉ "chunk_".toList ++ itoa i ∧
      "chunk_".toList ++ itoa i ≠ ['.'] ∧ "chunk_".toList ++ itoa i ≠ ['.', '.'] := by
  refine ⟨by simp, ?_, by simp, by simp⟩
  intro hm
  rcases List.mem_append.mp hm with h | h
  · revert h; decide
  · unfold itoa at h
    split at h
    · rcases List.mem_cons.mp h with h1 | h1
      · revert h1; decide
      · exact ((toDigits_spec _).2.2 _ h1).2.1 rfl
    · exact ((toDigits_spec _).2.2 _ h).2.1 rfl

theorem chunkPath_injective (t : Str) (i j : Int) (h : chunkPath t i = chunkPath t j) :
    i = j := by
  obtain ⟨P, hP⟩ := filepathJoin_simple t
  unfold chunkPath at h
  have hi := chunkName_simple i
  have hj := chunkName_simple j
  rw [hP _ hi.1 hi.2.1 hi.2.2.1 hi.2.2.2, hP _ hj.1 hj.2.1 hj.2.2.1 hj.2.2.2] at h
  have h2 := List.append_cancel_left (List.append_cancel_left h)
  exact itoa_injective i j h2

/-! ## The staging directory and the chunk files -/

theorem FileSys.mem_mkdir_self (fs : FileSys) (dir : Str) : dir ∈ (fs.mkdir dir).dirs := by
  unfold FileSys.mkdir
  split
  · assumption
  · simp

theorem FileSys.mem_mkdir_of_mem (fs : FileSys) (dir x : Str) (h : x ∈ fs.dirs) :
    x ∈ (fs.mkdir dir).dirs := by
  unfold FileSys.mkdir
  split
  · exact h
  · simp [h]

theorem UploadChunk_dirs (sv : Server) (inp : ChunkInput) :
    (UploadChunk sv inp).2.fs.dirs = sv.fs.dirs := by
  unfold UploadChunk
  repeat' split
  all_goals rfl

theorem UploadChunk_tempDir (sv : Server) (inp : ChunkInput) (id : Str)
    (info : ChunkedUploadInfo)
    (h : mapGet (UploadChunk sv inp).2.chunkedUploads id = some info) :
    ∃ old, mapGet sv.chunkedUploads id = some old ∧ old.TempDir = info.TempDir ∧
      old.TotalSize = info.TotalSize := by
  unfold UploadChunk at h
  repeat' split at h
  all_goals first
    | exact ⟨info, h, rfl, rfl⟩
    | skip
  rename_i uploadInfo hget _ _ _ _ _ _
  simp only at h
  by_cases hk : id = inp.uploadId
  · subst hk
    rw [mapGet_mapSet_same] at h
    cases h
    exact ⟨uploadInfo, hget, rfl, rfl⟩
  · rw [mapGet_mapSet_other _ _ _ _ hk] at h
    exact ⟨info, h, rfl, rfl⟩

theorem bindInit_totalSize (body : Option InitRequest) (r : InitRequest)
    (h : bindInit body = some r) : inInt64 r.TotalSize = true := by
  have h2 := bindInit_some body r h
  simp only [bindInit] at h2
  split at h2
  · rename_i hc
    simp only [Bool.and_eq_true] at hc
    exact hc.1.1.1.1.1.1.1
  · cases h2

/-- In every reachable state the staging directory of every upload record exists and
the declared size of the record is within the range of a Go `int64`. -/
theorem reachable_staged (sv : Server) (h : Reachable sv) :
    ∀ id info, mapGet sv.chunkedUploads id = some info →
      info.TempDir ∈ sv.fs.dirs ∧ inInt64 info.TotalSize = true := by
  induction h with
  | start => intro id info hget; simp [mapGet] at hget
  | initiate sv inp _ ih =>
    intro id info hget
    cases huser : inp.userID with
    | none =>
      simp only [InitChunkedUpload, huser] at hget ⊢
      exact ih id info hget
    | some uid =>
      cases hbind : bindInit inp.body with
      | none =>
        simp only [InitChunkedUpload, huser, hbind] at hget ⊢
        exact ih id info hget
      | some r =>
        cases hmk : inp.mkdirError with
        | some err =>
          simp only [InitChunkedUpload, huser, hbind, hmk] at hget ⊢
          exact ih id info hget
        | none =>
          simp only [InitChunkedUpload, huser, hbind, hmk] at hget ⊢
          by_cases hk : id = inp.newUUID
          · subst hk
            rw [mapGet_mapSet_same] at hget
            cases hget
            exact ⟨FileSys.mem_mkdir_self _ _, bindInit_totalSize _ _ hbind⟩
          · rw [mapGet_mapSet_other _ _ _ _ hk] at hget
            exact ⟨FileSys.mem_mkdir_of_mem _ _ _
              (FileSys.mem_mkdir_of_mem _ _ _ (ih id info hget).1), (ih id info hget).2⟩
  | acceptChunk sv inp _ ih =>
    intro id info hget
    obtain ⟨old, hold, ht, hs⟩ := UploadChunk_tempDir sv inp id info hget
    rw [UploadChunk_dirs, ← ht, ← hs]
    exact ih id old hold

theorem UploadChunk_fresh_fs (sv : Server) (r : ChunkInput) (uid : Nat) (id : Str) (k : Int)
    (info : ChunkedUploadInfo) (data : Bytes) (hid : id ≠ [])
    (hget : mapGet sv.chunkedUploads id = some info) (hown : info.UserID = uid)
    (hu : r.userID = some uid) (hi : r.uploadId = id) (ha : Atoi r.chunkIndex = some k)
    (hd : r.chunk = .ok data) (hrange : 0 ≤ k ∧ k < info.TotalChunks)
    (hmem : k ∉ info.ChunksReceived) :
    (UploadChunk sv r).2.fs = sv.fs.write (chunkPath info.TempDir k) data := by
  subst hi
  have hne := Atoi_some_ne_nil _ _ ha
  have hrange2 : ¬ (k < 0 ∨ k ≥ info.TotalChunks) := by omega
  simp [UploadChunk, hu, hid, hne, ha, hget, hown, hrange2, hmem, hd]

theorem storesData_storesChunk (uid : Nat) (id : Str) (d : Int → Bytes) (r : ChunkInput)
    (k : Int) (h : StoresData uid id d r k) : StoresChunk uid id r k :=
  ⟨h.1, h.2.1, h.2.2.1, d k, h.2.2.2⟩

theorem submitAll_files (uid : Nat) (id : Str) (hid : id ≠ []) (d : Int → Bytes)
    (reqs : List ChunkInput) (idxs : List Int)
    (hreqs : List.Forall₂ (StoresData uid id d) reqs idxs) :
    ∀ (sv : Server) (info : ChunkedUploadInfo),
      mapGet sv.chunkedUploads id = some info → info.UserID = uid →
      (∀ k ∈ idxs, 0 ≤ k ∧ k < info.TotalChunks ∧ k ∉ info.ChunksReceived) →
      idxs.Nodup →
      (∃ info2, mapGet (submitAll sv reqs).chunkedUploads id = some info2 ∧
        info2.TempDir = info.TempDir ∧ info2.Filename = info.Filename ∧
        info2.ID = info.ID) ∧
      (∀ k ∈ idxs, (submitAll sv reqs).fs.read (chunkPath info.TempDir k) = some (d k)) ∧
      (∀ q, (∀ k ∈ idxs, q ≠ chunkPath info.TempDir k) →
        (submitAll sv reqs).fs.read q = sv.fs.read q) ∧
      (submitAll sv reqs).fs.dirs = sv.fs.dirs := by
  induction hreqs with
  | nil =>
    intro sv info hget _ _ _
    exact ⟨⟨info, hget, rfl, rfl, rfl⟩, by simp, fun _ _ => rfl, rfl⟩
  | @cons r k reqs idxs hrk _ ih =>
    intro sv info hget hown hall hnd
    have hk := hall k (List.mem_cons_self _ _)
    have hnd2 := List.nodup_cons.1 hnd
    have hstep := UploadChunk_fresh sv r uid id k info hid hget hown
      (storesData_storesChunk uid id d r k hrk) ⟨hk.1, hk.2.1⟩ hk.2.2
    have hfs := UploadChunk_fresh_fs sv r uid id k info (d k) hid hget hown hrk.1 hrk.2.1
      hrk.2.2.1 hrk.2.2.2 ⟨hk.1, hk.2.1⟩ hk.2.2
    obtain ⟨⟨info2, hget2, ht2, hf2, hi2⟩, hfiles, hframe, hdirs⟩ :=
      ih (UploadChunk sv r).2 _ hstep hown (by
        intro j hj
        have hj2 := hall j (List.mem_cons_of_mem _ hj)
        refine ⟨hj2.1, hj2.2.1, ?_⟩
        show j ∉ insertKey k info.ChunksReceived
        unfold insertKey
        rw [if_neg hk.2.2]
        intro hmem
        rcases List.mem_cons.1 hmem with rfl | hmem
        · exact hnd2.1 hj
        · exact hj2.2.2 hmem) hnd2.2
    have hsub : submitAll sv (r :: reqs) = submitAll (UploadChunk sv r).2 reqs := by
      simp [submitAll]
    rw [hsub]
    refine ⟨⟨info2, hget2, ht2, hf2, hi2⟩, ?_, ?_, ?_⟩
    · intro j hj
      rcases List.mem_cons.1 hj with rfl | hj
      · have := hframe (chunkPath info.TempDir j) (by
          intro k2 hk2 e
          have := chunkPath_injective _ _ _ e
          subst this
          exact hnd2.1 hk2)
        rw [this, hfs]
        exact FileSys.read_write_same _ _ _
      · exact hfiles j hj
    · intro q hq
      have h1 := hframe q (fun k2 hk2 => hq k2 (List.mem_cons_of_mem _ hk2))
      rw [h1, hfs]
      exact FileSys.read_write_other _ _ _ _ (hq k (List.mem_cons_self _ _))
    · rw [hdirs, UploadChunk_dirs]

theorem assembleLoop_runs (f : AssembleFaults) (info : ChunkedUploadInfo)
    (jobID final : Str) (d : Int → Bytes) (hread : ∀ i, f.readError i = none)
    (hwrite : ∀ i, f.writeError i = none) (n : Nat) :
    ∀ (i total : Int) (s : AsmState),
      (∀ j : Nat, j < n →
        s.server.fs.read (chunkPath info.TempDir (i + j)) = some (d (i + j)) ∧
        chunkPath info.TempDir (i + j) ≠ final) →
      ∃ s3 W, assembleLoop f info jobID final n i total s = (s3, some W) := by
  induction n with
  | zero => intro i total s _; exact ⟨s, total, rfl⟩
  | succ n ih =>
    intro i total s hstore
    have h0 := hstore 0 (by omega)
    simp only [Nat.cast_zero, add_zero] at h0
    have e : ∀ k : Nat, i + 1 + (k : Int) = i + ((k + 1 : Nat) : Int) := by
      intro k; push_cast; ring
    have hstat : s.server.fs.stat (chunkPath info.TempDir i) = true :=
      FileSys.stat_of_read _ _ (by rw [h0.1]; rfl)
    unfold assembleLoop
    simp only [AsmState.update_fs, hstat, h0.1, hread i, hwrite i, Bool.true_eq_false,
      if_false]
    apply ih
    intro j hj
    have hj2 := hstore (j + 1) (by omega)
    rw [e j]
    refine ⟨?_, hj2.2⟩
    show (s.server.fs.append final _).read _ = _
    unfold FileSys.append
    rw [FileSys.read_write_other _ _ _ _ hj2.2]
    exact hj2.1

theorem wrap64_of_inInt64 (x : Int) (h : inInt64 x = true) : wrap64 x = x := by
  unfold inInt64 at h
  simp only [Bool.and_eq_true, decide_eq_true_eq] at h
  unfold wrap64
  norm_num at h ⊢
  omega

theorem assembleAndProcessFile_handsOff (f : AssembleFaults) (sv : Server)
    (info : ChunkedUploadInfo) (jobID : Str) (d : Int → Bytes) (hf : NoFaults f)
    (hdir : sv.fs.stat info.TempDir = true)
    (hstore : ∀ j : Nat, j < info.TotalChunks.toNat →
      sv.fs.read (chunkPath info.TempDir j) = some (d j) ∧
      chunkPath info.TempDir j ≠ filepathJoin info.TempDir info.Filename)
    (hsum : ((chunksInOrder d info.TotalChunks.toNat).length : Int) = info.TotalSize)
    (hsize : inInt64 info.TotalSize = true) :
    (assembleAndProcessFile f sv info jobID).outcome =
      .handedOff (filepathJoin info.TempDir info.Filename) ∧
    (assembleAndProcessFile f sv info jobID).state.server.fs.read
      (filepathJoin info.TempDir info.Filename) =
        some (chunksInOrder d info.TotalChunks.toNat) := by
  obtain ⟨hrem, hcre, hread, hwrite, hsync, hclose, hstatE⟩ := hf
  have hfinal : (assembleStart sv info jobID).server.fs.read
      (filepathJoin info.TempDir info.Filename) = some [] := by
    show (FileSys.write _ _ _).read _ = some []
    exact FileSys.read_write_same _ _ _
  have hstore2 : ∀ j : Nat, j < info.TotalChunks.toNat →
      (assembleStart sv info jobID).server.fs.read (chunkPath info.TempDir ((0 : Int) + j)) =
        some (d ((0 : Int) + j)) ∧
      chunkPath info.TempDir ((0 : Int) + j) ≠ filepathJoin info.TempDir info.Filename := by
    intro j hj
    have hj2 := hstore j hj
    simp only [zero_add]
    refine ⟨?_, hj2.2⟩
    show (FileSys.write _ _ _).read _ = _
    rw [FileSys.read_write_other _ _ _ _ hj2.2, setUploadStatus_fs]
    exact hj2.1
  obtain ⟨s3, W, hloop⟩ := assembleLoop_runs f info jobID
    (filepathJoin info.TempDir info.Filename) d hread hwrite info.TotalChunks.toNat 0 0
    (assembleStart sv info jobID) hstore2
  have hcontent := assembleLoop_content f info jobID (filepathJoin info.TempDir info.Filename)
    d info.TotalChunks.toNat 0 0 (assembleStart sv info jobID) s3 [] W hfinal hstore2 hloop
  simp only [zero_add, List.nil_append] at hcontent
  obtain ⟨content3, hc3, hW⟩ := assembleLoop_written f info jobID
    (filepathJoin info.TempDir info.Filename) info.TotalChunks.toNat 0 0
    (assembleStart sv info jobID) s3 W [] hfinal rfl hloop
  have hc : content3 = chunksInOrder d info.TotalChunks.toNat := by
    rw [hcontent] at hc3
    exact (Option.some.inj hc3).symm
  have hWT : W = info.TotalSize := by
    rw [hW, hc, hsum]
    exact wrap64_of_inInt64 _ hsize
  have hread3 : s3.server.fs.read (filepathJoin info.TempDir info.Filename) =
      some (chunksInOrder d info.TotalChunks.toNat) := hcontent
  unfold assembleAndProcessFile
  unfold assembleStart at hloop
  simp only [setUploadStatus_fs, hdir, hrem, hcre, Bool.true_eq_false, if_false] at hloop ⊢
  split
  · rename_i h; simp at h
  · rw [hloop]
    simp only [hWT, ne_eq, not_true_eq_false, if_false, hsync, hclose, hstatE, hread3, hsum,
      AsmState.update_fs, setUploadStatus_fs, mapGet_mapSet_same]
    exact ⟨trivial, trivial⟩

/-! ## Completion and assembly of a fully submitted upload -/

/-- C10 (as amended): for an upload of a reachable state with a positive chunk count
and nothing received yet, after each index in `[0, TotalChunks)` was submitted exactly
once by the owner and stored, `CompleteChunkedUpload` answers with success and the job
id. When in addition the byte lengths of the chunks add up to `TotalSize`, the path of
the final file is not the path of a chunk file, and no file operation of the assembly
fails, the assembly hands the final file to the pipeline, and the file holds the chunks
in index order, which are exactly `TotalSize` bytes. -/
theorem complete_after_all_chunks (sv : Server) (hreach : Reachable sv) (uid : Nat)
    (id : Str) (info : ChunkedUploadInfo) (reqs : List ChunkInput) (idxs : List Int)
    (cinp : CompleteInput) (f : AssembleFaults) (d : Int → Bytes)
    (hid : id ≠ []) (hget : mapGet sv.chunkedUploads id = some info)
    (hown : info.UserID = uid) (hempty : info.ChunksReceived = [])
    (hpos : 0 < info.TotalChunks)
    (hreqs : List.Forall₂ (StoresData uid id d) reqs idxs) (hnd : idxs.Nodup)
    (hall : ∀ k, k ∈ idxs ↔ 0 ≤ k ∧ k < info.TotalChunks)
    (hcu : cinp.userID = some uid) (hcb : cinp.body = some id)
    (hsum : ((chunksInOrder d info.TotalChunks.toNat).length : Int) = info.TotalSize)
    (hname : ∀ k, 0 ≤ k → k < info.TotalChunks →
      chunkPath info.TempDir k ≠ filepathJoin info.TempDir info.Filename)
    (hf : NoFaults f) :
    (CompleteChunkedUpload (submitAll sv reqs) cinp).1 = .ok id cinp.newUUID ∧
    ∃ rec, mapGet (CompleteChunkedUpload (submitAll sv reqs) cinp).2.1.chunkedUploads id =
        some rec ∧
      rec.TotalSize = info.TotalSize ∧ rec.Status = "assembling".toList ∧
      (assembleAndProcessFile f (CompleteChunkedUpload (submitAll sv reqs) cinp).2.1 rec
          cinp.newUUID).outcome = .handedOff (filepathJoin info.TempDir info.Filename) ∧
      (assembleAndProcessFile f (CompleteChunkedUpload (submitAll sv reqs) cinp).2.1 rec
          cinp.newUUID).state.server.fs.read (filepathJoin info.TempDir info.Filename) =
        some (chunksInOrder d info.TotalChunks.toNat) ∧
      ((chunksInOrder d info.TotalChunks.toNat).length : Int) = info.TotalSize := by
  have hok := reachable_records_ok sv hreach id info hget
  have hstaged := reachable_staged sv hreach id info hget
  have hzero : info.UploadedChunks = 0 := by
    obtain ⟨⟨_, _, hc, _, _⟩, _, _⟩ := hok
    rw [hc, hempty]
    rfl
  have hfresh : ∀ k ∈ idxs, 0 ≤ k ∧ k < info.TotalChunks ∧ k ∉ info.ChunksReceived := by
    intro k hk
    have := (hall k).1 hk
    exact ⟨this.1, this.2, by rw [hempty]; simp⟩
  have hreqs2 : List.Forall₂ (StoresChunk uid id) reqs idxs :=
    hreqs.imp (fun r k h => storesData_storesChunk uid id d r k h)
  obtain ⟨info2, hget2, hown2, hT2, hS2, hcount2⟩ :=
    submitAll_fresh uid id hid reqs idxs hreqs2 sv info hget hok hown hfresh hnd
  obtain ⟨⟨info3, hget3, hTD, hFn, _⟩, hfiles, _, hdirs⟩ :=
    submitAll_files uid id hid d reqs idxs hreqs sv info hget hown hfresh hnd
  have e23 : info3 = info2 := by
    rw [hget2] at hget3
    exact (Option.some.inj hget3).symm
  subst e23
  have hfull : info3.UploadedChunks = info3.TotalChunks := by
    rw [hcount2, hzero, hT2, covering_length idxs _ hnd hall hpos]
    simp
  have hc := CompleteChunkedUpload_complete (submitAll sv reqs) cinp uid id info3
    hcu hcb hid hget2 hown2 hfull
  have hdir : (submitAll sv reqs).fs.stat info.TempDir = true := by
    unfold FileSys.stat
    rw [hdirs]
    simp [hstaged.1]
  have hstore : ∀ j : Nat, j < info.TotalChunks.toNat →
      (submitAll sv reqs).fs.read (chunkPath info.TempDir j) = some (d j) ∧
      chunkPath info.TempDir j ≠ filepathJoin info.TempDir info.Filename := by
    intro j hj
    have hj2 : (0 : Int) ≤ j ∧ (j : Int) < info.TotalChunks := by omega
    exact ⟨hfiles j ((hall j).2 hj2), hname j hj2.1 hj2.2⟩
  have hhand := assembleAndProcessFile_handsOff f
    { submitAll sv reqs with
      chunkedUploads :=
        mapSet (submitAll sv reqs).chunkedUploads id
          { info3 with Status := "assembling".toList } }
    { info3 with Status := "assembling".toList } cinp.newUUID d hf
    (by show (submitAll sv reqs).fs.stat info3.TempDir = true; rw [hTD]; exact hdir)
    (by
      show ∀ j : Nat, j < info3.TotalChunks.toNat →
        (submitAll sv reqs).fs.read (chunkPath info3.TempDir j) = some (d j) ∧
        chunkPath info3.TempDir j ≠ filepathJoin info3.TempDir info3.Filename
      rw [hTD, hFn, hT2]
      exact hstore)
    (by
      show ((chunksInOrder d info3.TotalChunks.toNat).length : Int) = info3.TotalSize
      rw [hT2, hS2]
      exact hsum)
    (by show inInt64 info3.TotalSize = true; rw [hS2]; exact hstaged.2)
  have hfields : filepathJoin info.TempDir info.Filename =
      filepathJoin ({ info3 with Status := "assembling".toList } : ChunkedUploadInfo).TempDir
        ({ info3 with Status := "assembling".toList } : ChunkedUploadInfo).Filename := by
    show _ = filepathJoin info3.TempDir info3.Filename
    rw [hTD, hFn]
  have hchunks : chunksInOrder d info.TotalChunks.toNat =
      chunksInOrder d
        ({ info3 with Status := "assembling".toList } : ChunkedUploadInfo).TotalChunks.toNat := by
    show _ = chunksInOrder d info3.TotalChunks.toNat
    rw [hT2]
  refine ⟨by rw [hc], { info3 with Status := "assembling".toList },
    by rw [hc]; exact mapGet_mapSet_same _ _ _, hS2, rfl, ?_, ?_, hsum⟩
  · rw [hc, hfields]
    exact hhand.1
  · rw [hc, hfields, hchunks]
    exact hhand.2

theorem demoRequests_storeData :
    List.Forall₂ (StoresData 7 "u1".toList demoData) demoRequests [2, 0, 1] :=
  List.Forall₂.cons ⟨by decide, by decide, by decide, rfl⟩
    (List.Forall₂.cons ⟨by decide, by decide, by decide, rfl⟩
      (List.Forall₂.cons ⟨by decide, by decide, by decide, rfl⟩ List.Forall₂.nil))

/-- C10, witness: the upload `u1` of 3 bytes in three chunks receives the chunks 2, 0
and 1 with one byte each; the completion request is accepted, and the assembly hands
the file `f.bin` with the bytes 1, 2, 3 to the pipeline. -/
theorem complete_after_all_chunks_witness :
    (CompleteChunkedUpload (submitAll (InitChunkedUpload {} smallInit).2 demoRequests)
        demoComplete).1 = .ok "u1".toList "j1".toList ∧
    ∃ rec, mapGet (CompleteChunkedUpload
          (submitAll (InitChunkedUpload {} smallInit).2 demoRequests)
          demoComplete).2.1.chunkedUploads "u1".toList = some rec ∧
      rec.TotalSize = smallInfo.TotalSize ∧ rec.Status = "assembling".toList ∧
      (assembleAndProcessFile {} (CompleteChunkedUpload
          (submitAll (InitChunkedUpload {} smallInit).2 demoRequests) demoComplete).2.1 rec
          demoComplete.newUUID).outcome =
        .handedOff (filepathJoin smallInfo.TempDir smallInfo.Filename) ∧
      (assembleAndProcessFile {} (CompleteChunkedUpload
          (submitAll (InitChunkedUpload {} smallInit).2 demoRequests) demoComplete).2.1 rec
          demoComplete.newUUID).state.server.fs.read
            (filepathJoin smallInfo.TempDir smallInfo.Filename) =
        some (chunksInOrder demoData smallInfo.TotalChunks.toNat) ∧
      ((chunksInOrder demoData smallInfo.TotalChunks.toNat).length : Int) =
        smallInfo.TotalSize :=
  complete_after_all_chunks (InitChunkedUpload {} smallInit).2
    (Reachable.initiate _ _ Reachable.start) 7 "u1".toList smallInfo demoRequests [2, 0, 1]
    demoComplete {} demoData (by decide) (by decide) (by decide) (by decide) (by decide)
    demoRequests_storeData (by decide)
    (by
      intro k
      simp only [List.mem_cons, List.mem_singleton, List.not_mem_nil, or_false]
      show k = 2 ∨ k = 0 ∨ k = 1 ↔ 0 ≤ k ∧ k < 3
      omega)
    (by decide) (by decide) (by decide)
    (by
      intro k h0 h3
      have h3b : k < 3 := h3
      interval_cases k <;> decide)
    ⟨rfl, rfl, fun _ => rfl, fun _ => rfl, rfl, rfl, rfl⟩

end HotVault
